import Mathlib

/-!
# Verification of the spreadsheet-backed backup store (`sheet.js`)

A shallow embedding of the core of the repository: the `Sheet` /
`BackupSheet` / `MetricsSheet` classes of `src/lib/sheet.js` and the
`MetricsSheet.addComputedCountsField` method, together with the pure
utility `batchConsecutiveIntegers` and `utils.getHeaderFromRecords`.

Modelling conventions for the host spreadsheet (Google Apps Script), which
is an external collaborator of the code under verification:

* A cell holds a JavaScript value as returned by `Range.getValues`:
  a string, a number, or a `Date` object.  A blank cell reads back as the
  empty string, so the blank cell is represented by `Cell.str ""`.
* A `Date`-typed cell is represented by `Cell.date d` where `d` is its
  `YYYY-MM-DD` rendering; writing a string in `YYYY-MM-DD` shape into a
  cell is coerced by the sheet into a date cell that displays verbatim as
  entered (`coerceCell`), and `Date.prototype.toISOString().slice(0,10)`
  on the value read back returns `d`.
* `Grid.rows` models the content region of the sheet (rows
  `1..getLastRow()`, columns `1..getLastColumn()`); cells outside a stored
  row read as blank.  `getRange` with a nonpositive coordinate or size
  throws, modelled by `Except.error`.
* `TextFinder.matchEntireCell(true)` compares the search string against
  the displayed text of each cell and returns matches in row-major order.
* A JavaScript property key (used when a record is indexed by a value read
  from a cell, and for the keys of a counts object) is the string
  conversion of the value, modelled injectively by `Cell.keyStr`.
-/

set_option autoImplicit false

namespace AirtableSheets

/-- A JavaScript value stored in (or read from) a sheet cell: a string
(the blank cell reads as `""`), a number, or a `Date` whose
`toISOString().slice(0,10)` rendering is the stored string. -/
inductive Cell where
  | str (s : String)
  | num (n : Int)
  | date (d : String)
  deriving Repr, DecidableEq

/-- The blank cell: reads back from the sheet as the empty string. -/
def Cell.blank : Cell := Cell.str ""

/-- Whether a string has the `YYYY-MM-DD` shape that the host sheet
recognises and auto-coerces to a date-typed cell on write. -/
def isIsoDate (s : String) : Bool :=
  match s.toList with
  | [y1, y2, y3, y4, d1, m1, m2, d2, a1, a2] =>
      y1.isDigit && y2.isDigit && y3.isDigit && y4.isDigit &&
      d1 == '-' && m1.isDigit && m2.isDigit && d2 == '-' &&
      a1.isDigit && a2.isDigit
  | _ => false

/-- The host sheet's value coercion on write: a string in date shape
becomes a date cell (displaying verbatim as entered); other values are
stored as given. -/
def coerceCell (c : Cell) : Cell :=
  match c with
  | .str s => if isIsoDate s then .date s else .str s
  | c => c

/-- `TextFinder.matchEntireCell(true)` semantics: the displayed text of
the cell equals the (nonempty) search string.  A date cell entered as a
`YYYY-MM-DD` string displays as that string; a number displays in its
decimal form; searching the empty string finds nothing. -/
def Cell.matchesText (c : Cell) (v : String) : Bool :=
  if v == "" then false
  else
    match c with
    | .str s => s == v
    | .num n => toString n == v
    | .date d => d == v

/-- JavaScript `===` comparison between a cell's value (as read by
`getValues`) and a string: only a string cell can be equal. -/
def Cell.eqStr (c : Cell) (v : String) : Bool :=
  match c with
  | .str s => s == v
  | _ => false

/-- JavaScript property-key stringification (`ToPropertyKey`) of a cell
value, used when such a value indexes an object.  `Date.prototype.toString`
is modelled by the injective encoding `"Date(" ++ d ++ ")"`. -/
def Cell.keyStr : Cell → String
  | .str s => s
  | .num n => toString n
  | .date d => "Date(" ++ d ++ ")"

/-- `Date.prototype.toISOString().slice(0, 10)` applied to a value read
from a cell: defined on date cells, a thrown `TypeError` on anything
else (strings and numbers have no `toISOString` method). -/
def Cell.toIso10 : Cell → Except String String
  | .date d => .ok d
  | _ => .error "TypeError: toISOString is not a function"

/-- A JavaScript record (flat object) as produced by the Airtable fetch
and consumed by the sheet code: an insertion-ordered association list of
property keys to values.  Reading an absent key yields `undefined`, which
every consumer in the code either writes as a blank cell or treats as
"no value"; it is represented by the blank cell. -/
abbrev Rec := List (String × Cell)

/-- `record[f]`: the value at key `f`, or `undefined` (blank) if absent. -/
def recGet (r : Rec) (f : String) : Cell :=
  match r.find? (fun p => p.1 == f) with
  | some p => p.2
  | none => Cell.blank

/-- `record[f] = v`: overwrite the existing key in place, or append a new
key at the end (JavaScript object insertion order). -/
def recSet (r : Rec) (f : String) (v : Cell) : Rec :=
  if r.any (fun p => p.1 == f) then
    r.map (fun p => if p.1 == f then (f, v) else p)
  else r ++ [(f, v)]

/-- `utils.getHeaderFromRecords`: the union of the records' keys, in
first-seen order (JavaScript `Set` iteration order). -/
def getHeaderFromRecords (records : List Rec) : List String :=
  records.foldl
    (fun acc r =>
      r.foldl (fun acc p => if acc.contains p.1 then acc else acc ++ [p.1]) acc)
    []

/-- `batchConsecutiveIntegers` (`src/lib/sheet.js`), translated
expression by expression: `stencil` marks positions starting a new run,
`keys` are the marked indices, `row_counts` their successive differences,
and the result pairs each run's first value with its length. -/
def batchConsecutiveIntegers (integers : List Int) : List (Int × Nat) :=
  let stencil : List Bool :=
    true :: List.zipWith (fun v w => decide (v ≠ w + 1)) integers.tail integers
  let keys : List Nat :=
    (List.range integers.length).filter (fun i => stencil.getD i false)
  let rowCounts : List Nat :=
    List.zipWith (fun v k => v - k) ((keys ++ [integers.length]).drop 1) keys
  List.zipWith (fun k c => (integers.getD k 0, c)) keys rowCounts

/-- The values denoted by a `(start, length)` batch:
`start, start+1, ..., start+length-1`. -/
def expandBatch (b : Int × Nat) : List Int :=
  (List.range b.2).map (fun t : Nat => b.1 + (t : Int))

/-- The `stencil` intermediate of `batchConsecutiveIntegers`: `true` at
each position that starts a new run. -/
def stencilOf (l : List Int) : List Bool :=
  true :: List.zipWith (fun v w => decide (v ≠ w + 1)) l.tail l

/-- The `keys` intermediate of `batchConsecutiveIntegers`, abstracted
over the stencil: the indices below `n` at which the stencil is `true`. -/
def keysAux (S : List Bool) (n : Nat) : List Nat :=
  (List.range n).filter (fun i => S.getD i false)

/-- The `keys` intermediate of `batchConsecutiveIntegers`. -/
def keysOf (l : List Int) : List Nat := keysAux (stencilOf l) l.length

/-- The `row_counts`/`result` tail of `batchConsecutiveIntegers`,
abstracted over the key list. -/
def mkRuns (xs : List Int) (keys : List Nat) : List (Int × Nat) :=
  List.zipWith (fun k c => (xs.getD k 0, c)) keys
    (List.zipWith (fun v k => v - k) ((keys ++ [xs.length]).drop 1) keys)

/-- How prepending one element transforms the run decomposition: it
either extends the first run (when that run continues the new element) or
opens a fresh singleton run. -/
def consStep (a : Int) : List (Int × Nat) → List (Int × Nat)
  | [] => [(a, 1)]
  | (b, c) :: rest =>
      if b = a + 1 then (a, c + 1) :: rest else (a, 1) :: (b, c) :: rest

/-! ### The grid collaborator

`Grid.rows` is the sheet's content region: row `r` (1-indexed) column `c`
holds `(g.rows[r-1])[c-1]`, and any cell outside a stored row reads back
as the blank cell.  `getLastRow`/`getLastColumn` read off the stored
dimensions.  Range operations validate their coordinates the way the
Apps Script API does: a nonpositive row, column, height or width throws. -/

structure Grid where
  rows : List (List Cell)
  deriving Repr, DecidableEq

/-- Pad a row with blanks on the right to length at least `n`. -/
def padTo (row : List Cell) (n : Nat) : List Cell :=
  row ++ List.replicate (n - row.length) Cell.blank

namespace Grid

/-- The cell at 1-indexed `(r, c)`. -/
def cell (g : Grid) (r c : Nat) : Cell :=
  (g.rows.getD (r - 1) []).getD (c - 1) Cell.blank

/-- `getLastRow()`. -/
def lastRow (g : Grid) : Nat := g.rows.length

/-- `getLastColumn()`. -/
def lastColumn (g : Grid) : Nat :=
  g.rows.foldr (fun row m => max row.length m) 0

/-- `getDataRange().isBlank()`. -/
def isBlank (g : Grid) : Bool :=
  g.rows.all (fun row => row.all (fun c => c == Cell.blank))

/-- `getRange(r, c, h, w).getValues()`. -/
def getValuesRect (g : Grid) (r c h w : Int) :
    Except String (List (List Cell)) :=
  if r < 1 || c < 1 || h < 1 || w < 1 then .error "getRange: invalid range"
  else .ok ((List.range h.toNat).map fun i =>
    (List.range w.toNat).map fun j => g.cell (r.toNat + i) (c.toNat + j))

/-- `getRange(r, c).getValue()`. -/
def getValueAt (g : Grid) (r c : Int) : Except String Cell :=
  if r < 1 || c < 1 then .error "getRange: invalid range"
  else .ok (g.cell r.toNat c.toNat)

/-- Overwrite a row's cells starting at 1-indexed column `c` with `vals`
(padding the row with blanks first if it is shorter); written values pass
through the sheet's write coercion. -/
def writeRow (row : List Cell) (c : Nat) (vals : List Cell) : List Cell :=
  padTo (row.take (c - 1)) (c - 1) ++ vals.map coerceCell ++
    row.drop (c - 1 + vals.length)

/-- `getRange(r, c, h, w).setValues(values)`: the dimensions of `values`
must match the range. -/
def setValuesRect (g : Grid) (r c h w : Int) (values : List (List Cell)) :
    Except String Grid :=
  if r < 1 || c < 1 || h < 1 || w < 1 then .error "getRange: invalid range"
  else if values.length ≠ h.toNat || values.any (fun row => row.length ≠ w.toNat)
  then .error "setValues: dimensions do not match"
  else
    let rows := g.rows ++ List.replicate (r.toNat - 1 + h.toNat - g.rows.length) []
    .ok ⟨rows.take (r.toNat - 1) ++
      List.zipWith (fun row vals => writeRow row c.toNat vals)
        ((rows.drop (r.toNat - 1)).take h.toNat) values ++
      rows.drop (r.toNat - 1 + h.toNat)⟩

/-- `getRange(r, c).setValue(v)`. -/
def setValueAt (g : Grid) (r c : Int) (v : Cell) : Except String Grid :=
  setValuesRect g r c 1 1 [[v]]

/-- `appendRow(values)`: writes the row after the last content row;
appending an empty array throws. -/
def appendRow (g : Grid) (vals : List Cell) : Except String Grid :=
  if vals.isEmpty then .error "appendRow: cannot convert empty Array"
  else .ok ⟨g.rows ++ [vals.map coerceCell]⟩

/-- `insertColumnAfter(k)`: inserts a blank column after 1-indexed
column `k`, shifting later columns right. -/
def insertColumnAfter (g : Grid) (k : Int) : Except String Grid :=
  if k < 1 then .error "insertColumnAfter: invalid column"
  else .ok ⟨g.rows.map (fun row =>
    if row.length ≤ k.toNat then row
    else row.take k.toNat ++ [Cell.blank] ++ row.drop k.toNat)⟩

/-- `deleteRows(start, count)`. -/
def deleteRows (g : Grid) (start : Int) (count : Nat) : Except String Grid :=
  if start < 1 || count < 1 || g.rows.length < start.toNat - 1 + count then
    .error "deleteRows: out of bounds"
  else .ok ⟨g.rows.take (start.toNat - 1) ++ g.rows.drop (start.toNat - 1 + count)⟩

/-- The 1-indexed columns (starting at `c0`) of the cells of one row
whose displayed text matches `v` entire-cell, left to right. -/
def rowMatches (row : List Cell) (c0 : Nat) (v : String) : List Nat :=
  match row with
  | [] => []
  | c :: rest =>
      if c.matchesText v then c0 :: rowMatches rest (c0 + 1) v
      else rowMatches rest (c0 + 1) v

/-- The matches of the text finder in the rows `rows`, the first row
carrying 1-indexed number `r0`. -/
def textFinderRows (rows : List (List Cell)) (r0 : Nat) (v : String) :
    List (Nat × Nat) :=
  match rows with
  | [] => []
  | row :: rest =>
      (rowMatches row 1 v).map (fun c => (r0, c)) ++
        textFinderRows rest (r0 + 1) v

/-- `createTextFinder(v).matchEntireCell(true).findAll()`: every matching
cell of the content region in row-major order, as `(row, column)` pairs. -/
def textFinderAll (g : Grid) (v : String) : List (Nat × Nat) :=
  textFinderRows g.rows 1 v

/-- `getDataRange().getValues()`: the full content region; on a sheet
with no content this is the single cell `A1`. -/
def getDataRangeValues (g : Grid) : List (List Cell) :=
  if g.lastRow = 0 || g.lastColumn = 0 then [[Cell.blank]]
  else (List.range g.lastRow).map fun i =>
    (List.range g.lastColumn).map fun j => g.cell (i + 1) (j + 1)

end Grid

/-! ### The `Sheet` class (`src/lib/sheet.js`)

Each method becomes a function of the grid state (plus its JavaScript
arguments), returning in `Except` because the underlying range API
throws on invalid coordinates.  Ambient `new Date()` values are passed
in as the already-rendered `YYYY-MM-DD` strings the code derives from
them. -/

/-- `Sheet.getHeader()`: row 1 as an array of values. -/
def getHeader (g : Grid) : Except String (List Cell) := do
  let vs ← g.getValuesRect 1 1 1 (g.lastColumn : Int)
  pure (vs.getD 0 [])

/-- `Sheet.getColumnId(field_name)`: the 1-indexed column of the first
header cell equal to `field_name`, or `-1` if absent. -/
def getColumnId (g : Grid) (fieldName : String) : Except String Int := do
  let header ← getHeader g
  match header.findIdx? (fun c => c.eqStr fieldName) with
  | some i => pure ((i : Int) + 1)
  | none => pure (-1)

/-- One iteration of `upsertHeader`'s loop over `field_names`: re-read
the header, and if the field is absent, insert a column after
`last_column_id` and write the field name into row 1 at the new
column. -/
def upsertStep (st : Grid × Nat) (f : String) : Except String (Grid × Nat) := do
  let (g, lastCol) := st
  let header ← getHeader g
  if header.any (fun c => c.eqStr f) then
    pure (g, lastCol)
  else
    let g1 ← g.insertColumnAfter (lastCol : Int)
    let g2 ← g1.setValueAt 1 ((lastCol : Int) + 1) (Cell.str f)
    pure (g2, lastCol + 1)

/-- `Sheet.upsertHeader(field_names)`: on a blank sheet, append the
supplied array as the header row verbatim; otherwise append one new
column (tracked by `last_column_id`) for each field missing from the
header, re-reading the header at every iteration. -/
def upsertHeader (g : Grid) (fieldNames : List String) : Except String Grid := do
  if g.isBlank then
    g.appendRow (fieldNames.map Cell.str)
  else
    let st ← fieldNames.foldlM upsertStep (g, g.lastColumn)
    pure st.1

/-- `Sheet.findRowsWhere(field_name, value)`: the rows of the text
finder's matches restricted to the field's column; `[]` when the field
is absent from the header. -/
def findRowsWhere (g : Grid) (fieldName v : String) :
    Except String (List Int) := do
  let fieldId ← getColumnId g fieldName
  if fieldId == -1 then pure []
  else
    let cells := g.textFinderAll v
    pure ((cells.filter (fun rc => (rc.2 : Int) == fieldId)).map
      (fun rc => (rc.1 : Int)))

/-- `Sheet.deleteRowsWhere(field_name, value)`: batch the found rows and
delete batch by batch in reverse order.  The result also carries the
trace of `deleteRows(start_row, row_count)` calls issued, in order. -/
def deleteRowsWhere (g : Grid) (fieldName v : String) :
    Except String (Grid × List (Int × Nat)) := do
  let rowIds ← findRowsWhere g fieldName v
  let batches := batchConsecutiveIntegers rowIds
  batches.reverse.foldlM
    (fun (st : Grid × List (Int × Nat)) b => do
      let g1 ← st.1.deleteRows b.1 b.2
      pure (g1, st.2 ++ [b]))
    (g, [])

/-- `Sheet.appendRows(records)`: upsert the union of the records' keys
into the header, build one row per record aligned to the (re-read)
header, and write the block after the last row.  On an empty `records`
array the JavaScript evaluates `data[0].length` on an empty `data` and
throws a `TypeError`. -/
def appendRows (g : Grid) (records : List Rec) : Except String Grid := do
  let g ← upsertHeader g (getHeaderFromRecords records)
  let header ← getHeader g
  let data := records.map (fun record => header.map (fun f => recGet record f.keyStr))
  let startRow := g.lastRow + 1
  match data with
  | [] => .error "TypeError: cannot read property of undefined"
  | d0 :: _ =>
    g.setValuesRect (startRow : Int) 1 (data.length : Int) (d0.length : Int) data

/-- `Sheet.appendWithDate(records, date_field_name, date_string)`:
stamp every record with the date, then append. -/
def appendWithDate (g : Grid) (records : List Rec)
    (dateFieldName dateString : String) : Except String Grid :=
  appendRows g (records.map (fun r => recSet r dateFieldName (Cell.str dateString)))

/-- `record[f]` when `f` may be absent: `undefined` is `none`. -/
def recGetOpt (r : Rec) (f : String) : Option Cell :=
  (r.find? (fun p => p.1 == f)).map Prod.snd

/-- JavaScript `ToPropertyKey` on a possibly-`undefined` value. -/
def jsKeyOpt : Option Cell → String
  | some c => c.keyStr
  | none => "undefined"

/-- `Object.fromEntries(header.map((k, i) => [k, row[i]]))`: one record
per data row, keyed by the header values (later duplicate keys overwrite
earlier values in place). -/
def rowObject (header row : List Cell) : Rec :=
  header.enum.foldl
    (fun acc p => recSet acc p.2.keyStr (row.getD p.1 Cell.blank)) []

/-- `Sheet.getSheetRows()`: every data row as a record keyed by the
header. -/
def getSheetRows (g : Grid) : Except String (List Rec) := do
  let header ← getHeader g
  let rows := g.getDataRangeValues.drop 1
  pure (rows.map (fun row => rowObject header row))

/-- `counts[k] = (counts[k] || 0) + 1` on a counts object. -/
def countsBump (m : List (String × Int)) (k : String) : List (String × Int) :=
  if m.any (fun p => p.1 == k) then
    m.map (fun p => if p.1 == k then (k, p.2 + 1) else p)
  else m ++ [(k, 1)]

/-- `Sheet.countRowsWhere(field_name, values, group_by_key)`: count the
rows whose `field_name` value is `===` to a member of `values`, grouped
by the property key of their `group_by_key` value. -/
def countRowsWhere (g : Grid) (fieldName : String) (values : List String)
    (groupByKey : String) : Except String (List (String × Int)) := do
  let rows ← getSheetRows g
  let kept := rows.filter (fun r =>
    match recGetOpt r fieldName with
    | some c => values.any (fun v => c.eqStr v)
    | none => false)
  pure (kept.foldl (fun acc r => countsBump acc (jsKeyOpt (recGetOpt r groupByKey))) [])

/-- `Sheet.lookupValues(start_row, n_rows, key_column_id, values)` with
the default `default_value = 0`: a vertical array of the counts looked
up (by property key) from the key column's cells. -/
def lookupValues (g : Grid) (startRow : Int) (nRows : Nat)
    (keyColumnId : Int) (values : List (String × Int)) :
    Except String (List (List Cell)) :=
  (List.range nRows).foldlM
    (fun acc (i : Nat) => do
      let key ← g.getValueAt (startRow + (i : Int)) keyColumnId
      let v : Cell :=
        match values.find? (fun p => p.1 == key.keyStr) with
        | some p => Cell.num p.2
        | none => Cell.num 0
      pure (acc ++ [[v]]))
    []

/-! ### The `BackupSheet` subclass -/

/-- `[...new Set(xs)]`: deduplicate preserving first occurrence. -/
def dedupFirst (l : List String) : List String :=
  l.foldl (fun acc s => if acc.contains s then acc else acc ++ [s]) []

/-- `BackupSheet.deleteBackupsOlderThanNDays(n_days)`.  The ambient
cutoff `new Date()` minus `n_days`, rendered by
`toISOString().slice(0, 10)`, is passed in as `fromDate`.  The method
reads the backup-date column below the header, renders every value with
`toISOString().slice(0, 10)`, deduplicates, keeps the strings strictly
below the cutoff, and deletes the matching rows value by value. -/
def deleteBackupsOlderThanNDays (g : Grid) (backupDateFieldName : String)
    (fromDate : String) : Except String Grid := do
  let backupColumnId ← getColumnId g backupDateFieldName
  let numRows : Int := (g.lastRow : Int) - 1
  let dateRange ← g.getValuesRect 2 backupColumnId numRows 1
  let isoDates ← dateRange.mapM (fun r => (r.getD 0 Cell.blank).toIso10)
  let uniqueDates := dedupFirst isoDates
  let filtered := uniqueDates.filter (fun e => decide (e < fromDate))
  filtered.foldlM
    (fun g v => do
      let r ← deleteRowsWhere g backupDateFieldName v
      pure r.1)
    g

/-- `BackupSheet.backupData(data, overwrite_today = true)`.  The ambient
`new Date().toISOString().slice(0, 10)` is passed in as `today`.  If
overwriting, first delete every row whose backup-date column equals
today; then project every record down to `fields_to_backup` and append
the projections stamped with today's date. -/
def backupData (g : Grid) (fieldsToBackup : List String)
    (backupDateFieldName today : String) (data : List Rec)
    (overwriteToday : Bool) : Except String Grid := do
  let g ←
    if overwriteToday then do
      let r ← deleteRowsWhere g backupDateFieldName today
      pure r.1
    else pure g
  let filteredData := data.map (fun record =>
    fieldsToBackup.foldl (fun nr f => recSet nr f (recGet record f)) [])
  appendWithDate g filteredData backupDateFieldName today

/-! ### The `MetricsSheet` subclass (`src/unnamed/part_001`) -/

/-- `MetricsSheet.addComputedCountsField(computed_field_name, field_name,
values, backup_date)`: count matching rows grouped by the literal key
`"id"`, ensure the computed column exists, and write the per-row counts
into that column for every batch of rows whose backup date equals
`backup_date`. -/
def addComputedCountsField (g : Grid) (backupDateFieldName : String)
    (computedFieldName fieldName : String) (values : List String)
    (backupDate : String) : Except String Grid := do
  let counts ← countRowsWhere g fieldName values "id"
  let g ← upsertHeader g [computedFieldName]
  let metricColumnId ← getColumnId g computedFieldName
  let keyColumnId ← getColumnId g "id"
  let rowIds ← findRowsWhere g backupDateFieldName backupDate
  let rowBatches := batchConsecutiveIntegers rowIds
  rowBatches.foldlM
    (fun g b => do
      let vals ← lookupValues g b.1 b.2 keyColumnId counts
      g.setValuesRect b.1 metricColumnId (b.2 : Int) 1 vals)
    g

/-! ### Specification-side helpers used in theorem statements -/

/-- The 1-indexed numbers (starting at `r0`) of the rows whose cell in
1-indexed column `p` matches `v` entire-cell, ascending. -/
def matchRowsFrom (rows : List (List Cell)) (r0 p : Nat) (v : String) :
    List Nat :=
  match rows with
  | [] => []
  | row :: rest =>
      if (row.getD (p - 1) Cell.blank).matchesText v then
        r0 :: matchRowsFrom rest (r0 + 1) p v
      else matchRowsFrom rest (r0 + 1) p v

/-- The 1-indexed rows of the content region whose cell in column `p`
matches `v` entire-cell. -/
def matchRows (g : Grid) (p : Nat) (v : String) : List Nat :=
  matchRowsFrom g.rows 1 p v

/-- Remove from `L` exactly the rows whose 1-indexed number (the first
element of `L` being row `i0`) occurs in `rs`. -/
def removeRowsFrom (L : List (List Cell)) (i0 : Int) (rs : List Int) :
    List (List Cell) :=
  match L with
  | [] => []
  | x :: t =>
      if rs.contains i0 then removeRowsFrom t (i0 + 1) rs
      else x :: removeRowsFrom t (i0 + 1) rs

/-- The header cells that `upsertHeader`'s loop appends for `fs`, given
the header values `hdr` it initially reads: one new `Cell.str f` per
field not yet present, checked against the header as it grows. -/
def missingCells (hdr : List Cell) : List String → List Cell
  | [] => []
  | f :: fs =>
      if hdr.any (fun c => c.eqStr f) then missingCells hdr fs
      else Cell.str f :: missingCells (hdr ++ [Cell.str f]) fs

/-- The value `lookupValues` produces for one key cell: the count stored
under the cell's property key, or the default `0` when the key is absent
from the counts object. -/
def lookupCell (counts : List (String × Int)) (key : Cell) : Cell :=
  match counts.find? (fun q => q.1 == key.keyStr) with
  | some q => Cell.num q.2
  | none => Cell.num 0

/-- Overwrite, in the rows whose 1-indexed number (the first row of `L`
being row `i0`) occurs in `rs`, the single cell in column `m` with the
value `f` of the row number. -/
def writeCells (L : List (List Cell)) (i0 : Int) (m : Nat)
    (f : Int → Cell) (rs : List Int) : List (List Cell) :=
  match L with
  | [] => []
  | row :: t =>
      (if rs.contains i0 then Grid.writeRow row m [f i0] else row) ::
        writeCells t (i0 + 1) m f rs

/-! ## Theorems -/

theorem batch_eq_mkRuns (l : List Int) :
    batchConsecutiveIntegers l = mkRuns l (keysOf l) := rfl

theorem keysAux_cons (b : Bool) (S : List Bool) (n : Nat) :
    keysAux (b :: S) (n + 1) =
      (if b then [0] else []) ++ (keysAux S n).map Nat.succ := by
  unfold keysAux
  rw [List.range_succ_eq_map, List.filter_cons, List.filter_map]
  cases b <;> simp [Function.comp_def]

theorem mkRuns_succ (x : Int) (t : List Int) (ks : List Nat) :
    mkRuns (x :: t) (ks.map Nat.succ) = mkRuns t ks := by
  unfold mkRuns
  have h1 : ks.map Nat.succ ++ [(x :: t).length] =
      (ks ++ [t.length]).map Nat.succ := by simp
  rw [h1, ← List.map_drop, List.zipWith_map, List.zipWith_map_left]
  simp [Nat.succ_sub_succ]

theorem headD_map_succ (K : List Nat) (n : Nat) :
    (K.map Nat.succ).headD (n + 1) = K.headD n + 1 := by
  cases K <;> rfl

theorem mkRuns_zero_cons (a : Int) (l : List Int) (ks : List Nat) :
    mkRuns (a :: l) (0 :: ks.map Nat.succ) =
      (a, ks.headD l.length + 1) :: mkRuns l ks := by
  cases ks with
  | nil => simp [mkRuns]
  | cons k₀ ks' =>
    rw [← mkRuns_succ a l (k₀ :: ks')]
    unfold mkRuns
    simp only [List.map_cons, List.cons_append, List.drop_succ_cons,
      List.drop_zero, List.zipWith_cons_cons, List.length_cons,
      List.getD_cons_zero, List.headD_cons, Nat.sub_zero]

theorem stencilOf_cons_cons (a b : Int) (t : List Int) :
    stencilOf (a :: b :: t) =
      true :: decide (b ≠ a + 1) :: (stencilOf (b :: t)).tail := by
  simp [stencilOf]

theorem keysOf_cons_cons (a b : Int) (t : List Int) :
    keysOf (a :: b :: t) =
      if b = a + 1 then 0 :: ((keysOf (b :: t)).tail).map Nat.succ
      else 0 :: (keysOf (b :: t)).map Nat.succ := by
  have hk : keysOf (b :: t) =
      0 :: (keysAux ((stencilOf (b :: t)).tail) t.length).map Nat.succ := by
    show keysAux (stencilOf (b :: t)) (t.length + 1) = _
    have : stencilOf (b :: t) = true :: (stencilOf (b :: t)).tail := rfl
    rw [this, keysAux_cons]
    simp
  have hs : keysOf (a :: b :: t) =
      keysAux (true :: decide (b ≠ a + 1) :: (stencilOf (b :: t)).tail)
        (t.length + 1 + 1) := by
    show keysAux (stencilOf (a :: b :: t)) (a :: b :: t).length = _
    rw [stencilOf_cons_cons]
    rfl
  rw [hs, keysAux_cons, keysAux_cons]
  by_cases hb : b = a + 1
  · subst hb
    simp [hk, List.map_map]
  · simp [hb, hk]

theorem batch_cons (a : Int) (l : List Int) :
    batchConsecutiveIntegers (a :: l) =
      consStep a (batchConsecutiveIntegers l) := by
  cases l with
  | nil => rfl
  | cons b t =>
    have hk : keysOf (b :: t) =
        0 :: (keysAux ((stencilOf (b :: t)).tail) t.length).map Nat.succ := by
      show keysAux (stencilOf (b :: t)) (t.length + 1) = _
      have h : stencilOf (b :: t) = true :: (stencilOf (b :: t)).tail := rfl
      rw [h, keysAux_cons]
      simp
    set K := keysAux ((stencilOf (b :: t)).tail) t.length with hKdef
    have hbatch : batchConsecutiveIntegers (b :: t) =
        (b, K.headD t.length + 1) :: mkRuns t K := by
      rw [batch_eq_mkRuns, hk, mkRuns_zero_cons]
    rw [hbatch, batch_eq_mkRuns, keysOf_cons_cons]
    by_cases hb : b = a + 1
    · rw [if_pos hb, hk]
      simp only [List.tail_cons]
      rw [mkRuns_zero_cons, mkRuns_succ]
      simp only [List.length_cons, headD_map_succ]
      simp [consStep, hb]
    · rw [if_neg hb, hk]
      rw [mkRuns_zero_cons, mkRuns_zero_cons]
      simp [consStep, hb]

theorem batch_nil : batchConsecutiveIntegers [] = [] := rfl

theorem consStep_nil (a : Int) : consStep a [] = [(a, 1)] := rfl

theorem consStep_cons (a b : Int) (c : Nat) (rest : List (Int × Nat)) :
    consStep a ((b, c) :: rest) =
      if b = a + 1 then (a, c + 1) :: rest else (a, 1) :: (b, c) :: rest := rfl

theorem expandBatch_one (a : Int) : expandBatch (a, 1) = [a] := by
  simp [expandBatch, List.range_succ]

theorem expandBatch_succ (a : Int) (c : Nat) :
    expandBatch (a, c + 1) = a :: expandBatch (a + 1, c) := by
  unfold expandBatch
  rw [List.range_succ_eq_map]
  simp only [List.map_cons, Nat.cast_zero, add_zero, List.map_map]
  refine congrArg _ ?_
  apply List.map_congr_left
  intro x _
  simp only [Function.comp_apply]
  push_cast
  ring

theorem batch_flatMap_expand (l : List Int) :
    (batchConsecutiveIntegers l).flatMap expandBatch = l := by
  induction l with
  | nil => rfl
  | cons a t ih =>
    rw [batch_cons]
    cases hB : batchConsecutiveIntegers t with
    | nil =>
      have ht : t = [] := by rw [← ih, hB]; rfl
      subst ht
      simp [consStep_nil, expandBatch_one]
    | cons p rest =>
      obtain ⟨b, c⟩ := p
      rw [hB] at ih
      rw [consStep_cons]
      by_cases hb : b = a + 1
      · subst hb
        rw [if_pos rfl, ← ih]
        simp only [List.flatMap_cons, expandBatch_succ, List.cons_append]
      · rw [if_neg hb, ← ih]
        simp [expandBatch_one]

theorem batch_eq_nil_iff (l : List Int) :
    batchConsecutiveIntegers l = [] ↔ l = [] := by
  constructor
  · intro h
    rw [← batch_flatMap_expand l, h]
    rfl
  · intro h
    subst h
    rfl

theorem batch_pos (l : List Int) : ∀ p ∈ batchConsecutiveIntegers l, 0 < p.2 := by
  induction l with
  | nil => simp [batch_nil]
  | cons a t ih =>
    rw [batch_cons]
    cases hB : batchConsecutiveIntegers t with
    | nil => simp [consStep_nil]
    | cons p rest =>
      obtain ⟨b, c⟩ := p
      rw [hB] at ih
      rw [consStep_cons]
      split
      · intro q hq
        rcases List.mem_cons.mp hq with h | h
        · subst h; simp
        · exact ih q (List.mem_cons_of_mem _ h)
      · intro q hq
        rcases List.mem_cons.mp hq with h | h
        · subst h; simp
        · exact ih q h

theorem batch_sum (l : List Int) :
    ((batchConsecutiveIntegers l).map Prod.snd).sum = l.length := by
  induction l with
  | nil => rfl
  | cons a t ih =>
    rw [batch_cons]
    cases hB : batchConsecutiveIntegers t with
    | nil =>
      have ht : t = [] := (batch_eq_nil_iff t).mp hB
      subst ht
      simp [consStep_nil]
    | cons p rest =>
      obtain ⟨b, c⟩ := p
      rw [hB] at ih
      rw [consStep_cons]
      split <;> simp_all <;> omega

theorem batch_chain (l : List Int) :
    List.Chain' (fun p q : Int × Nat => q.1 ≠ p.1 + p.2) (batchConsecutiveIntegers l) := by
  induction l with
  | nil => simp [batch_nil]
  | cons a t ih =>
    rw [batch_cons]
    cases hB : batchConsecutiveIntegers t with
    | nil => simp [consStep_nil]
    | cons p rest =>
      obtain ⟨b, c⟩ := p
      rw [hB] at ih
      rw [consStep_cons]
      split
      · rename_i hb
        cases rest with
        | nil => simp
        | cons q rest' =>
          have h1 := (List.chain'_cons.mp ih).1
          have h2 := (List.chain'_cons.mp ih).2
          refine List.chain'_cons.mpr ⟨?_, h2⟩
          subst hb
          intro hcon
          apply h1
          rw [hcon]
          push_cast
          ring
      · rename_i hb
        refine List.chain'_cons.mpr ⟨?_, ih⟩
        simpa using hb

/-- C4: for every ordered sequence of distinct integers,
`batchConsecutiveIntegers` returns an ordered sequence of
`(start, length)` pairs denoting maximal runs of consecutive values
(adjacent output runs never continue one another, and every run is
nonempty), whose expanded values concatenate back to the input in order;
the empty input yields the empty output. -/
theorem batchConsecutiveIntegers_maximal_runs (l : List Int) (hl : l.Nodup) :
    (batchConsecutiveIntegers l).flatMap expandBatch = l ∧
      List.Chain' (fun p q : Int × Nat => q.1 ≠ p.1 + p.2)
        (batchConsecutiveIntegers l) ∧
      (∀ p ∈ batchConsecutiveIntegers l, 0 < p.2) ∧
      batchConsecutiveIntegers ([] : List Int) = [] :=
  ⟨batch_flatMap_expand l, batch_chain l, batch_pos l, rfl⟩

/-- Witness for C4 at the spec's own example `[3, 4, -1, 0, 8]`. -/
theorem batchConsecutiveIntegers_maximal_runs_witness :
    ([3, 4, -1, 0, 8] : List Int).Nodup ∧
      ((batchConsecutiveIntegers [3, 4, -1, 0, 8]).flatMap expandBatch =
          [3, 4, -1, 0, 8] ∧
        List.Chain' (fun p q : Int × Nat => q.1 ≠ p.1 + p.2)
          (batchConsecutiveIntegers [3, 4, -1, 0, 8]) ∧
        (∀ p ∈ batchConsecutiveIntegers [3, 4, -1, 0, 8], 0 < p.2) ∧
        batchConsecutiveIntegers ([] : List Int) = []) :=
  ⟨by decide, batchConsecutiveIntegers_maximal_runs [3, 4, -1, 0, 8] (by decide)⟩

/-- C10: for every list of integers whatsoever — sorted or not, with
duplicates allowed — `batchConsecutiveIntegers` is total and returns runs
whose lengths are all positive and sum to the input's length, and whose
expansions `start, start+1, ..., start+length-1` concatenate to reproduce
the input exactly. -/
theorem batchConsecutiveIntegers_arbitrary_input (l : List Int) :
    (∀ p ∈ batchConsecutiveIntegers l, 0 < p.2) ∧
      ((batchConsecutiveIntegers l).map Prod.snd).sum = l.length ∧
      (batchConsecutiveIntegers l).flatMap expandBatch = l :=
  ⟨batch_pos l, batch_sum l, batch_flatMap_expand l⟩


/-! ### Error-path behaviour: C2, C5, C6, C9 -/

/-- Helper: `upsertHeader` with an empty field list either throws (blank
sheet: `appendRow([])`) or is the identity. -/
theorem upsertHeader_nil (g : Grid) :
    upsertHeader g [] =
      if g.isBlank then .error "appendRow: cannot convert empty Array"
      else .ok g := by
  unfold upsertHeader
  split <;> rfl

/-- C2: on a store whose retention-date column holds the unparseable
string `"oops"`, `deleteBackupsOlderThanNDays` does not conservatively
keep the row: it throws, because the code calls `toISOString()` directly
on the raw cell value — contradicting its own comment, which promises
that unparseable values fall out of the filter via `Date.parse`/`NaN`
and are kept. -/
theorem deleteBackupsOlderThanNDays_unparseable_throws :
    deleteBackupsOlderThanNDays
      (⟨[[Cell.str "id", Cell.str "Backup Date"],
         [Cell.str "x", Cell.str "oops"]]⟩ : Grid)
      "Backup Date" "2023-12-15" =
      .error "TypeError: toISOString is not a function" := by rfl

/-- C5 counterexample: retention pruning on a store whose header lacks
the retention-date column throws (`getColumnId` returns `-1` and the
code then requests `getRange(2, -1, …)`) instead of behaving as a
no-op. -/
theorem deleteBackupsOlderThanNDays_missing_column_throws :
    deleteBackupsOlderThanNDays
      (⟨[[Cell.str "id"], [Cell.str "x"]]⟩ : Grid)
      "Backup Date" "2023-12-15" = .error "getRange: invalid range" := by rfl

/-- C5 (amended): `findRowsWhere` and `deleteRowsWhere` on a field that
is absent from the header return an empty result / leave the grid
unchanged while issuing no deletions, and never raise; only the
retention-pruning path (see the counterexample) throws on an absent
field. -/
theorem findRowsWhere_deleteRowsWhere_missing_field_noop
    (g : Grid) (fieldName v : String)
    (h : getColumnId g fieldName = .ok (-1)) :
    findRowsWhere g fieldName v = .ok [] ∧
      deleteRowsWhere g fieldName v = .ok (g, []) := by
  have hf : findRowsWhere g fieldName v = .ok [] := by
    unfold findRowsWhere
    rw [h]
    rfl
  refine ⟨hf, ?_⟩
  unfold deleteRowsWhere
  rw [hf]
  rfl

/-- Witness for the amended C5 on a concrete store lacking the
"Backup Date" column. -/
theorem findRowsWhere_deleteRowsWhere_missing_field_noop_witness :
    getColumnId (⟨[[Cell.str "id"], [Cell.str "x"]]⟩ : Grid) "Backup Date" =
        .ok (-1) ∧
      (findRowsWhere (⟨[[Cell.str "id"], [Cell.str "x"]]⟩ : Grid)
          "Backup Date" "x" = .ok [] ∧
        deleteRowsWhere (⟨[[Cell.str "id"], [Cell.str "x"]]⟩ : Grid)
          "Backup Date" "x" = .ok (⟨[[Cell.str "id"], [Cell.str "x"]]⟩, [])) :=
  ⟨by rfl,
    findRowsWhere_deleteRowsWhere_missing_field_noop _ "Backup Date" "x" (by rfl)⟩

/-- C6 counterexample: `appendRows` with an empty record list throws a
`TypeError` (the code evaluates `data[0].length` with `data` empty)
instead of being a no-op. -/
theorem appendRows_empty_throws_concrete :
    appendRows (⟨[[Cell.str "id"]]⟩ : Grid) [] =
      .error "TypeError: cannot read property of undefined" := by rfl

/-- C6 (amended): on every store state, `appendRows` with an empty
record list throws before performing any write (on a blank store it is
`appendRow([])` inside `upsertHeader` that throws; otherwise
`data[0].length`), so the grid is never modified. -/
theorem appendRows_empty_always_throws (g : Grid) :
    ∃ e, appendRows g [] = .error e := by
  unfold appendRows
  rw [show getHeaderFromRecords ([] : List Rec) = [] from rfl, upsertHeader_nil]
  by_cases hb : g.isBlank
  · rw [if_pos hb]
    exact ⟨_, rfl⟩
  · rw [if_neg hb]
    cases hh : getHeader g with
    | error e =>
      refine ⟨e, ?_⟩
      simp [Bind.bind, Except.bind, hh]
    | ok hdr =>
      refine ⟨"TypeError: cannot read property of undefined", ?_⟩
      simp [Bind.bind, Except.bind, hh]

/-- C9 counterexample: on a completely blank store, `upsertHeader`
writes the supplied field list verbatim, so a duplicated input name
produces two identically-named columns. -/
theorem upsertHeader_blank_duplicates :
    upsertHeader (⟨[]⟩ : Grid) ["a", "a"] =
      .ok ⟨[[Cell.str "a", Cell.str "a"]]⟩ := by rfl


/-! ### Characterising `findRowsWhere` -/

theorem blank_not_matchesText (v : String) :
    Cell.blank.matchesText v = false := by
  unfold Cell.matchesText Cell.blank
  split
  · rfl
  · rename_i hv
    simp only [beq_iff_eq] at hv
    simp only [beq_eq_false_iff_ne, ne_eq]
    exact fun h => hv h.symm

theorem rowMatches_ge (row : List Cell) (v : String) :
    ∀ c0, ∀ x ∈ Grid.rowMatches row c0 v, c0 ≤ x := by
  induction row with
  | nil => intro c0 x hx; simp [Grid.rowMatches] at hx
  | cons c rest ih =>
    intro c0 x hx
    unfold Grid.rowMatches at hx
    by_cases hm : c.matchesText v = true
    · rw [if_pos hm] at hx
      rcases List.mem_cons.mp hx with h | h
      · omega
      · have := ih (c0 + 1) x h
        omega
    · rw [if_neg hm] at hx
      have := ih (c0 + 1) x hx
      omega

theorem rowMatches_filter (row : List Cell) (v : String) (p : Nat) :
    ∀ c0, (Grid.rowMatches row c0 v).filter (fun c => c == p) =
      if c0 ≤ p ∧ (row.getD (p - c0) Cell.blank).matchesText v = true
      then [p] else [] := by
  induction row with
  | nil =>
    intro c0
    simp [Grid.rowMatches, blank_not_matchesText]
  | cons c rest ih =>
    intro c0
    unfold Grid.rowMatches
    by_cases hp : c0 = p
    · subst hp
      by_cases hm : c.matchesText v = true
      · rw [if_pos hm, List.filter_cons]
        have hrest : (Grid.rowMatches rest (c0 + 1) v).filter (fun c => c == c0) = [] := by
          rw [List.filter_eq_nil_iff]
          intro a ha
          have := rowMatches_ge rest v (c0 + 1) a ha
          simp only [beq_iff_eq]
          omega
        simp [hrest, hm]
      · rw [if_neg hm]
        rw [ih (c0 + 1)]
        have h1 : ¬(c0 + 1 ≤ c0) := by omega
        have h2 : c0 - c0 = 0 := by omega
        simp [h1, h2, hm]
    · have hgd : ((c :: rest).getD (p - c0) Cell.blank) =
          rest.getD (p - (c0 + 1)) Cell.blank ∨ ¬ c0 ≤ p := by
        by_cases hle : c0 ≤ p
        · left
          have : p - c0 = (p - (c0 + 1)) + 1 := by omega
          rw [this, List.getD_cons_succ]
        · right; exact hle
      by_cases hm : c.matchesText v = true
      · rw [if_pos hm, List.filter_cons]
        have hhead : (c0 == p) = false := by simp [hp]
        rw [hhead]
        simp only [Bool.false_eq_true, if_false]
        rw [ih (c0 + 1)]
        rcases hgd with hgd | hgd
        · rw [hgd]
          by_cases hle : c0 + 1 ≤ p
          · have : c0 ≤ p := by omega
            simp [hle, this]
          · have : ¬ c0 ≤ p := by omega
            simp [hle, this]
        · have hle1 : ¬ c0 + 1 ≤ p := by omega
          simp [hle1, hgd]
      · rw [if_neg hm]
        rw [ih (c0 + 1)]
        rcases hgd with hgd | hgd
        · rw [hgd]
          by_cases hle : c0 + 1 ≤ p
          · have : c0 ≤ p := by omega
            simp [hle, this]
          · have : ¬ c0 ≤ p := by omega
            simp [hle, this]
        · have hle1 : ¬ c0 + 1 ≤ p := by omega
          simp [hle1, hgd]

theorem textFinderRows_filter_map (rows : List (List Cell)) (v : String)
    (p : Nat) (hp : 1 ≤ p) :
    ∀ r0, ((Grid.textFinderRows rows r0 v).filter
        (fun rc => rc.2 == p)).map (fun rc => rc.1) =
      matchRowsFrom rows r0 p v := by
  induction rows with
  | nil => intro r0; rfl
  | cons row rest ih =>
    intro r0
    unfold Grid.textFinderRows matchRowsFrom
    rw [List.filter_append, List.map_append, ih (r0 + 1)]
    rw [List.filter_map, List.map_map]
    have hfil : (fun rc : Nat × Nat => rc.2 == p) ∘ (fun c => (r0, c)) =
        fun c => c == p := rfl
    rw [hfil, rowMatches_filter]
    have h1 : (1 ≤ p ∧ (row.getD (p - 1) Cell.blank).matchesText v = true) ↔
        ((row.getD (p - 1) Cell.blank).matchesText v = true) := by
      constructor
      · exact And.right
      · exact fun h => ⟨hp, h⟩
    by_cases hm : (row.getD (p - 1) Cell.blank).matchesText v = true
    · rw [if_pos (h1.mpr hm), if_pos hm]
      rfl
    · rw [if_neg (fun hh => hm (h1.mp hh)), if_neg hm]
      rfl

theorem findRowsWhere_spec (g : Grid) (fieldName v : String) (p : Nat)
    (hp : 1 ≤ p) (h : getColumnId g fieldName = .ok (p : Int)) :
    findRowsWhere g fieldName v =
      .ok ((matchRows g p v).map Int.ofNat) := by
  unfold findRowsWhere
  rw [h]
  simp only [Bind.bind, Except.bind]
  have hne : ¬ (((p : Int) == -1) = true) := by
    simp only [beq_iff_eq]
    omega
  rw [if_neg hne]
  have hfe : (Grid.textFinderAll g v).filter (fun rc => ((rc.2 : Int) == (p : Int))) =
      (Grid.textFinderAll g v).filter (fun rc => rc.2 == p) := by
    apply List.filter_congr
    intro a _
    by_cases hab : a.2 = p
    · simp [hab]
    · have h2 : ¬ ((a.2 : Int) = (p : Int)) := by omega
      simp [hab, h2]
  show Except.ok (((Grid.textFinderAll g v).filter
      (fun rc => ((rc.2 : Int) == (p : Int)))).map (fun rc => (rc.1 : Int))) = _
  rw [hfe]
  unfold Grid.textFinderAll matchRows
  have hmm : ((Grid.textFinderRows g.rows 1 v).filter (fun rc => rc.2 == p)).map
      (fun rc : Nat × Nat => (rc.1 : Int)) =
      (matchRowsFrom g.rows 1 p v).map Int.ofNat := by
    rw [show (fun rc : Nat × Nat => (rc.1 : Int)) =
          (Int.ofNat ∘ (fun rc : Nat × Nat => rc.1)) from rfl]
    rw [← List.map_map, textFinderRows_filter_map _ _ _ hp]
  rw [hmm]


/-! ### `getHeader` and `getColumnId` -/

theorem getHeader_of_pos (g : Grid) (hL : 1 ≤ g.lastColumn) :
    getHeader g =
      .ok ((List.range g.lastColumn).map (fun j => g.cell 1 (1 + j))) := by
  unfold getHeader Grid.getValuesRect
  have hcond : ((1 : Int) < 1 || (1 : Int) < 1 || (1 : Int) < 1 ||
      ((g.lastColumn : Int)) < 1) = false := by
    simp
    omega
  rw [hcond]
  simp only [Bool.false_eq_true, if_false, Bind.bind, Except.bind]
  have h1 : (1 : Int).toNat = 1 := rfl
  rw [h1]
  simp only [List.range_succ, List.range_zero, List.nil_append, List.map_cons,
    List.map_nil, List.getD_cons_zero]
  rfl

theorem getHeader_ok_shape (g : Grid) (hdr : List Cell)
    (h : getHeader g = .ok hdr) :
    1 ≤ g.lastColumn ∧
      hdr = (List.range g.lastColumn).map (fun j => g.cell 1 (1 + j)) := by
  by_cases hL : 1 ≤ g.lastColumn
  · rw [getHeader_of_pos g hL] at h
    refine ⟨hL, ?_⟩
    injection h with h
    exact h.symm
  · exfalso
    unfold getHeader Grid.getValuesRect at h
    have hcond : ((1 : Int) < 1 || (1 : Int) < 1 || (1 : Int) < 1 ||
        ((g.lastColumn : Int)) < 1) = true := by
      simp
      omega
    rw [hcond] at h
    simp [Bind.bind, Except.bind] at h

theorem findIdx?_go_spec (P : Cell → Bool) (l : List Cell) :
    ∀ s i, List.findIdx? P l s = some i →
      s ≤ i ∧ i - s < l.length ∧ P (l.getD (i - s) Cell.blank) = true := by
  induction l with
  | nil => intro s i h; simp [List.findIdx?] at h
  | cons x t ih =>
    intro s i h
    rw [List.findIdx?_cons] at h
    by_cases hx : P x = true
    · rw [if_pos hx] at h
      injection h with h
      subst h
      refine ⟨le_refl _, by simp, ?_⟩
      simpa using hx
    · rw [if_neg hx] at h
      obtain ⟨h1, h2, h3⟩ := ih (s + 1) i h
      refine ⟨by omega, by simp; omega, ?_⟩
      have hsub : i - s = (i - (s + 1)) + 1 := by omega
      rw [hsub, List.getD_cons_succ]
      exact h3

theorem findIdx?_some_spec (P : Cell → Bool) (l : List Cell) (i : Nat)
    (h : l.findIdx? P = some i) :
    i < l.length ∧ P (l.getD i Cell.blank) = true := by
  have hgo := findIdx?_go_spec P l 0 i h
  constructor
  · omega
  · have : i - 0 = i := by omega
    rw [this] at hgo
    exact hgo.2.2

theorem getColumnId_ok_shape (g : Grid) (f : String) (x : Int)
    (h : getColumnId g f = .ok x) :
    ∃ hdr, getHeader g = .ok hdr ∧
      ((hdr.findIdx? (fun c => c.eqStr f) = none ∧ x = -1) ∨
        (∃ i : Nat, hdr.findIdx? (fun c => c.eqStr f) = some i ∧
          x = (i : Int) + 1)) := by
  unfold getColumnId at h
  cases hh : getHeader g with
  | error e =>
    rw [hh] at h
    simp [Bind.bind, Except.bind] at h
  | ok hdr =>
    rw [hh] at h
    simp only [Bind.bind, Except.bind] at h
    refine ⟨hdr, rfl, ?_⟩
    cases hf : hdr.findIdx? (fun c => c.eqStr f) with
    | none =>
      rw [hf] at h
      injection h with h
      exact Or.inl ⟨rfl, h.symm⟩
    | some i =>
      rw [hf] at h
      injection h with h
      exact Or.inr ⟨i, rfl, h.symm⟩

/-- A positive `getColumnId` answer names a column whose header cell is
the string `fieldName`. -/
theorem getColumnId_header_cell (g : Grid) (fieldName : String) (p : Nat)
    (hp : 1 ≤ p) (h : getColumnId g fieldName = .ok (p : Int)) :
    g.cell 1 p = Cell.str fieldName := by
  obtain ⟨hdr, hh, hcase⟩ := getColumnId_ok_shape g fieldName _ h
  rcases hcase with ⟨_, hx⟩ | ⟨i, hf, hx⟩
  · omega
  · have hi : i = p - 1 := by omega
    subst hi
    obtain ⟨hlen, hPd⟩ := findIdx?_some_spec _ hdr _ hf
    obtain ⟨hL, hshape⟩ := getHeader_ok_shape g hdr hh
    subst hshape
    rw [List.length_map, List.length_range] at hlen
    rw [List.getD_eq_getElem?_getD, List.getElem?_map,
      List.getElem?_range hlen, Option.map_some', Option.getD_some] at hPd
    have h1p : 1 + (p - 1) = p := by omega
    rw [h1p] at hPd
    cases hc : g.cell 1 p with
    | str s =>
      rw [hc] at hPd
      unfold Cell.eqStr at hPd
      simp only [beq_iff_eq] at hPd
      rw [hPd]
    | num n => rw [hc] at hPd; simp [Cell.eqStr] at hPd
    | date d => rw [hc] at hPd; simp [Cell.eqStr] at hPd

/-- C8 counterexample: searching a column for the value that is that
column's own heading returns the header row — row 1 appears in the
result. -/
theorem findRowsWhere_returns_header_row :
    findRowsWhere
      (⟨[[Cell.str "Stage"], [Cell.str "Stage AB"], [Cell.str "Stage"]]⟩ : Grid)
      "Stage" "Stage" = .ok [1, 3] := by rfl

/-- C8 (amended): for a field present in the header and any value other
than that field's own name, `findRowsWhere` returns exactly the
1-indexed data-row numbers (rows ≥ 2) whose cell in the field's column
textually equals the value entire-cell (so `"Stage A"` never matches a
cell `"Stage AB"`); only for the value equal to the column heading does
the result also contain the header row. -/
theorem findRowsWhere_exact_data_rows (g : Grid) (fieldName v : String)
    (p : Nat) (hp : 1 ≤ p) (h : getColumnId g fieldName = .ok (p : Int))
    (hv : v ≠ fieldName) :
    findRowsWhere g fieldName v =
      .ok ((matchRowsFrom (g.rows.drop 1) 2 p v).map Int.ofNat) := by
  rw [findRowsWhere_spec g fieldName v p hp h]
  have hcell := getColumnId_header_cell g fieldName p hp h
  unfold matchRows
  cases hr : g.rows with
  | nil => rfl
  | cons r1 rest =>
    have hc1 : (r1.getD (p - 1) Cell.blank) = Cell.str fieldName := by
      have : g.cell 1 p = (r1.getD (p - 1) Cell.blank) := by
        unfold Grid.cell
        rw [hr]
        rfl
      rw [← this, hcell]
    have hnm : (Cell.str fieldName).matchesText v = false := by
      unfold Cell.matchesText
      split
      · rfl
      · simp only [beq_eq_false_iff_ne, ne_eq]
        exact fun hh => hv hh.symm
    have hstep : matchRowsFrom (r1 :: rest) 1 p v =
        if (r1.getD (p - 1) Cell.blank).matchesText v = true
        then 1 :: matchRowsFrom rest 2 p v else matchRowsFrom rest 2 p v := rfl
    rw [hstep, hc1, hnm]
    simp only [Bool.false_eq_true, if_false]
    rfl


/-- Witness for the amended C8: "Stage A" matches exactly the data rows
2 and 4 — not the "Stage AB" row, and not the header. -/
theorem findRowsWhere_exact_data_rows_witness :
    (getColumnId (⟨[[Cell.str "Stage"], [Cell.str "Stage A"],
          [Cell.str "Stage AB"], [Cell.str "Stage A"]]⟩ : Grid) "Stage" =
        .ok ((1 : Nat) : Int) ∧ "Stage A" ≠ "Stage") ∧
      findRowsWhere (⟨[[Cell.str "Stage"], [Cell.str "Stage A"],
          [Cell.str "Stage AB"], [Cell.str "Stage A"]]⟩ : Grid)
        "Stage" "Stage A" =
        .ok ((matchRowsFrom
            ((⟨[[Cell.str "Stage"], [Cell.str "Stage A"],
              [Cell.str "Stage AB"], [Cell.str "Stage A"]]⟩ : Grid).rows.drop 1)
            2 1 "Stage A").map Int.ofNat) :=
  ⟨⟨by rfl, by decide⟩,
    findRowsWhere_exact_data_rows _ "Stage" "Stage A" 1 (le_refl 1)
      (by rfl) (by decide)⟩

/-! ### Characterising batched deletion -/

theorem contains_iff_mem (rs : List Int) (x : Int) :
    rs.contains x = true ↔ x ∈ rs := List.elem_iff

theorem removeRowsFrom_cons (x : List Cell) (t : List (List Cell))
    (i0 : Int) (rs : List Int) :
    removeRowsFrom (x :: t) i0 rs =
      if rs.contains i0 = true then removeRowsFrom t (i0 + 1) rs
      else x :: removeRowsFrom t (i0 + 1) rs := rfl

theorem removeRowsFrom_nil_rs (L : List (List Cell)) :
    ∀ i0, removeRowsFrom L i0 [] = L := by
  induction L with
  | nil => intro i0; rfl
  | cons x t ih =>
    intro i0
    rw [removeRowsFrom_cons, ih (i0 + 1)]
    rfl

theorem removeRowsFrom_append (A C : List (List Cell)) (rs : List Int) :
    ∀ i0, removeRowsFrom (A ++ C) i0 rs =
      removeRowsFrom A i0 rs ++ removeRowsFrom C (i0 + A.length) rs := by
  induction A with
  | nil =>
    intro i0
    simp [removeRowsFrom]
  | cons x t ih =>
    intro i0
    rw [List.cons_append, removeRowsFrom_cons, removeRowsFrom_cons]
    have harith : i0 + 1 + (t.length : Int) = i0 + ((x :: t).length : Int) := by
      simp only [List.length_cons]
      push_cast
      ring
    by_cases h : rs.contains i0 = true
    · rw [if_pos h, if_pos h, ih (i0 + 1), harith]
    · rw [if_neg h, if_neg h, ih (i0 + 1), harith, List.cons_append]

theorem removeRowsFrom_disjoint (A : List (List Cell)) (rs : List Int) :
    ∀ i0, (∀ x ∈ rs, x < i0 ∨ i0 + (A.length : Int) ≤ x) →
      removeRowsFrom A i0 rs = A := by
  induction A with
  | nil => intro i0 _; rfl
  | cons x t ih =>
    intro i0 hdis
    rw [removeRowsFrom_cons]
    have hni : ¬ rs.contains i0 = true := by
      intro hc
      rcases hdis i0 ((contains_iff_mem rs i0).mp hc) with h | h
      · omega
      · simp only [List.length_cons] at h
        push_cast at h
        omega
    rw [if_neg hni, ih (i0 + 1)]
    intro y hy
    rcases hdis y hy with h | h
    · left
      omega
    · right
      simp only [List.length_cons] at h
      push_cast at h ⊢
      omega

theorem removeRowsFrom_all (A : List (List Cell)) (rs : List Int) :
    ∀ i0, (∀ j : Nat, j < A.length → (i0 + (j : Int)) ∈ rs) →
      removeRowsFrom A i0 rs = [] := by
  induction A with
  | nil => intro i0 _; rfl
  | cons x t ih =>
    intro i0 hall
    rw [removeRowsFrom_cons]
    have h0 : rs.contains i0 = true := by
      rw [contains_iff_mem]
      have := hall 0 (by simp)
      simpa using this
    rw [if_pos h0]
    apply ih
    intro j hj
    have h2 := hall (j + 1) (by simp only [List.length_cons]; omega)
    have harith : i0 + 1 + (j : Int) = i0 + ((j + 1 : Nat) : Int) := by
      push_cast
      ring
    rw [harith]
    exact h2

theorem removeRowsFrom_congr (L : List (List Cell)) (rs rs' : List Int) :
    ∀ i0, (∀ x : Int, i0 ≤ x → (x ∈ rs ↔ x ∈ rs')) →
      removeRowsFrom L i0 rs = removeRowsFrom L i0 rs' := by
  induction L with
  | nil => intro i0 _; rfl
  | cons r t ih =>
    intro i0 hagree
    rw [removeRowsFrom_cons, removeRowsFrom_cons]
    have hc : rs.contains i0 = rs'.contains i0 := by
      by_cases h : i0 ∈ rs
      · have h2 : i0 ∈ rs' := (hagree i0 (le_refl i0)).mp h
        rw [(contains_iff_mem rs i0).mpr h, (contains_iff_mem rs' i0).mpr h2]
      · have h2 : ¬ i0 ∈ rs' := fun hh => h ((hagree i0 (le_refl i0)).mpr hh)
        have e1 : rs.contains i0 = false := by
          cases hcc : rs.contains i0 with
          | false => rfl
          | true => exact absurd ((contains_iff_mem rs i0).mp hcc) h
        have e2 : rs'.contains i0 = false := by
          cases hcc : rs'.contains i0 with
          | false => rfl
          | true => exact absurd ((contains_iff_mem rs' i0).mp hcc) h2
        rw [e1, e2]
    rw [hc, ih (i0 + 1) (fun x hx => hagree x (by omega))]


theorem mem_expandBatch (s : Int) (l : Nat) (x : Int) :
    x ∈ expandBatch (s, l) ↔ ∃ t : Nat, t < l ∧ x = s + (t : Int) := by
  unfold expandBatch
  simp only [List.mem_map, List.mem_range]
  constructor
  · rintro ⟨t, ht, heq⟩
    exact ⟨t, ht, heq.symm⟩
  · rintro ⟨t, ht, heq⟩
    exact ⟨t, ht, heq.symm⟩

theorem deleteRows_block (A D C : List (List Cell)) (s : Int) (l : Nat)
    (hA : (A.length : Int) = s - 1) (hD : D.length = l)
    (hs : 1 ≤ s) (hl : 1 ≤ l) :
    Grid.deleteRows ⟨A ++ D ++ C⟩ s l = .ok ⟨A ++ C⟩ := by
  have hlen : (⟨A ++ D ++ C⟩ : Grid).rows.length =
      A.length + D.length + C.length := by
    show (A ++ D ++ C).length = _
    simp
    omega
  have hcond : (decide (s < 1) || decide (l < 1) ||
      decide ((⟨A ++ D ++ C⟩ : Grid).rows.length < s.toNat - 1 + l)) = false := by
    simp only [Bool.or_eq_false_iff, decide_eq_false_iff_not, not_lt]
    rw [hlen]
    refine ⟨⟨by omega, by omega⟩, by omega⟩
  unfold Grid.deleteRows
  rw [hcond]
  simp only [Bool.false_eq_true, if_false]
  have htake : (A ++ D ++ C).take (s.toNat - 1) = A := by
    rw [List.append_assoc]
    exact List.take_left' (by omega)
  have hdrop : (A ++ D ++ C).drop (s.toNat - 1 + l) = C := by
    refine List.drop_left' ?_
    simp only [List.length_append]
    omega
  rw [htake, hdrop]

theorem deleteBatches_fold (B : List (Int × Nat)) :
    ∀ (g : Grid) (tr : List (Int × Nat)),
      (∀ p ∈ B, 0 < p.2) →
      List.Pairwise (· < ·) (B.flatMap expandBatch) →
      (∀ x ∈ B.flatMap expandBatch, 1 ≤ x ∧ x ≤ (g.rows.length : Int)) →
      B.reverse.foldlM
        (fun (st : Grid × List (Int × Nat)) b => do
          let g1 ← st.1.deleteRows b.1 b.2
          pure (g1, st.2 ++ [b]))
        (g, tr)
      = .ok (⟨removeRowsFrom g.rows 1 (B.flatMap expandBatch)⟩,
          tr ++ B.reverse) := by
  induction B with
  | nil =>
    intro g tr _ _ _
    rw [show ([] : List (Int × Nat)).flatMap expandBatch = [] from rfl,
      removeRowsFrom_nil_rs]
    simp only [List.reverse_nil, List.foldlM_nil, List.append_nil]
    rfl
  | cons b B' ih =>
    intro g tr hpos hpw hbnd
    obtain ⟨s, l⟩ := b
    have hfm : (((s, l) :: B').flatMap expandBatch) =
        expandBatch (s, l) ++ B'.flatMap expandBatch := List.flatMap_cons _ _ _
    have hl : 1 ≤ l := hpos (s, l) (List.mem_cons_self _ _)
    have hsrun : s ∈ expandBatch (s, l) :=
      (mem_expandBatch s l s).mpr ⟨0, by omega, by simp⟩
    have hlast : s + ((l - 1 : Nat) : Int) ∈ expandBatch (s, l) :=
      (mem_expandBatch s l _).mpr ⟨l - 1, by omega, rfl⟩
    have hs1 : 1 ≤ s := by
      have := hbnd s (by rw [hfm]; exact List.mem_append_left _ hsrun)
      exact this.1
    have hub : s + ((l - 1 : Nat) : Int) ≤ (g.rows.length : Int) := by
      have := hbnd _ (by rw [hfm]; exact List.mem_append_left _ hlast)
      exact this.2
    have hE' : ∀ y ∈ B'.flatMap expandBatch, s + ((l - 1 : Nat) : Int) < y := by
      intro y hy
      rw [hfm] at hpw
      exact (List.pairwise_append.mp hpw).2.2 _ hlast y hy
    have hpos' : ∀ p ∈ B', 0 < p.2 :=
      fun p hp => hpos p (List.mem_cons_of_mem _ hp)
    have hpw' : List.Pairwise (· < ·) (B'.flatMap expandBatch) := by
      rw [hfm] at hpw
      exact (List.pairwise_append.mp hpw).2.1
    have hbnd' : ∀ x ∈ B'.flatMap expandBatch,
        1 ≤ x ∧ x ≤ (g.rows.length : Int) :=
      fun x hx => hbnd x (by rw [hfm]; exact List.mem_append_right _ hx)
    have hlu : (l - 1 : Nat) + 1 = l := by omega
    set E' := B'.flatMap expandBatch with hE'def
    set sN := s.toNat with hsN
    set A := g.rows.take (sN - 1) with hAdef
    set D := (g.rows.drop (sN - 1)).take l with hDdef
    set C := g.rows.drop (sN - 1 + l) with hCdef
    have hNl : sN - 1 + l ≤ g.rows.length := by omega
    have hAlen : A.length = sN - 1 := by
      rw [hAdef, List.length_take]
      omega
    have hDlen : D.length = l := by
      rw [hDdef, List.length_take, List.length_drop]
      omega
    have hdd : g.rows.drop (sN - 1 + l) = (g.rows.drop (sN - 1)).drop l := by
      rw [List.drop_drop]
    have hdecomp : g.rows = A ++ D ++ C := by
      rw [hAdef, hDdef, hCdef, List.append_assoc, hdd,
        List.take_append_drop, List.take_append_drop]
    have hidx1 : (1 : Int) + (A.length : Int) = s := by
      rw [hAlen]
      omega
    have hsplit : ∀ rs : List Int, removeRowsFrom g.rows 1 rs =
        removeRowsFrom A 1 rs ++ (removeRowsFrom D s rs ++
          removeRowsFrom C (s + (l : Int)) rs) := by
      intro rs
      conv_lhs => rw [hdecomp]
      rw [List.append_assoc, removeRowsFrom_append, removeRowsFrom_append,
        hidx1]
      rw [show s + (D.length : Int) = s + (l : Int) from by rw [hDlen]]
    have hg1 : removeRowsFrom g.rows 1 E' =
        A ++ (D ++ removeRowsFrom C (s + (l : Int)) E') := by
      rw [hsplit]
      rw [removeRowsFrom_disjoint A E' 1
        (fun x hx => Or.inr (by have := hE' x hx; rw [hAlen]; omega))]
      rw [removeRowsFrom_disjoint D E' s
        (fun x hx => Or.inr (by have := hE' x hx; rw [hDlen]; omega))]
    have hg2 : removeRowsFrom g.rows 1 (expandBatch (s, l) ++ E') =
        A ++ removeRowsFrom C (s + (l : Int)) E' := by
      rw [hsplit]
      rw [removeRowsFrom_disjoint A (expandBatch (s, l) ++ E') 1 ?hdisA]
      rw [removeRowsFrom_all D (expandBatch (s, l) ++ E') s ?hallD]
      rw [removeRowsFrom_congr C (expandBatch (s, l) ++ E') E'
        (s + (l : Int)) ?hcongC]
      · rw [List.nil_append]
      case hdisA =>
        intro x hx
        rcases List.mem_append.mp hx with hx | hx
        · right
          obtain ⟨t, _, rfl⟩ := (mem_expandBatch s l x).mp hx
          rw [hAlen]
          omega
        · right
          have := hE' x hx
          rw [hAlen]
          omega
      case hallD =>
        intro j hj
        rw [hDlen] at hj
        exact List.mem_append_left _
          ((mem_expandBatch s l _).mpr ⟨j, hj, rfl⟩)
      case hcongC =>
        intro x hx
        constructor
        · intro hmem
          rcases List.mem_append.mp hmem with hm | hm
          · obtain ⟨t, ht, rfl⟩ := (mem_expandBatch s l _).mp hm
            omega
          · exact hm
        · intro hmem
          exact List.mem_append_right _ hmem
    have hdel : Grid.deleteRows (⟨removeRowsFrom g.rows 1 E'⟩ : Grid) s l =
        .ok ⟨A ++ removeRowsFrom C (s + (l : Int)) E'⟩ := by
      rw [show (⟨removeRowsFrom g.rows 1 E'⟩ : Grid) =
          ⟨A ++ D ++ removeRowsFrom C (s + (l : Int)) E'⟩ from by
        rw [hg1, List.append_assoc]]
      exact deleteRows_block A D _ s l (by rw [hAlen]; omega) hDlen hs1 hl
    rw [List.reverse_cons, List.foldlM_append, ih g tr hpos' hpw' hbnd']
    rw [hfm, hg2]
    simp only [Bind.bind, Except.bind]
    rw [List.foldlM_cons, hdel]
    simp only [Bind.bind, Except.bind, List.foldlM_nil, List.append_assoc]
    rfl


theorem matchRowsFrom_bounds (rows : List (List Cell)) (p : Nat) (v : String) :
    ∀ r0, ∀ x ∈ matchRowsFrom rows r0 p v, r0 ≤ x ∧ x < r0 + rows.length := by
  induction rows with
  | nil => intro r0 x hx; simp [matchRowsFrom] at hx
  | cons row rest ih =>
    intro r0 x hx
    unfold matchRowsFrom at hx
    by_cases hm : (row.getD (p - 1) Cell.blank).matchesText v = true
    · rw [if_pos hm] at hx
      rcases List.mem_cons.mp hx with h | h
      · subst h
        simp only [List.length_cons]
        omega
      · have := ih (r0 + 1) x h
        simp only [List.length_cons]
        omega
    · rw [if_neg hm] at hx
      have := ih (r0 + 1) x hx
      simp only [List.length_cons]
      omega

theorem matchRowsFrom_pairwise (rows : List (List Cell)) (p : Nat) (v : String) :
    ∀ r0, List.Pairwise (· < ·) (matchRowsFrom rows r0 p v) := by
  induction rows with
  | nil => intro r0; simp [matchRowsFrom]
  | cons row rest ih =>
    intro r0
    unfold matchRowsFrom
    by_cases hm : (row.getD (p - 1) Cell.blank).matchesText v = true
    · rw [if_pos hm]
      refine List.pairwise_cons.mpr ⟨?_, ih (r0 + 1)⟩
      intro x hx
      have := matchRowsFrom_bounds rest p v (r0 + 1) x hx
      omega
    · rw [if_neg hm]
      exact ih (r0 + 1)

theorem mem_matchRowsFrom (rows : List (List Cell)) (p : Nat) (v : String) :
    ∀ r0 (i : Nat), i < rows.length →
      ((r0 + i) ∈ matchRowsFrom rows r0 p v ↔
        (((rows.getD i []).getD (p - 1) Cell.blank).matchesText v = true)) := by
  induction rows with
  | nil => intro r0 i hi; simp at hi
  | cons row rest ih =>
    intro r0 i hi
    unfold matchRowsFrom
    cases i with
    | zero =>
      simp only [Nat.add_zero, List.getD_cons_zero]
      by_cases hm : (row.getD (p - 1) Cell.blank).matchesText v = true
      · rw [if_pos hm]
        constructor
        · intro _
          exact hm
        · intro _
          exact List.mem_cons_self _ _
      · rw [if_neg hm]
        constructor
        · intro hmem
          have := matchRowsFrom_bounds rest p v (r0 + 1) r0 hmem
          omega
        · intro hm2
          exact absurd hm2 hm
    | succ j =>
      have hj : j < rest.length := by
        simp only [List.length_cons] at hi
        omega
      have hrec := ih (r0 + 1) j hj
      have harith : r0 + (j + 1) = (r0 + 1) + j := by omega
      rw [harith, List.getD_cons_succ]
      by_cases hm : (row.getD (p - 1) Cell.blank).matchesText v = true
      · rw [if_pos hm]
        rw [← hrec]
        constructor
        · intro hmem
          rcases List.mem_cons.mp hmem with h | h
          · omega
          · exact h
        · intro hmem
          exact List.mem_cons_of_mem _ hmem
      · rw [if_neg hm]
        exact hrec

theorem batch_starts_ascending (rs : List Int)
    (h : List.Pairwise (· < ·) rs) :
    List.Chain' (fun b1 b2 : Int × Nat => b1.1 < b2.1)
      (batchConsecutiveIntegers rs) := by
  induction rs with
  | nil => simp [batch_nil]
  | cons a t ih =>
    have hpw' : List.Pairwise (· < ·) t := (List.pairwise_cons.mp h).2
    have halt : ∀ x ∈ t, a < x := (List.pairwise_cons.mp h).1
    rw [batch_cons]
    cases hB : batchConsecutiveIntegers t with
    | nil => simp [consStep_nil]
    | cons q rest =>
      obtain ⟨b, c⟩ := q
      have ihB := ih hpw'
      rw [hB] at ihB
      have hbt : b ∈ t := by
        have hexp := batch_flatMap_expand t
        rw [hB] at hexp
        rw [← hexp]
        simp only [List.flatMap_cons]
        refine List.mem_append_left _ ?_
        have hc : 0 < c := batch_pos t (b, c) (by rw [hB]; exact List.mem_cons_self _ _)
        exact (mem_expandBatch b c b).mpr ⟨0, hc, by simp⟩
      rw [consStep_cons]
      by_cases hb : b = a + 1
      · rw [if_pos hb]
        cases rest with
        | nil => simp
        | cons q2 rest2 =>
          refine List.chain'_cons.mpr ⟨?_, (List.chain'_cons.mp ihB).2⟩
          have := (List.chain'_cons.mp ihB).1
          simp only at this ⊢
          omega
      · rw [if_neg hb]
        refine List.chain'_cons.mpr ⟨?_, ihB⟩
        simp only
        exact halt b hbt

theorem deleteRowsWhere_spec (g : Grid) (fieldName v : String) (p : Nat)
    (hp : 1 ≤ p) (h : getColumnId g fieldName = .ok (p : Int)) :
    deleteRowsWhere g fieldName v =
      .ok (⟨removeRowsFrom g.rows 1 ((matchRows g p v).map Int.ofNat)⟩,
        (batchConsecutiveIntegers ((matchRows g p v).map Int.ofNat)).reverse) := by
  unfold deleteRowsWhere
  rw [findRowsWhere_spec g fieldName v p hp h]
  simp only [Bind.bind, Except.bind]
  have hbnds : ∀ x ∈ (matchRows g p v).map Int.ofNat,
      1 ≤ x ∧ x ≤ (g.rows.length : Int) := by
    intro x hx
    obtain ⟨r, hr, rfl⟩ := List.mem_map.mp hx
    have := matchRowsFrom_bounds g.rows p v 1 r hr
    simp only [Int.ofNat_eq_natCast]
    omega
  have hpw : List.Pairwise (· < ·) ((matchRows g p v).map Int.ofNat) := by
    rw [List.pairwise_map]
    refine (matchRowsFrom_pairwise g.rows p v 1).imp ?_
    intro a b hab
    simp only [Int.ofNat_eq_natCast]
    omega
  have h1 := deleteBatches_fold
    (batchConsecutiveIntegers ((matchRows g p v).map Int.ofNat)) g []
    (batch_pos _)
    (by rw [batch_flatMap_expand]; exact hpw)
    (by rw [batch_flatMap_expand]; exact hbnds)
  rw [batch_flatMap_expand, List.nil_append] at h1
  exact h1

/-- C3: `deleteRowsWhere(field, value)` removes exactly the rows whose
cell in the field's column textually equals the value (the grid keeps
precisely the rows whose numbers are not matched), issues its batched
`deleteRows` calls in strictly decreasing start-row order, and performs
no call at all when no row matches. -/
theorem deleteRowsWhere_exact (g : Grid) (fieldName v : String) (p : Nat)
    (hp : 1 ≤ p) (h : getColumnId g fieldName = .ok (p : Int)) :
    ∃ trace,
      deleteRowsWhere g fieldName v =
        .ok (⟨removeRowsFrom g.rows 1 ((matchRows g p v).map Int.ofNat)⟩,
          trace) ∧
      (∀ i : Nat, i < g.rows.length →
        ((i + 1) ∈ matchRows g p v ↔
          (g.cell (i + 1) p).matchesText v = true)) ∧
      List.Chain' (fun b1 b2 : Int × Nat => b2.1 < b1.1) trace ∧
      (matchRows g p v = [] →
        deleteRowsWhere g fieldName v = .ok (g, [])) := by
  refine ⟨(batchConsecutiveIntegers ((matchRows g p v).map Int.ofNat)).reverse,
    deleteRowsWhere_spec g fieldName v p hp h, ?_, ?_, ?_⟩
  · intro i hi
    have := mem_matchRowsFrom g.rows p v 1 i hi
    rw [show (1 : Nat) + i = i + 1 from by omega] at this
    exact this
  · rw [List.chain'_reverse]
    have hpw : List.Pairwise (· < ·) ((matchRows g p v).map Int.ofNat) := by
      rw [List.pairwise_map]
      refine (matchRowsFrom_pairwise g.rows p v 1).imp ?_
      intro a b hab
      simp only [Int.ofNat_eq_natCast]
      omega
    have := batch_starts_ascending _ hpw
    refine this.imp ?_
    intro b1 b2 h12
    exact h12
  · intro hempty
    have := deleteRowsWhere_spec g fieldName v p hp h
    rw [hempty] at this
    simpa [removeRowsFrom_nil_rs] using this

/-- Witness for C3 on a concrete grid: the two "x" rows (2 and 4) are
removed bottom-up. -/
theorem deleteRowsWhere_exact_witness :
    (getColumnId (⟨[[Cell.str "k"], [Cell.str "x"], [Cell.str "y"],
        [Cell.str "x"]]⟩ : Grid) "k" = .ok ((1 : Nat) : Int)) ∧
      ∃ trace,
        deleteRowsWhere (⟨[[Cell.str "k"], [Cell.str "x"], [Cell.str "y"],
            [Cell.str "x"]]⟩ : Grid) "k" "x" =
          .ok (⟨removeRowsFrom [[Cell.str "k"], [Cell.str "x"],
              [Cell.str "y"], [Cell.str "x"]] 1
              ((matchRows (⟨[[Cell.str "k"], [Cell.str "x"], [Cell.str "y"],
                [Cell.str "x"]]⟩ : Grid) 1 "x").map Int.ofNat)⟩, trace) ∧
        (∀ i : Nat, i < 4 →
          ((i + 1) ∈ matchRows (⟨[[Cell.str "k"], [Cell.str "x"],
              [Cell.str "y"], [Cell.str "x"]]⟩ : Grid) 1 "x" ↔
            ((⟨[[Cell.str "k"], [Cell.str "x"], [Cell.str "y"],
              [Cell.str "x"]]⟩ : Grid).cell (i + 1) 1).matchesText "x" = true)) ∧
        List.Chain' (fun b1 b2 : Int × Nat => b2.1 < b1.1) trace ∧
        (matchRows (⟨[[Cell.str "k"], [Cell.str "x"], [Cell.str "y"],
            [Cell.str "x"]]⟩ : Grid) 1 "x" = [] →
          deleteRowsWhere (⟨[[Cell.str "k"], [Cell.str "x"], [Cell.str "y"],
              [Cell.str "x"]]⟩ : Grid) "k" "x" =
            .ok (⟨[[Cell.str "k"], [Cell.str "x"], [Cell.str "y"],
              [Cell.str "x"]]⟩, [])) :=
  ⟨by rfl, deleteRowsWhere_exact _ "k" "x" 1 (le_refl 1) (by rfl)⟩


/-! ### Characterising `upsertHeader` -/

theorem rows_le_lastColumn (g : Grid) :
    ∀ row ∈ g.rows, row.length ≤ g.lastColumn := by
  unfold Grid.lastColumn
  generalize g.rows = L
  induction L with
  | nil => intro row h; simp at h
  | cons x t ih =>
    intro row h
    rcases List.mem_cons.mp h with h | h
    · subst h
      simp only [List.foldr_cons]
      omega
    · have := ih row h
      simp only [List.foldr_cons]
      omega

theorem lastColumn_cons (hd : List Cell) (rest : List (List Cell)) :
    Grid.lastColumn ⟨hd :: rest⟩ =
      max hd.length (Grid.lastColumn ⟨rest⟩) := rfl

theorem lastColumn_of_head (hd : List Cell) (rest : List (List Cell))
    (Lc : Nat) (hhd : hd.length = Lc)
    (hrest : ∀ row ∈ rest, row.length ≤ Lc) :
    Grid.lastColumn ⟨hd :: rest⟩ = Lc := by
  rw [lastColumn_cons, hhd]
  have h2 : Grid.lastColumn ⟨rest⟩ ≤ Lc := by
    unfold Grid.lastColumn
    induction rest with
    | nil => simp
    | cons r t ih =>
      simp only [List.foldr_cons]
      have h3 := hrest r (List.mem_cons_self _ _)
      have h4 := ih (fun row h => hrest row (List.mem_cons_of_mem _ h))
      simp only [Grid.lastColumn] at h4
      omega
  omega

theorem padTo_of_length_le (row : List Cell) (n : Nat) (h : n ≤ row.length) :
    padTo row n = row := by
  unfold padTo
  rw [show n - row.length = 0 from by omega]
  simp

theorem padTo_cons (x : Cell) (t : List Cell) (m : Nat) :
    padTo (x :: t) (m + 1) = x :: padTo t m := by
  unfold padTo
  simp only [List.length_cons, List.cons_append]
  rw [show m + 1 - (t.length + 1) = m - t.length from by omega]

theorem map_range_getD_pad (hd : List Cell) :
    ∀ n, hd.length ≤ n →
      (List.range n).map (fun j => hd.getD j Cell.blank) = padTo hd n := by
  induction hd with
  | nil =>
    intro n _
    unfold padTo
    simp only [List.nil_append, List.length_nil, Nat.sub_zero]
    induction n with
    | zero => rfl
    | succ m ihn =>
      rw [List.range_succ_eq_map, List.map_cons, List.map_map]
      rw [show ((fun j => List.getD [] j Cell.blank) ∘ Nat.succ) =
        (fun j => List.getD ([] : List Cell) j Cell.blank) from rfl]
      rw [ihn (by simp)]
      simp [List.replicate_succ]
  | cons x t ih =>
    intro n hn
    simp only [List.length_cons] at hn
    obtain ⟨m, rfl⟩ : ∃ m, n = m + 1 := ⟨n - 1, by omega⟩
    rw [List.range_succ_eq_map, List.map_cons, List.map_map]
    rw [show ((fun j => List.getD (x :: t) j Cell.blank) ∘ Nat.succ) =
      (fun j => List.getD t j Cell.blank) from rfl]
    rw [ih m (by omega), padTo_cons]
    rfl

theorem getHeader_head (hd : List Cell) (rest : List (List Cell)) (Lc : Nat)
    (hLc : Grid.lastColumn ⟨hd :: rest⟩ = Lc) (hle : hd.length ≤ Lc)
    (hpos : 1 ≤ Lc) :
    getHeader ⟨hd :: rest⟩ = .ok (padTo hd Lc) := by
  rw [getHeader_of_pos _ (by rw [hLc]; exact hpos), hLc]
  have hcell : ∀ j : Nat, Grid.cell ⟨hd :: rest⟩ 1 (1 + j) = hd.getD j Cell.blank := by
    intro j
    unfold Grid.cell
    simp
  rw [show (fun j => Grid.cell ⟨hd :: rest⟩ 1 (1 + j)) =
    (fun j => hd.getD j Cell.blank) from funext hcell]
  rw [map_range_getD_pad hd Lc hle]

theorem insertColumnAfter_id (g : Grid) (k : Int) (hk : 1 ≤ k)
    (hall : ∀ row ∈ g.rows, (row.length : Int) ≤ k) :
    g.insertColumnAfter k = .ok g := by
  unfold Grid.insertColumnAfter
  rw [if_neg (by omega)]
  have hmap : g.rows.map (fun row =>
      if row.length ≤ k.toNat then row
      else row.take k.toNat ++ [Cell.blank] ++ row.drop k.toNat) = g.rows := by
    have hpt : ∀ row ∈ g.rows, (if row.length ≤ k.toNat then row
        else row.take k.toNat ++ [Cell.blank] ++ row.drop k.toNat) = id row := by
      intro row hrow
      have := hall row hrow
      rw [if_pos (by omega)]
      rfl
    rw [List.map_congr_left hpt, List.map_id]
  rw [hmap]

theorem setValueAt_extend (hd : List Cell) (rest : List (List Cell)) (v : Cell) :
    Grid.setValueAt ⟨hd :: rest⟩ 1 ((hd.length : Int) + 1) v =
      .ok ⟨(hd ++ [coerceCell v]) :: rest⟩ := by
  unfold Grid.setValueAt Grid.setValuesRect
  have hc1 : (decide ((1 : Int) < 1) || decide (((hd.length : Int) + 1) < 1) ||
      decide ((1 : Int) < 1) || decide ((1 : Int) < 1)) = false := by
    simp only [Bool.or_eq_false_iff, decide_eq_false_iff_not, not_lt]
    refine ⟨⟨⟨by omega, by omega⟩, by omega⟩, by omega⟩
  rw [hc1]
  simp only [Bool.false_eq_true, if_false]
  have hc2 : (decide ([[v]].length ≠ (1 : Int).toNat) ||
      [[v]].any (fun row => decide (row.length ≠ (1 : Int).toNat))) = false := by
    rfl
  rw [hc2]
  simp only [Bool.false_eq_true, if_false]
  have hext : (1 : Int).toNat - 1 + (1 : Int).toNat - (hd :: rest).length = 0 := by
    simp only [List.length_cons]
    omega
  rw [hext]
  simp only [List.replicate_zero, List.append_nil, Nat.sub_self]
  have htoNat : ((hd.length : Int) + 1).toNat = hd.length + 1 := by omega
  have hw : Grid.writeRow hd (((hd.length : Int) + 1).toNat) [v] =
      hd ++ [coerceCell v] := by
    unfold Grid.writeRow
    rw [htoNat]
    simp only [Nat.add_sub_cancel, List.length_cons, List.length_nil]
    rw [List.take_length, padTo_of_length_le hd hd.length (le_refl _),
      List.drop_eq_nil_of_le (by omega)]
    simp
  have hstep : ((1 : Int).toNat - 1) = 0 := rfl
  rw [hstep]
  simp only [List.take_zero, List.drop_zero, List.nil_append]
  rw [show (1 : Int).toNat = 1 from rfl]
  rw [show (hd :: rest).take 1 = [hd] from rfl]
  rw [show List.zipWith (fun row vals => Grid.writeRow row
      (((hd.length : Int) + 1)).toNat vals) [hd] [[v]] =
    [Grid.writeRow hd (((hd.length : Int) + 1)).toNat [v]] from rfl]
  rw [hw]
  rfl

theorem zipWith_replicate_nil (data : List (List Cell)) (f : List Cell → List Cell → List Cell) :
    List.zipWith f (List.replicate data.length []) data =
      data.map (fun row => f [] row) := by
  induction data with
  | nil => rfl
  | cons r t ih =>
    simp only [List.length_cons, List.replicate_succ, List.zipWith_cons_cons,
      List.map_cons]
    rw [ih]

theorem writeRow_nil (row : List Cell) :
    Grid.writeRow [] 1 row = row.map coerceCell := by
  unfold Grid.writeRow
  simp [padTo]

theorem setValuesRect_append (g : Grid) (data : List (List Cell)) (w : Nat)
    (hne : data ≠ []) (hw : 1 ≤ w) (hdims : ∀ row ∈ data, row.length = w) :
    g.setValuesRect ((g.rows.length : Int) + 1) 1 (data.length : Int) (w : Int)
        data =
      .ok ⟨g.rows ++ data.map (fun row => row.map coerceCell)⟩ := by
  unfold Grid.setValuesRect
  have hd1 : 1 ≤ data.length := by
    cases data with
    | nil => exact absurd rfl hne
    | cons x t => simp
  have hc1 : (decide (((g.rows.length : Int) + 1) < 1) ||
      decide ((1 : Int) < 1) || decide ((data.length : Int) < 1) ||
      decide ((w : Int) < 1)) = false := by
    simp only [Bool.or_eq_false_iff, decide_eq_false_iff_not, not_lt]
    refine ⟨⟨⟨by omega, by omega⟩, by omega⟩, by omega⟩
  rw [hc1]
  simp only [Bool.false_eq_true, if_false]
  have hc2 : (decide (data.length ≠ ((data.length : Int)).toNat) ||
      data.any (fun row => decide (row.length ≠ ((w : Int)).toNat))) = false := by
    simp only [Bool.or_eq_false_iff, decide_eq_false_iff_not, ne_eq,
      not_not]
    constructor
    · omega
    · rw [List.any_eq_false]
      intro row hrow
      simp only [decide_eq_true_eq]
      rw [hdims row hrow]
      omega
  rw [hc2]
  simp only [Bool.false_eq_true, if_false]
  have hN : ((g.rows.length : Int) + 1).toNat - 1 = g.rows.length := by omega
  have hDL : ((data.length : Int)).toNat = data.length := by omega
  rw [hN, hDL]
  have hext : g.rows ++ List.replicate (g.rows.length + data.length -
      g.rows.length) [] = g.rows ++ List.replicate data.length [] := by
    congr 2
    omega
  rw [hext]
  have htake : (g.rows ++ List.replicate data.length ([] : List Cell)).take
      g.rows.length = g.rows := List.take_left' rfl
  have hdropN : (g.rows ++ List.replicate data.length ([] : List Cell)).drop
      g.rows.length = List.replicate data.length [] := List.drop_left' rfl
  have hdropAll : (g.rows ++ List.replicate data.length ([] : List Cell)).drop
      (g.rows.length + data.length) = [] := by
    rw [List.drop_eq_nil_of_le]
    simp
  rw [htake, hdropN, hdropAll]
  have htake2 : (List.replicate data.length ([] : List Cell)).take data.length =
      List.replicate data.length [] := by
    rw [List.take_all_of_le]
    simp
  rw [htake2]
  have hzip : List.zipWith (fun row vals => Grid.writeRow row (1 : Int).toNat vals)
      (List.replicate data.length []) data =
      data.map (fun row => row.map coerceCell) := by
    rw [show ((1 : Int)).toNat = 1 from rfl]
    rw [zipWith_replicate_nil data (fun row vals => Grid.writeRow row 1 vals)]
    apply List.map_congr_left
    intro row _
    exact writeRow_nil row
  rw [hzip, List.append_nil]


theorem coerce_str_of_not_iso (f : String) (h : isIsoDate f = false) :
    coerceCell (Cell.str f) = Cell.str f := by
  show (if isIsoDate f = true then Cell.date f else Cell.str f) = Cell.str f
  rw [h]
  rfl

theorem setValueAt_pad_extend (hd : List Cell) (rest : List (List Cell))
    (Lc : Nat) (v : Cell) (h : hd.length ≤ Lc) :
    Grid.setValueAt ⟨hd :: rest⟩ 1 ((Lc : Int) + 1) v =
      .ok ⟨(padTo hd Lc ++ [coerceCell v]) :: rest⟩ := by
  unfold Grid.setValueAt Grid.setValuesRect
  have hc1 : (decide ((1 : Int) < 1) || decide (((Lc : Int) + 1) < 1) ||
      decide ((1 : Int) < 1) || decide ((1 : Int) < 1)) = false := by
    simp only [Bool.or_eq_false_iff, decide_eq_false_iff_not, not_lt]
    refine ⟨⟨⟨by omega, by omega⟩, by omega⟩, by omega⟩
  rw [hc1]
  simp only [Bool.false_eq_true, if_false]
  have hc2 : (decide ([[v]].length ≠ (1 : Int).toNat) ||
      [[v]].any (fun row => decide (row.length ≠ (1 : Int).toNat))) = false := by
    rfl
  rw [hc2]
  simp only [Bool.false_eq_true, if_false]
  have hext : (1 : Int).toNat - 1 + (1 : Int).toNat - (hd :: rest).length = 0 := by
    simp only [List.length_cons]
    omega
  rw [hext]
  simp only [List.replicate_zero, List.append_nil]
  have htoNat : ((Lc : Int) + 1).toNat = Lc + 1 := by omega
  have hw : Grid.writeRow hd (((Lc : Int) + 1).toNat) [v] =
      padTo hd Lc ++ [coerceCell v] := by
    unfold Grid.writeRow
    rw [htoNat]
    simp only [Nat.add_sub_cancel, List.length_cons, List.length_nil]
    rw [List.take_of_length_le h, List.drop_eq_nil_of_le (by omega)]
    simp
  have hstep : ((1 : Int).toNat - 1) = 0 := rfl
  rw [hstep]
  simp only [List.take_zero, List.drop_zero, List.nil_append]
  rw [show (1 : Int).toNat = 1 from rfl]
  rw [show (hd :: rest).take 1 = [hd] from rfl]
  rw [show List.zipWith (fun row vals => Grid.writeRow row
      (((Lc : Int) + 1)).toNat vals) [hd] [[v]] =
    [Grid.writeRow hd (((Lc : Int) + 1)).toNat [v]] from rfl]
  rw [hw]
  rfl

theorem upsertStep_present (hd : List Cell) (rest : List (List Cell))
    (Lc : Nat) (f : String)
    (hgh : getHeader ⟨hd :: rest⟩ = .ok (padTo hd Lc))
    (hpres : (padTo hd Lc).any (fun c => c.eqStr f) = true) :
    upsertStep (⟨hd :: rest⟩, Lc) f = .ok (⟨hd :: rest⟩, Lc) := by
  show (do
    let header ← getHeader ⟨hd :: rest⟩
    if header.any (fun c => c.eqStr f) then
      pure ((⟨hd :: rest⟩ : Grid), Lc)
    else
      let g1 ← Grid.insertColumnAfter ⟨hd :: rest⟩ (Lc : Int)
      let g2 ← g1.setValueAt 1 ((Lc : Int) + 1) (Cell.str f)
      pure (g2, Lc + 1)) = .ok (⟨hd :: rest⟩, Lc)
  rw [hgh]
  simp only [Bind.bind, Except.bind, hpres, if_pos]
  rfl

theorem upsertStep_absent (hd : List Cell) (rest : List (List Cell))
    (Lc : Nat) (f : String) (hLc : 1 ≤ Lc) (hhd : hd.length ≤ Lc)
    (hrest : ∀ row ∈ rest, row.length ≤ Lc)
    (hisof : isIsoDate f = false)
    (hgh : getHeader ⟨hd :: rest⟩ = .ok (padTo hd Lc))
    (hpres : ¬ (padTo hd Lc).any (fun c => c.eqStr f) = true) :
    upsertStep (⟨hd :: rest⟩, Lc) f =
      .ok (⟨(padTo hd Lc ++ [Cell.str f]) :: rest⟩, Lc + 1) := by
  have hins := insertColumnAfter_id ⟨hd :: rest⟩ (Lc : Int) (by omega)
    (by
      intro row hrow
      rcases List.mem_cons.mp hrow with h | h
      · subst h
        omega
      · have := hrest row h
        omega)
  have hset := setValueAt_pad_extend hd rest Lc (Cell.str f) hhd
  rw [coerce_str_of_not_iso f hisof] at hset
  show (do
    let header ← getHeader ⟨hd :: rest⟩
    if header.any (fun c => c.eqStr f) then
      pure ((⟨hd :: rest⟩ : Grid), Lc)
    else
      let g1 ← Grid.insertColumnAfter ⟨hd :: rest⟩ (Lc : Int)
      let g2 ← g1.setValueAt 1 ((Lc : Int) + 1) (Cell.str f)
      pure (g2, Lc + 1)) = _
  rw [hgh]
  simp only [Bind.bind, Except.bind]
  rw [if_neg hpres, hins]
  simp only [Bind.bind, Except.bind]
  rw [hset]
  rfl

theorem upsert_loop (fs : List String) :
    ∀ (hd : List Cell) (rest : List (List Cell)) (Lc : Nat),
      1 ≤ Lc → hd.length ≤ Lc → (∀ row ∈ rest, row.length ≤ Lc) →
      Grid.lastColumn ⟨hd :: rest⟩ = Lc →
      (∀ f ∈ fs, isIsoDate f = false) →
      fs.foldlM upsertStep (⟨hd :: rest⟩, Lc)
      = .ok (⟨(if (missingCells (padTo hd Lc) fs).isEmpty then hd
            else padTo hd Lc ++ missingCells (padTo hd Lc) fs) :: rest⟩,
          Lc + (missingCells (padTo hd Lc) fs).length) := by
  induction fs with
  | nil =>
    intro hd rest Lc _ _ _ _ _
    simp only [missingCells, List.isEmpty_nil, if_pos, List.length_nil,
      Nat.add_zero, List.foldlM_nil]
    rfl
  | cons f fs' ih =>
    intro hd rest Lc hLc hhd hrest hlast hiso
    have hiso' : ∀ x ∈ fs', isIsoDate x = false :=
      fun x hx => hiso x (List.mem_cons_of_mem _ hx)
    have hisof : isIsoDate f = false := hiso f (List.mem_cons_self _ _)
    rw [List.foldlM_cons]
    have hgh := getHeader_head hd rest Lc hlast hhd hLc
    by_cases hpres : (padTo hd Lc).any (fun c => c.eqStr f) = true
    · rw [upsertStep_present hd rest Lc f hgh hpres]
      simp only [Bind.bind, Except.bind]
      rw [ih hd rest Lc hLc hhd hrest hlast hiso']
      have hmiss : missingCells (padTo hd Lc) (f :: fs') =
          missingCells (padTo hd Lc) fs' := by
        show (if (padTo hd Lc).any (fun c => c.eqStr f) = true
            then missingCells (padTo hd Lc) fs'
            else Cell.str f :: missingCells (padTo hd Lc ++ [Cell.str f]) fs')
          = missingCells (padTo hd Lc) fs'
        rw [if_pos hpres]
      rw [hmiss]
    · rw [upsertStep_absent hd rest Lc f hLc hhd hrest hisof hgh hpres]
      simp only [Bind.bind, Except.bind]
      set hd2 := padTo hd Lc ++ [Cell.str f] with hhd2
      have hhd2len : hd2.length = Lc + 1 := by
        rw [hhd2]
        simp only [List.length_append, List.length_cons, List.length_nil]
        unfold padTo
        simp only [List.length_append, List.length_replicate]
        omega
      have hrest2 : ∀ row ∈ rest, row.length ≤ Lc + 1 :=
        fun row h => le_trans (hrest row h) (by omega)
      have hlast2 : Grid.lastColumn ⟨hd2 :: rest⟩ = Lc + 1 :=
        lastColumn_of_head hd2 rest (Lc + 1) hhd2len hrest2
      rw [ih hd2 rest (Lc + 1) (by omega) (by omega) hrest2 hlast2 hiso']
      have hpad2 : padTo hd2 (Lc + 1) = hd2 :=
        padTo_of_length_le hd2 (Lc + 1) (by omega)
      rw [hpad2]
      have hmiss : missingCells (padTo hd Lc) (f :: fs') =
          Cell.str f :: missingCells hd2 fs' := by
        show (if (padTo hd Lc).any (fun c => c.eqStr f) = true
            then missingCells (padTo hd Lc) fs'
            else Cell.str f :: missingCells (padTo hd Lc ++ [Cell.str f]) fs')
          = Cell.str f :: missingCells hd2 fs'
        rw [if_neg hpres, hhd2]
      rw [hmiss]
      have hhead : (if (missingCells hd2 fs').isEmpty then hd2
          else hd2 ++ missingCells hd2 fs') = hd2 ++ missingCells hd2 fs' := by
        by_cases hms : (missingCells hd2 fs').isEmpty = true
        · rw [if_pos hms, List.isEmpty_iff.mp hms, List.append_nil]
        · rw [if_neg hms]
      rw [hhead]
      simp only [List.isEmpty_cons, Bool.false_eq_true, if_false, hhd2,
        List.append_assoc, List.singleton_append, List.length_cons]
      rw [show Lc + 1 + (missingCells (padTo hd Lc ++ [Cell.str f]) fs').length
          = Lc + ((missingCells (padTo hd Lc ++ [Cell.str f]) fs').length + 1)
        from by omega]


theorem lastColumn_pos_of_nonblank (g : Grid) (h : ¬ g.isBlank = true) :
    1 ≤ g.lastColumn := by
  unfold Grid.isBlank at h
  rw [List.all_eq_true] at h
  push_neg at h
  obtain ⟨row, hrow, hnb⟩ := h
  have hlen : 1 ≤ row.length := by
    cases row with
    | nil => exact absurd rfl hnb
    | cons c t => simp
  exact le_trans hlen (rows_le_lastColumn g row hrow)

theorem upsertHeader_nonblank (hd : List Cell) (rest : List (List Cell))
    (fs : List String)
    (hnb : ¬ (Grid.isBlank ⟨hd :: rest⟩) = true)
    (hiso : ∀ f ∈ fs, isIsoDate f = false) :
    upsertHeader ⟨hd :: rest⟩ fs =
      .ok ⟨(if (missingCells (padTo hd (Grid.lastColumn ⟨hd :: rest⟩)) fs).isEmpty
          then hd
          else padTo hd (Grid.lastColumn ⟨hd :: rest⟩) ++
            missingCells (padTo hd (Grid.lastColumn ⟨hd :: rest⟩)) fs) ::
        rest⟩ := by
  unfold upsertHeader
  rw [if_neg hnb]
  have hLc1 : 1 ≤ Grid.lastColumn ⟨hd :: rest⟩ :=
    lastColumn_pos_of_nonblank _ hnb
  have hhd : hd.length ≤ Grid.lastColumn ⟨hd :: rest⟩ :=
    rows_le_lastColumn _ hd (List.mem_cons_self _ _)
  have hrest : ∀ row ∈ rest, row.length ≤ Grid.lastColumn ⟨hd :: rest⟩ :=
    fun row h => rows_le_lastColumn _ row (List.mem_cons_of_mem _ h)
  rw [upsert_loop fs hd rest (Grid.lastColumn ⟨hd :: rest⟩) hLc1 hhd hrest
    rfl hiso]
  rfl

theorem any_append_cells (a b : List Cell) (P : Cell → Bool) :
    (a ++ b).any P = (a.any P || b.any P) := List.any_append

theorem any_padTo (hd : List Cell) (n : Nat) (f : String) (hf : f ≠ "") :
    (padTo hd n).any (fun c => c.eqStr f) = hd.any (fun c => c.eqStr f) := by
  unfold padTo
  rw [List.any_append]
  have hrep : (List.replicate (n - hd.length) Cell.blank).any
      (fun c => c.eqStr f) = false := by
    rw [List.any_eq_false]
    intro c hc
    rw [List.eq_of_mem_replicate hc]
    intro hcc
    have hstr : ("" : String) = f := by
      unfold Cell.eqStr Cell.blank at hcc
      simpa using hcc
    exact hf hstr.symm
  rw [hrep, Bool.or_false]

theorem missingCells_covered (fs : List String) :
    ∀ hdr, ∀ f ∈ fs,
      (hdr ++ missingCells hdr fs).any (fun c => c.eqStr f) = true := by
  induction fs with
  | nil => intro hdr f hf; simp at hf
  | cons f' fs' ih =>
    intro hdr f hf
    by_cases hpres : hdr.any (fun c => c.eqStr f') = true
    · rw [show missingCells hdr (f' :: fs') = missingCells hdr fs' from by
        show (if hdr.any (fun c => c.eqStr f') = true
            then missingCells hdr fs'
            else Cell.str f' :: missingCells (hdr ++ [Cell.str f']) fs')
          = missingCells hdr fs'
        rw [if_pos hpres]]
      rcases List.mem_cons.mp hf with h | h
      · subst h
        rw [List.any_append, hpres, Bool.true_or]
      · exact ih hdr f h
    · rw [show missingCells hdr (f' :: fs') =
          Cell.str f' :: missingCells (hdr ++ [Cell.str f']) fs' from by
        show (if hdr.any (fun c => c.eqStr f') = true
            then missingCells hdr fs'
            else Cell.str f' :: missingCells (hdr ++ [Cell.str f']) fs')
          = Cell.str f' :: missingCells (hdr ++ [Cell.str f']) fs'
        rw [if_neg hpres]]
      rcases List.mem_cons.mp hf with h | h
      · subst h
        rw [List.any_eq_true]
        refine ⟨Cell.str f, ?_, by simp [Cell.eqStr]⟩
        exact List.mem_append_right _ (List.mem_cons_self _ _)
      · have := ih (hdr ++ [Cell.str f']) f h
        rw [List.any_eq_true] at this ⊢
        obtain ⟨c, hc, hcP⟩ := this
        refine ⟨c, ?_, hcP⟩
        rcases List.mem_append.mp hc with hm | hm
        · rcases List.mem_append.mp hm with hm2 | hm2
          · exact List.mem_append_left _ hm2
          · refine List.mem_append_right _ ?_
            rcases List.mem_singleton.mp hm2 with rfl
            exact List.mem_cons_self _ _
        · exact List.mem_append_right _ (List.mem_cons_of_mem _ hm)

theorem missingCells_nil_of_covered (fs : List String) :
    ∀ hdr, (∀ f ∈ fs, hdr.any (fun c => c.eqStr f) = true) →
      missingCells hdr fs = [] := by
  induction fs with
  | nil => intro hdr _; rfl
  | cons f fs' ih =>
    intro hdr hcov
    show (if hdr.any (fun c => c.eqStr f) = true
        then missingCells hdr fs'
        else Cell.str f :: missingCells (hdr ++ [Cell.str f]) fs') = []
    rw [if_pos (hcov f (List.mem_cons_self _ _))]
    exact ih hdr (fun x hx => hcov x (List.mem_cons_of_mem _ hx))

theorem countP_missingCells_zero (fs : List String) :
    ∀ hdr (f : String), hdr.any (fun c => c.eqStr f) = true →
      (missingCells hdr fs).countP (fun c => c.eqStr f) = 0 := by
  induction fs with
  | nil => intro hdr f _; rfl
  | cons f' fs' ih =>
    intro hdr f hany
    show List.countP (fun c => c.eqStr f)
        (if hdr.any (fun c => c.eqStr f') = true
          then missingCells hdr fs'
          else Cell.str f' :: missingCells (hdr ++ [Cell.str f']) fs') = 0
    by_cases hpres : hdr.any (fun c => c.eqStr f') = true
    · rw [if_pos hpres]
      exact ih hdr f hany
    · rw [if_neg hpres]
      rw [List.countP_cons]
      have hne : (Cell.str f').eqStr f = false := by
        cases hcc : (Cell.str f').eqStr f with
        | false => rfl
        | true =>
          exfalso
          have : f' = f := by
            have := hcc
            unfold Cell.eqStr at this
            simpa using this
          subst this
          exact hpres hany
      rw [hne]
      simp only [Bool.false_eq_true, if_false, Nat.add_zero]
      refine ih (hdr ++ [Cell.str f']) f ?_
      rw [List.any_append, hany, Bool.true_or]

theorem countP_missingCells_one (fs : List String) :
    ∀ hdr (f : String), f ∈ fs → hdr.any (fun c => c.eqStr f) = false →
      (missingCells hdr fs).countP (fun c => c.eqStr f) = 1 := by
  induction fs with
  | nil => intro hdr f hf _; simp at hf
  | cons f' fs' ih =>
    intro hdr f hf hany
    show List.countP (fun c => c.eqStr f)
        (if hdr.any (fun c => c.eqStr f') = true
          then missingCells hdr fs'
          else Cell.str f' :: missingCells (hdr ++ [Cell.str f']) fs') = 1
    by_cases hpres : hdr.any (fun c => c.eqStr f') = true
    · rw [if_pos hpres]
      have hff' : f ≠ f' := by
        intro h
        subst h
        rw [hany] at hpres
        exact absurd hpres (by simp)
      rcases List.mem_cons.mp hf with h | h
      · exact absurd h hff'
      · exact ih hdr f h hany
    · rw [if_neg hpres]
      rw [List.countP_cons]
      by_cases hff' : f' = f
      · subst hff'
        have heq : (Cell.str f').eqStr f' = true := by
          simp [Cell.eqStr]
        rw [heq]
        simp only [if_pos]
        have hz : (missingCells (hdr ++ [Cell.str f']) fs').countP
            (fun c => c.eqStr f') = 0 := by
          refine countP_missingCells_zero fs' _ f' ?_
          rw [List.any_append]
          have : [Cell.str f'].any (fun c => c.eqStr f') = true := by
            simp [Cell.eqStr]
          rw [this, Bool.or_true]
        rw [hz]
      · have hne : (Cell.str f').eqStr f = false := by
          unfold Cell.eqStr
          simp only [beq_eq_false_iff_ne, ne_eq]
          exact hff'
        rw [hne]
        simp only [Bool.false_eq_true, if_false, Nat.add_zero]
        have hfm : f ∈ fs' := by
          rcases List.mem_cons.mp hf with h | h
          · exact absurd h.symm hff'
          · exact h
        refine ih (hdr ++ [Cell.str f']) f hfm ?_
        rw [List.any_append, hany, Bool.false_or]
        have : [Cell.str f'].any (fun c => c.eqStr f) = false := by
          simp only [List.any_cons, List.any_nil, Bool.or_false]
          exact hne
        exact this


theorem padTo_length (row : List Cell) (n : Nat) (h : row.length ≤ n) :
    (padTo row n).length = n := by
  unfold padTo
  simp only [List.length_append, List.length_replicate]
  omega

theorem countP_padTo (hd : List Cell) (n : Nat) (f : String) (hf : f ≠ "") :
    (padTo hd n).countP (fun c => c.eqStr f) =
      hd.countP (fun c => c.eqStr f) := by
  unfold padTo
  rw [List.countP_append]
  have hrep : (List.replicate (n - hd.length) Cell.blank).countP
      (fun c => c.eqStr f) = 0 := by
    rw [List.countP_eq_zero]
    intro c hc
    rw [List.eq_of_mem_replicate hc]
    intro hcc
    have hstr : ("" : String) = f := by
      unfold Cell.eqStr Cell.blank at hcc
      simpa using hcc
    exact hf hstr.symm
  rw [hrep]
  omega

/-- C9 (amended): provided the store is a real store (truly empty, or
with some content) and the field names are plain nonempty strings that
the sheet does not coerce to dates, `upsertHeader` run twice with the
same list returns the grid of the first run unchanged (idempotence);
it never removes or reorders existing columns (row 1 is only extended
on the right and the data rows are untouched); and on a non-blank store
a duplicated input name still yields exactly one matching column.  On a
blank store, however, the header is written verbatim, so duplicates in
the input do produce duplicate columns (see the counterexample). -/
theorem upsertHeader_idempotent_append_only (g : Grid) (fs : List String)
    (hne : fs ≠ [])
    (hgood : ∀ f ∈ fs, isIsoDate f = false ∧ f ≠ "")
    (hwf : g.rows = [] ∨ g.isBlank = false) :
    ∃ g1, upsertHeader g fs = .ok g1 ∧
      upsertHeader g1 fs = .ok g1 ∧
      g1.rows.tail = g.rows.tail ∧
      (∃ ext, g1.rows.headD [] = g.rows.headD [] ++ ext) ∧
      (g.isBlank = false → ∀ f ∈ fs,
        (g1.rows.headD []).countP (fun c => c.eqStr f) =
          max ((g.rows.headD []).countP (fun c => c.eqStr f)) 1) := by
  have hiso : ∀ f ∈ fs, isIsoDate f = false := fun f hf => (hgood f hf).1
  have hnz : ∀ f ∈ fs, f ≠ "" := fun f hf => (hgood f hf).2
  have hmapco : (fs.map Cell.str).map coerceCell = fs.map Cell.str := by
    rw [List.map_map]
    have hcc : ∀ f ∈ fs, (coerceCell ∘ Cell.str) f = Cell.str f := by
      intro f hf
      exact coerce_str_of_not_iso f (hiso f hf)
    rw [List.map_congr_left hcc]
  obtain ⟨rows⟩ := g
  rcases hwf with hrows | hnb
  · simp only at hrows
    subst hrows
    have hbl : (⟨[]⟩ : Grid).isBlank = true := rfl
    have h1 : upsertHeader ⟨[]⟩ fs = .ok ⟨[fs.map Cell.str]⟩ := by
      unfold upsertHeader
      rw [if_pos hbl]
      unfold Grid.appendRow
      rw [if_neg (by
        intro hemp
        rw [List.isEmpty_iff] at hemp
        exact hne (List.map_eq_nil_iff.mp hemp))]
      rw [hmapco]
      rfl
    obtain ⟨f0, fs0, hfs0⟩ : ∃ f0 fs0, fs = f0 :: fs0 := by
      cases fs with
      | nil => exact absurd rfl hne
      | cons a b => exact ⟨a, b, rfl⟩
    have hf0mem : Cell.str f0 ∈ fs.map Cell.str :=
      List.mem_map_of_mem _ (by rw [hfs0]; exact List.mem_cons_self _ _)
    have hnb1 : ¬ (Grid.isBlank ⟨[fs.map Cell.str]⟩) = true := by
      intro hcon
      unfold Grid.isBlank at hcon
      rw [List.all_eq_true] at hcon
      have h2 := hcon (fs.map Cell.str) (List.mem_cons_self _ _)
      rw [List.all_eq_true] at h2
      have h3 := h2 (Cell.str f0) hf0mem
      rw [beq_iff_eq] at h3
      have : f0 = "" := by
        injection h3
      exact hnz f0 (by rw [hfs0]; exact List.mem_cons_self _ _) this
    have hcov : ∀ f ∈ fs, (fs.map Cell.str).any (fun c => c.eqStr f) = true := by
      intro f hf
      rw [List.any_eq_true]
      exact ⟨Cell.str f, List.mem_map_of_mem _ hf, by simp [Cell.eqStr]⟩
    have hLc : Grid.lastColumn ⟨[fs.map Cell.str]⟩ = (fs.map Cell.str).length :=
      lastColumn_of_head _ [] _ rfl (by intro row h; simp at h)
    have h2 : upsertHeader ⟨[fs.map Cell.str]⟩ fs = .ok ⟨[fs.map Cell.str]⟩ := by
      rw [upsertHeader_nonblank (fs.map Cell.str) [] fs hnb1 hiso]
      rw [hLc, padTo_of_length_le _ _ (le_refl _),
        missingCells_nil_of_covered fs _ hcov]
      rfl
    refine ⟨⟨[fs.map Cell.str]⟩, h1, h2, rfl, ⟨fs.map Cell.str, by simp⟩, ?_⟩
    intro hcon
    exact Bool.noConfusion (hbl.symm.trans hcon)
  · obtain ⟨hd, rest, hrw⟩ : ∃ hd rest, rows = hd :: rest := by
      cases rows with
      | nil =>
        exfalso
        rw [show (Grid.isBlank ⟨[]⟩) = true from rfl] at hnb
        simp at hnb
      | cons a b => exact ⟨a, b, rfl⟩
    subst hrw
    have hnb' : ¬ (Grid.isBlank ⟨hd :: rest⟩) = true := by
      rw [hnb]
      simp
    have hLc1 : 1 ≤ Grid.lastColumn ⟨hd :: rest⟩ :=
      lastColumn_pos_of_nonblank _ hnb'
    have hhdle : hd.length ≤ Grid.lastColumn ⟨hd :: rest⟩ :=
      rows_le_lastColumn _ hd (List.mem_cons_self _ _)
    have hrestle : ∀ row ∈ rest, row.length ≤ Grid.lastColumn ⟨hd :: rest⟩ :=
      fun row h => rows_le_lastColumn _ row (List.mem_cons_of_mem _ h)
    have h1 := upsertHeader_nonblank hd rest fs hnb' hiso
    by_cases hms : (missingCells
        (padTo hd (Grid.lastColumn ⟨hd :: rest⟩)) fs).isEmpty = true
    · rw [if_pos hms] at h1
      refine ⟨⟨hd :: rest⟩, h1, h1, rfl, ⟨[], by simp⟩, ?_⟩
      intro _ f hf
      have hanyhd : hd.any (fun c => c.eqStr f) = true := by
        by_contra hno
        have hnof : hd.any (fun c => c.eqStr f) = false := by
          cases hcc : hd.any (fun c => c.eqStr f) with
          | false => rfl
          | true => exact absurd hcc hno
        have hpad : (padTo hd (Grid.lastColumn ⟨hd :: rest⟩)).any
            (fun c => c.eqStr f) = false := by
          rw [any_padTo hd _ f (hnz f hf)]
          exact hnof
        have hone := countP_missingCells_one fs
          (padTo hd (Grid.lastColumn ⟨hd :: rest⟩)) f hf hpad
        rw [List.isEmpty_iff.mp hms] at hone
        simp at hone
      have hpos : 0 < hd.countP (fun c => c.eqStr f) := by
        rw [List.countP_pos]
        rw [List.any_eq_true] at hanyhd
        obtain ⟨c, hc, hcP⟩ := hanyhd
        exact ⟨c, hc, hcP⟩
      simp only [List.headD_cons]
      omega
    · rw [if_neg hms] at h1
      have hlen1 : (padTo hd (Grid.lastColumn ⟨hd :: rest⟩) ++
          missingCells (padTo hd (Grid.lastColumn ⟨hd :: rest⟩)) fs).length =
          Grid.lastColumn ⟨hd :: rest⟩ +
            (missingCells (padTo hd (Grid.lastColumn ⟨hd :: rest⟩)) fs).length := by
        rw [List.length_append, padTo_length _ _ hhdle]
      have hnb1 : ¬ (Grid.isBlank ⟨(padTo hd (Grid.lastColumn ⟨hd :: rest⟩) ++
          missingCells (padTo hd (Grid.lastColumn ⟨hd :: rest⟩)) fs) ::
          rest⟩) = true := by
        intro hcon
        apply hnb'
        unfold Grid.isBlank at hcon ⊢
        rw [List.all_eq_true] at hcon
        rw [List.all_eq_true]
        intro row hrow
        rcases List.mem_cons.mp hrow with h | h
        · subst h
          rw [List.all_eq_true]
          intro c hc
          have h2 := hcon _ (List.mem_cons_self _ _)
          rw [List.all_eq_true] at h2
          refine h2 c ?_
          refine List.mem_append_left _ ?_
          unfold padTo
          exact List.mem_append_left _ hc
        · exact hcon row (List.mem_cons_of_mem _ h)
      have hLc2 : Grid.lastColumn ⟨(padTo hd (Grid.lastColumn ⟨hd :: rest⟩) ++
          missingCells (padTo hd (Grid.lastColumn ⟨hd :: rest⟩)) fs) ::
          rest⟩ = Grid.lastColumn ⟨hd :: rest⟩ +
            (missingCells (padTo hd (Grid.lastColumn ⟨hd :: rest⟩)) fs).length :=
        lastColumn_of_head _ rest _ hlen1
          (fun row h => le_trans (hrestle row h) (by omega))
      have hcov2 : ∀ f ∈ fs, (padTo hd (Grid.lastColumn ⟨hd :: rest⟩) ++
          missingCells (padTo hd (Grid.lastColumn ⟨hd :: rest⟩)) fs).any
            (fun c => c.eqStr f) = true :=
        fun f hf => missingCells_covered fs _ f hf
      have h2 := upsertHeader_nonblank
        (padTo hd (Grid.lastColumn ⟨hd :: rest⟩) ++
          missingCells (padTo hd (Grid.lastColumn ⟨hd :: rest⟩)) fs)
        rest fs hnb1 hiso
      rw [hLc2, padTo_of_length_le _ _ (le_of_eq hlen1.symm),
        missingCells_nil_of_covered fs _ hcov2] at h2
      simp only [List.isEmpty_nil, if_pos] at h2
      refine ⟨_, h1, h2, rfl, ?_, ?_⟩
      · refine ⟨List.replicate (Grid.lastColumn ⟨hd :: rest⟩ - hd.length)
          Cell.blank ++
          missingCells (padTo hd (Grid.lastColumn ⟨hd :: rest⟩)) fs, ?_⟩
        simp only [List.headD_cons]
        unfold padTo
        rw [List.append_assoc]
      · intro _ f hf
        simp only [List.headD_cons]
        rw [List.countP_append, countP_padTo _ _ f (hnz f hf)]
        by_cases hany : hd.any (fun c => c.eqStr f) = true
        · have hz := countP_missingCells_zero fs
            (padTo hd (Grid.lastColumn ⟨hd :: rest⟩)) f
            (by rw [any_padTo hd _ f (hnz f hf)]; exact hany)
          rw [hz]
          have hpos : 0 < hd.countP (fun c => c.eqStr f) := by
            rw [List.countP_pos]
            rw [List.any_eq_true] at hany
            obtain ⟨c, hc, hcP⟩ := hany
            exact ⟨c, hc, hcP⟩
          omega
        · have hnof : hd.any (fun c => c.eqStr f) = false := by
            cases hcc : hd.any (fun c => c.eqStr f) with
            | false => rfl
            | true => exact absurd hcc hany
          have hone := countP_missingCells_one fs
            (padTo hd (Grid.lastColumn ⟨hd :: rest⟩)) f hf
            (by rw [any_padTo hd _ f (hnz f hf)]; exact hnof)
          rw [hone]
          have hz2 : hd.countP (fun c => c.eqStr f) = 0 := by
            rw [List.countP_eq_zero]
            intro c hc hcP
            rw [List.any_eq_false] at hnof
            exact hnof c hc hcP
          rw [hz2]
          rfl

/-- Witness for the C9 theorem at a concrete non-blank store: header ["k"],
one data row, field list ["k", "k", "b"] containing a duplicate. -/
theorem upsertHeader_idempotent_append_only_witness :
    ∃ g1, upsertHeader ⟨[[Cell.str "k"], [Cell.str "a"]]⟩ ["k", "k", "b"] = .ok g1 ∧
      upsertHeader g1 ["k", "k", "b"] = .ok g1 ∧
      g1.rows.tail = (⟨[[Cell.str "k"], [Cell.str "a"]]⟩ : Grid).rows.tail ∧
      (∃ ext, g1.rows.headD [] =
        ((⟨[[Cell.str "k"], [Cell.str "a"]]⟩ : Grid)).rows.headD [] ++ ext) ∧
      ((⟨[[Cell.str "k"], [Cell.str "a"]]⟩ : Grid).isBlank = false →
        ∀ f ∈ ["k", "k", "b"],
          (g1.rows.headD []).countP (fun c => c.eqStr f) =
            max (((⟨[[Cell.str "k"], [Cell.str "a"]]⟩ : Grid).rows.headD []).countP
              (fun c => c.eqStr f)) 1) :=
  upsertHeader_idempotent_append_only ⟨[[Cell.str "k"], [Cell.str "a"]]⟩
    ["k", "k", "b"] (by decide) (by decide) (Or.inr (by rfl))

/-! ### Helpers for `backupData` (C1) -/

theorem find?_map_set (t : Rec) (f : String) (v : Cell) :
    t.any (fun p => p.1 == f) = true →
      (t.map (fun p => if p.1 == f then (f, v) else p)).find?
        (fun p => p.1 == f) = some (f, v) := by
  induction t with
  | nil => intro h; simp at h
  | cons x q ih =>
    intro h
    rw [List.map_cons]
    by_cases hx : (x.1 == f) = true
    · rw [if_pos hx]
      rw [List.find?_cons_of_pos _ (by simp)]
    · rw [if_neg hx]
      rw [List.find?_cons_of_neg _ (by simpa using hx)]
      apply ih
      have hx' : (x.1 == f) = false := by
        cases hcc : (x.1 == f) with
        | false => rfl
        | true => exact absurd hcc hx
      simpa [List.any_cons, hx'] using h

theorem find?_append_none (P : String × Cell → Bool) (l l' : Rec)
    (h : l.find? P = none) : (l ++ l').find? P = l'.find? P := by
  induction l with
  | nil => rfl
  | cons x t ih =>
    rw [List.find?_cons] at h
    rw [List.cons_append, List.find?_cons]
    cases hx : P x with
    | true => rw [hx] at h; exact absurd h (by simp)
    | false =>
      rw [hx] at h
      exact ih h

theorem recGet_recSet_self (r : Rec) (f : String) (v : Cell) :
    recGet (recSet r f v) f = v := by
  unfold recSet
  by_cases h : r.any (fun p => p.1 == f) = true
  · rw [if_pos h]
    unfold recGet
    rw [find?_map_set r f v h]
  · rw [if_neg h]
    unfold recGet
    have hnone : r.find? (fun p => p.1 == f) = none := by
      rw [List.find?_eq_none]
      intro q hq hcon
      apply h
      rw [List.any_eq_true]
      exact ⟨q, hq, hcon⟩
    rw [find?_append_none _ r _ hnone]
    rw [List.find?_cons_of_pos _ (by simp)]

theorem keys_recSet (r : Rec) (f : String) (v : Cell) :
    ∀ q ∈ recSet r f v, q.1 = f ∨ q.1 ∈ r.map Prod.fst := by
  intro q hq
  unfold recSet at hq
  by_cases h : r.any (fun p => p.1 == f) = true
  · rw [if_pos h] at hq
    obtain ⟨x, hx, hxq⟩ := List.mem_map.mp hq
    by_cases hxf : (x.1 == f) = true
    · rw [if_pos hxf] at hxq
      left
      rw [← hxq]
    · rw [if_neg hxf] at hxq
      right
      rw [← hxq]
      exact List.mem_map_of_mem _ hx
  · rw [if_neg h] at hq
    rcases List.mem_append.mp hq with h2 | h2
    · right
      exact List.mem_map_of_mem _ h2
    · left
      rw [List.mem_singleton] at h2
      rw [h2]

theorem keys_projFold (fields : List String) (record : Rec) :
    ∀ init : Rec, ∀ q ∈ fields.foldl
        (fun nr f => recSet nr f (recGet record f)) init,
      q.1 ∈ fields ∨ q.1 ∈ init.map Prod.fst := by
  induction fields with
  | nil =>
    intro init q hq
    right
    exact List.mem_map_of_mem _ hq
  | cons f fs ih =>
    intro init q hq
    rw [List.foldl_cons] at hq
    rcases ih (recSet init f (recGet record f)) q hq with h | h
    · left
      exact List.mem_cons_of_mem _ h
    · obtain ⟨q2, hq2, hq2eq⟩ := List.mem_map.mp h
      rcases keys_recSet init f (recGet record f) q2 hq2 with h2 | h2
      · left
        rw [← hq2eq, h2]
        exact List.mem_cons_self _ _
      · right
        rw [← hq2eq]
        exact h2

theorem mem_header_inner (r : Rec) :
    ∀ acc : List String, ∀ f ∈ r.foldl
        (fun acc p => if acc.contains p.1 then acc else acc ++ [p.1]) acc,
      f ∈ acc ∨ f ∈ r.map Prod.fst := by
  induction r with
  | nil =>
    intro acc f hf
    left
    exact hf
  | cons x t ih =>
    intro acc f hf
    rw [List.foldl_cons] at hf
    rcases ih _ f hf with h | h
    · by_cases hc : acc.contains x.1 = true
      · rw [if_pos hc] at h
        left
        exact h
      · rw [if_neg hc] at h
        rcases List.mem_append.mp h with h2 | h2
        · left
          exact h2
        · right
          rw [List.mem_singleton] at h2
          rw [h2, List.map_cons]
          exact List.mem_cons_self _ _
    · right
      rw [List.map_cons]
      exact List.mem_cons_of_mem _ h

theorem mem_headerFold (records : List Rec) :
    ∀ acc, ∀ f ∈ records.foldl
        (fun acc r => r.foldl
          (fun acc p => if acc.contains p.1 then acc else acc ++ [p.1]) acc)
        acc,
      f ∈ acc ∨ ∃ r ∈ records, f ∈ r.map Prod.fst := by
  induction records with
  | nil =>
    intro acc f hf
    left
    exact hf
  | cons r rs ih =>
    intro acc f hf
    rw [List.foldl_cons] at hf
    rcases ih _ f hf with h | h
    · rcases mem_header_inner r acc f h with h2 | h2
      · left
        exact h2
      · right
        exact ⟨r, List.mem_cons_self _ _, h2⟩
    · right
      obtain ⟨r2, hr2, hf2⟩ := h
      exact ⟨r2, List.mem_cons_of_mem _ hr2, hf2⟩

theorem mem_getHeaderFromRecords (records : List Rec) (f : String)
    (hf : f ∈ getHeaderFromRecords records) :
    ∃ r ∈ records, f ∈ r.map Prod.fst := by
  unfold getHeaderFromRecords at hf
  rcases mem_headerFold records [] f hf with h | h
  · simp at h
  · exact h

theorem findIdx?_all_fail (P : Cell → Bool) (junk : List Cell)
    (hj : ∀ c ∈ junk, P c = false) :
    ∀ s, List.findIdx? P junk s = none := by
  induction junk with
  | nil => intro s; rfl
  | cons x t ih =>
    intro s
    rw [List.findIdx?_cons]
    rw [if_neg (by rw [hj x (List.mem_cons_self _ _)]; exact Bool.false_ne_true)]
    exact ih (fun c hc => hj c (List.mem_cons_of_mem _ hc)) (s + 1)

theorem findIdx?_append_fail (P : Cell → Bool) (l junk : List Cell)
    (hj : ∀ c ∈ junk, P c = false) :
    ∀ s, List.findIdx? P (l ++ junk) s = List.findIdx? P l s := by
  induction l with
  | nil =>
    intro s
    rw [List.nil_append, findIdx?_all_fail P junk hj s]
    rfl
  | cons x t ih =>
    intro s
    rw [List.cons_append, List.findIdx?_cons, List.findIdx?_cons]
    by_cases hx : P x = true
    · rw [if_pos hx, if_pos hx]
    · rw [if_neg hx, if_neg hx, ih (s + 1)]

theorem eqStr_eq (c : Cell) (f : String) (h : c.eqStr f = true) :
    c = Cell.str f := by
  cases c with
  | str s =>
    unfold Cell.eqStr at h
    simp only [beq_iff_eq] at h
    rw [h]
  | num n => simp [Cell.eqStr] at h
  | date d => simp [Cell.eqStr] at h

theorem getD_padTo_lt (hdr : List Cell) (n i : Nat) (hi : i < hdr.length) :
    (padTo hdr n).getD i Cell.blank = hdr.getD i Cell.blank := by
  unfold padTo
  rw [List.getD_eq_getElem?_getD, List.getD_eq_getElem?_getD,
    List.getElem?_append_left hi]

theorem getD_map_cell (F : Cell → Cell) (l : List Cell) (i : Nat)
    (hi : i < l.length) (d : Cell) :
    (l.map F).getD i d = F (l.getD i d) := by
  rw [List.getD_eq_getElem?_getD, List.getElem?_map,
    List.getD_eq_getElem?_getD, List.getElem?_eq_getElem hi]
  rfl

theorem getD_mem_of_lt (l : List Cell) (i : Nat) (hi : i < l.length) :
    l.getD i Cell.blank ∈ l := by
  rw [List.getD_eq_getElem l Cell.blank hi]
  exact List.getElem_mem hi

theorem nonblank_of_cell (hdr : List Cell) (rest' : List (List Cell))
    (f : String) (hne : f ≠ "") (i : Nat) (hi : i < hdr.length)
    (hc : hdr.getD i Cell.blank = Cell.str f) :
    ¬ (Grid.isBlank ⟨hdr :: rest'⟩) = true := by
  intro hcon
  unfold Grid.isBlank at hcon
  rw [List.all_eq_true] at hcon
  have h1 := hcon hdr (List.mem_cons_self _ _)
  rw [List.all_eq_true] at h1
  have h2 := h1 _ (getD_mem_of_lt hdr i hi)
  rw [hc, beq_iff_eq] at h2
  unfold Cell.blank at h2
  injection h2 with h2
  exact hne h2

theorem getColumnId_head_findIdx (hdr : List Cell) (rest' : List (List Cell))
    (f : String) (hf : f ≠ "") (i : Nat)
    (hfind : hdr.findIdx? (fun c => c.eqStr f) = some i)
    (hhd : 1 ≤ hdr.length) :
    getColumnId ⟨hdr :: rest'⟩ f = .ok ((i : Int) + 1) := by
  have hLc : hdr.length ≤ Grid.lastColumn ⟨hdr :: rest'⟩ :=
    rows_le_lastColumn _ hdr (List.mem_cons_self _ _)
  have hpos : 1 ≤ Grid.lastColumn ⟨hdr :: rest'⟩ := le_trans hhd hLc
  unfold getColumnId
  rw [getHeader_head hdr rest' _ rfl hLc hpos]
  simp only [Bind.bind, Except.bind]
  unfold padTo
  rw [findIdx?_append_fail (fun c => c.eqStr f) hdr _ ?junk 0, hfind]
  · rfl
  case junk =>
    intro c hc
    rw [List.eq_of_mem_replicate hc]
    unfold Cell.blank Cell.eqStr
    rw [beq_eq_false_iff_ne]
    exact fun h2 => hf h2.symm

theorem matchRowsFrom_cons (row : List Cell) (rest : List (List Cell))
    (r0 p : Nat) (v : String) :
    matchRowsFrom (row :: rest) r0 p v =
      if (row.getD (p - 1) Cell.blank).matchesText v then
        r0 :: matchRowsFrom rest (r0 + 1) p v
      else matchRowsFrom rest (r0 + 1) p v := rfl

theorem matchRowsFrom_append (A B : List (List Cell)) (p : Nat) (v : String) :
    ∀ r0, matchRowsFrom (A ++ B) r0 p v =
      matchRowsFrom A r0 p v ++ matchRowsFrom B (r0 + A.length) p v := by
  induction A with
  | nil =>
    intro r0
    simp [matchRowsFrom]
  | cons row t ih =>
    intro r0
    rw [List.cons_append, matchRowsFrom_cons, matchRowsFrom_cons]
    have harith : r0 + 1 + t.length = r0 + (row :: t).length := by
      simp only [List.length_cons]
      omega
    by_cases hm : (row.getD (p - 1) Cell.blank).matchesText v = true
    · rw [if_pos hm, if_pos hm, ih (r0 + 1), harith, List.cons_append]
    · rw [if_neg hm, if_neg hm, ih (r0 + 1), harith]

theorem matchRowsFrom_none (A : List (List Cell)) (p : Nat) (v : String)
    (h : ∀ row ∈ A, (row.getD (p - 1) Cell.blank).matchesText v = false) :
    ∀ r0, matchRowsFrom A r0 p v = [] := by
  induction A with
  | nil => intro r0; rfl
  | cons row t ih =>
    intro r0
    rw [matchRowsFrom_cons,
      if_neg (by rw [h row (List.mem_cons_self _ _)]; exact Bool.false_ne_true)]
    exact ih (fun r hr => h r (List.mem_cons_of_mem _ hr)) (r0 + 1)

theorem matchRowsFrom_all (B : List (List Cell)) (p : Nat) (v : String)
    (h : ∀ row ∈ B, (row.getD (p - 1) Cell.blank).matchesText v = true) :
    ∀ r0, matchRowsFrom B r0 p v =
      (List.range B.length).map (fun t => r0 + t) := by
  induction B with
  | nil => intro r0; rfl
  | cons row t ih =>
    intro r0
    rw [matchRowsFrom_cons, if_pos (h row (List.mem_cons_self _ _)),
      ih (fun r hr => h r (List.mem_cons_of_mem _ hr)) (r0 + 1)]
    rw [List.length_cons, List.range_succ_eq_map, List.map_cons, List.map_map]
    simp only [Nat.add_zero]
    congr 1
    apply List.map_congr_left
    intro j _
    show r0 + 1 + j = r0 + Nat.succ j
    omega

theorem removeRows_match_none (p : Nat) (v : String) :
    ∀ (A : List (List Cell)) (r0 : Nat),
      ∀ row ∈ removeRowsFrom A ((r0 : Nat) : Int)
          ((matchRowsFrom A r0 p v).map Int.ofNat),
        (row.getD (p - 1) Cell.blank).matchesText v = false := by
  intro A
  induction A with
  | nil =>
    intro r0 row h
    simp [removeRowsFrom] at h
  | cons x t ih =>
    intro r0 row hrow
    rw [matchRowsFrom_cons] at hrow
    have hcast : ((r0 : Nat) : Int) + 1 = (((r0 + 1 : Nat)) : Int) := by
      push_cast
      ring
    by_cases hm : (x.getD (p - 1) Cell.blank).matchesText v = true
    · rw [if_pos hm, removeRowsFrom_cons] at hrow
      have hc : (((r0 :: matchRowsFrom t (r0 + 1) p v).map Int.ofNat).contains
          ((r0 : Nat) : Int)) = true := by
        rw [contains_iff_mem, List.map_cons]
        exact List.mem_cons_self _ _
      rw [if_pos hc] at hrow
      rw [removeRowsFrom_congr t _
        ((matchRowsFrom t (r0 + 1) p v).map Int.ofNat)
        (((r0 : Nat) : Int) + 1) ?agree] at hrow
      · rw [hcast] at hrow
        exact ih (r0 + 1) row hrow
      case agree =>
        intro y hy
        rw [List.map_cons]
        constructor
        · intro hmem
          rcases List.mem_cons.mp hmem with h2 | h2
          · exfalso
            rw [h2] at hy
            simp only [Int.ofNat_eq_natCast] at hy
            omega
          · exact h2
        · exact fun h2 => List.mem_cons_of_mem _ h2
    · rw [if_neg hm, removeRowsFrom_cons] at hrow
      have hnc : ¬ ((matchRowsFrom t (r0 + 1) p v).map Int.ofNat).contains
          ((r0 : Nat) : Int) = true := by
        intro hcmem
        rw [contains_iff_mem] at hcmem
        obtain ⟨y, hy, hyeq⟩ := List.mem_map.mp hcmem
        have := matchRowsFrom_bounds t p v (r0 + 1) y hy
        simp only [Int.ofNat_eq_natCast] at hyeq
        omega
      rw [if_neg hnc] at hrow
      rcases List.mem_cons.mp hrow with h2 | h2
      · rw [h2]
        cases hmt : (x.getD (p - 1) Cell.blank).matchesText v with
        | false => rfl
        | true => exact absurd hmt hm
      · rw [hcast] at h2
        exact ih (r0 + 1) row h2

theorem appended_row_today (hdr : List Cell) (Lc : Nat) (r' : Rec)
    (dateField today : String) (p : Nat) (hp : 1 ≤ p)
    (hplt : p - 1 < hdr.length) (hle : hdr.length ≤ Lc)
    (hcell : hdr.getD (p - 1) Cell.blank = Cell.str dateField)
    (htoday : isIsoDate today = true) (htne : today ≠ "") :
    ((((padTo hdr Lc).map
        (fun f => recGet (recSet r' dateField (Cell.str today)) f.keyStr)).map
          coerceCell).getD (p - 1) Cell.blank).matchesText today = true := by
  have h1 : p - 1 < (padTo hdr Lc).length := by
    rw [padTo_length _ _ hle]
    omega
  have h2 : p - 1 < ((padTo hdr Lc).map
      (fun f => recGet (recSet r' dateField (Cell.str today)) f.keyStr)).length := by
    rw [List.length_map]
    exact h1
  rw [getD_map_cell _ _ _ h2, getD_map_cell _ _ _ h1,
    getD_padTo_lt hdr Lc _ hplt, hcell]
  show (coerceCell (recGet (recSet r' dateField (Cell.str today))
    dateField)).matchesText today = true
  rw [recGet_recSet_self]
  show (if isIsoDate today = true then Cell.date today
    else Cell.str today).matchesText today = true
  rw [if_pos htoday]
  show (if (today == "") = true then false else today == today) = true
  rw [if_neg (by simp [htne])]
  simp

theorem appendRows_covered (hdr : List Cell) (rest1 : List (List Cell))
    (records : List Rec) (r0 : Rec) (rtl : List Rec)
    (hreq : records = r0 :: rtl)
    (hnb : ¬ (Grid.isBlank ⟨hdr :: rest1⟩) = true)
    (hKiso : ∀ f ∈ getHeaderFromRecords records, isIsoDate f = false)
    (hKcovP : ∀ f ∈ getHeaderFromRecords records,
      (padTo hdr (Grid.lastColumn ⟨hdr :: rest1⟩)).any (fun c => c.eqStr f) = true)
    (hhdnz : 1 ≤ hdr.length) :
    appendRows ⟨hdr :: rest1⟩ records =
      .ok ⟨hdr :: (rest1 ++ records.map (fun record =>
        ((padTo hdr (Grid.lastColumn ⟨hdr :: rest1⟩)).map
          (fun f => recGet record f.keyStr)).map coerceCell))⟩ := by
  subst hreq
  have hhdle1 : hdr.length ≤ Grid.lastColumn ⟨hdr :: rest1⟩ :=
    rows_le_lastColumn _ hdr (List.mem_cons_self _ _)
  have hLpos : 1 ≤ Grid.lastColumn ⟨hdr :: rest1⟩ := le_trans hhdnz hhdle1
  have hupsert : upsertHeader ⟨hdr :: rest1⟩ (getHeaderFromRecords (r0 :: rtl))
      = .ok ⟨hdr :: rest1⟩ := by
    rw [upsertHeader_nonblank hdr rest1 _ hnb hKiso,
      missingCells_nil_of_covered _ _ hKcovP]
    rfl
  have hgh1 : getHeader ⟨hdr :: rest1⟩
      = .ok (padTo hdr (Grid.lastColumn ⟨hdr :: rest1⟩)) :=
    getHeader_head hdr rest1 _ rfl hhdle1 hLpos
  have hw : 1 ≤ ((padTo hdr (Grid.lastColumn ⟨hdr :: rest1⟩)).map
      (fun f => recGet r0 f.keyStr)).length := by
    rw [List.length_map, padTo_length _ _ hhdle1]
    omega
  have hdims : ∀ row ∈ (r0 :: rtl).map (fun record =>
      (padTo hdr (Grid.lastColumn ⟨hdr :: rest1⟩)).map
        (fun f => recGet record f.keyStr)),
      row.length = ((padTo hdr (Grid.lastColumn ⟨hdr :: rest1⟩)).map
        (fun f => recGet r0 f.keyStr)).length := by
    intro row hrow
    obtain ⟨rec, _, hrec⟩ := List.mem_map.mp hrow
    rw [← hrec, List.length_map, List.length_map]
  have hmain := setValuesRect_append ⟨hdr :: rest1⟩
    ((r0 :: rtl).map (fun record =>
      (padTo hdr (Grid.lastColumn ⟨hdr :: rest1⟩)).map
        (fun f => recGet record f.keyStr)))
    (((padTo hdr (Grid.lastColumn ⟨hdr :: rest1⟩)).map
      (fun f => recGet r0 f.keyStr)).length)
    (by simp) hw hdims
  rw [List.map_map] at hmain
  unfold appendRows
  rw [hupsert]
  simp only [Bind.bind, Except.bind]
  rw [hgh1]
  exact hmain

theorem deleteRowsWhere_keep_header (hdr : List Cell) (rest : List (List Cell))
    (dateField today : String) (p : Nat) (hp : 1 ≤ p)
    (hcol : getColumnId ⟨hdr :: rest⟩ dateField = .ok ((p : Int)))
    (h1 : (hdr.getD (p - 1) Cell.blank).matchesText today = false) :
    ∃ tr, deleteRowsWhere ⟨hdr :: rest⟩ dateField today
      = .ok (⟨hdr :: removeRowsFrom rest 2
          ((matchRowsFrom rest 2 p today).map Int.ofNat)⟩, tr) := by
  have hspec := deleteRowsWhere_spec ⟨hdr :: rest⟩ dateField today p hp hcol
  have hmatch : matchRows ⟨hdr :: rest⟩ p today = matchRowsFrom rest 2 p today := by
    show matchRowsFrom (hdr :: rest) 1 p today = matchRowsFrom rest 2 p today
    rw [matchRowsFrom_cons, if_neg (by rw [h1]; exact Bool.false_ne_true)]
  rw [hmatch] at hspec
  have hnc : ¬ (((matchRowsFrom rest 2 p today).map Int.ofNat).contains
      (1 : Int)) = true := by
    intro hc
    rw [contains_iff_mem] at hc
    obtain ⟨x, hxmem, hxeq⟩ := List.mem_map.mp hc
    have := matchRowsFrom_bounds rest p today 2 x hxmem
    simp only [Int.ofNat_eq_natCast] at hxeq
    omega
  have hrm : removeRowsFrom (hdr :: rest) 1
      ((matchRowsFrom rest 2 p today).map Int.ofNat)
      = hdr :: removeRowsFrom rest 2 ((matchRowsFrom rest 2 p today).map Int.ofNat) := by
    rw [removeRowsFrom_cons, if_neg hnc]
    rfl
  refine ⟨(batchConsecutiveIntegers
    ((matchRowsFrom rest 2 p today).map Int.ofNat)).reverse, ?_⟩
  rw [hspec]
  have hgr : (⟨removeRowsFrom (Grid.rows ⟨hdr :: rest⟩) 1
      ((matchRowsFrom rest 2 p today).map Int.ofNat)⟩ : Grid)
      = ⟨hdr :: removeRowsFrom rest 2
          ((matchRowsFrom rest 2 p today).map Int.ofNat)⟩ := by
    rw [show Grid.rows ⟨hdr :: rest⟩ = hdr :: rest from rfl, hrm]
  rw [hgr]

theorem deleteRowsWhere_append_block (hdr : List Cell)
    (A B : List (List Cell)) (dateField today : String) (p : Nat)
    (hp : 1 ≤ p)
    (hcol : getColumnId ⟨hdr :: (A ++ B)⟩ dateField = .ok ((p : Int)))
    (h1 : (hdr.getD (p - 1) Cell.blank).matchesText today = false)
    (hA : ∀ row ∈ A, (row.getD (p - 1) Cell.blank).matchesText today = false)
    (hB : ∀ row ∈ B, (row.getD (p - 1) Cell.blank).matchesText today = true) :
    ∃ tr, deleteRowsWhere ⟨hdr :: (A ++ B)⟩ dateField today
      = .ok (⟨hdr :: A⟩, tr) := by
  have hspec := deleteRowsWhere_spec ⟨hdr :: (A ++ B)⟩ dateField today p hp hcol
  have hmatch : matchRows ⟨hdr :: (A ++ B)⟩ p today
      = (List.range B.length).map (fun t => 2 + A.length + t) := by
    show matchRowsFrom (hdr :: (A ++ B)) 1 p today = _
    rw [matchRowsFrom_cons, if_neg (by rw [h1]; exact Bool.false_ne_true)]
    show matchRowsFrom (A ++ B) 2 p today = _
    rw [matchRowsFrom_append A B p today 2,
      matchRowsFrom_none A p today hA 2,
      matchRowsFrom_all B p today hB (2 + A.length),
      List.nil_append]
  rw [hmatch] at hspec
  have hbnd : ∀ x ∈ ((List.range B.length).map
      (fun t => 2 + A.length + t)).map Int.ofNat,
      (2 : Int) + A.length ≤ x ∧ x < (2 : Int) + A.length + B.length := by
    intro x hx
    obtain ⟨y, hy, hyeq⟩ := List.mem_map.mp hx
    obtain ⟨t, ht, htEq⟩ := List.mem_map.mp hy
    rw [List.mem_range] at ht
    simp only [Int.ofNat_eq_natCast] at hyeq
    omega
  have hnc : ¬ ((((List.range B.length).map (fun t => 2 + A.length + t)).map
      Int.ofNat).contains (1 : Int)) = true := by
    intro hc
    rw [contains_iff_mem] at hc
    have := hbnd _ hc
    omega
  have hdisj := removeRowsFrom_disjoint A
    (((List.range B.length).map (fun t => 2 + A.length + t)).map Int.ofNat) 2
    (by
      intro x hx
      right
      have := hbnd x hx
      omega)
  have hall := removeRowsFrom_all B
    (((List.range B.length).map (fun t => 2 + A.length + t)).map Int.ofNat)
    (2 + (A.length : Int))
    (by
      intro j hj
      rw [List.mem_map]
      refine ⟨2 + A.length + j, List.mem_map_of_mem _ (List.mem_range.mpr hj), ?_⟩
      simp only [Int.ofNat_eq_natCast]
      push_cast
      ring)
  have hrm : removeRowsFrom (hdr :: (A ++ B)) 1
      (((List.range B.length).map (fun t => 2 + A.length + t)).map Int.ofNat)
      = hdr :: A := by
    rw [removeRowsFrom_cons, if_neg hnc]
    show hdr :: removeRowsFrom (A ++ B) 2
      (((List.range B.length).map (fun t => 2 + A.length + t)).map Int.ofNat)
      = hdr :: A
    rw [removeRowsFrom_append A B _ 2, hdisj, hall, List.append_nil]
  refine ⟨(batchConsecutiveIntegers (((List.range B.length).map
    (fun t => 2 + A.length + t)).map Int.ofNat)).reverse, ?_⟩
  rw [hspec]
  have hgr : (⟨removeRowsFrom (Grid.rows ⟨hdr :: (A ++ B)⟩) 1
      (((List.range B.length).map (fun t => 2 + A.length + t)).map Int.ofNat)⟩ : Grid)
      = ⟨hdr :: A⟩ := by
    rw [show Grid.rows ⟨hdr :: (A ++ B)⟩ = hdr :: (A ++ B) from rfl, hrm]
  rw [hgr]

theorem stamped_keys_sub (fields : List String) (dateField today : String)
    (data : List Rec) :
    ∀ f ∈ getHeaderFromRecords
      ((data.map (fun record =>
        fields.foldl (fun nr f2 => recSet nr f2 (recGet record f2)) [])).map
        (fun r => recSet r dateField (Cell.str today))),
      f ∈ fields ∨ f = dateField := by
  intro f hf
  obtain ⟨r, hr, hfr⟩ := mem_getHeaderFromRecords _ f hf
  obtain ⟨r', hr', hrEq⟩ := List.mem_map.mp hr
  obtain ⟨q, hq, hq1⟩ := List.mem_map.mp hfr
  rw [← hrEq] at hq
  rcases keys_recSet r' dateField (Cell.str today) q hq with h2 | h2
  · right
    rw [← hq1, h2]
  · obtain ⟨record, hrec, hrecEq⟩ := List.mem_map.mp hr'
    rw [← hrecEq] at h2
    obtain ⟨q2, hq2, hq21⟩ := List.mem_map.mp h2
    rcases keys_projFold fields record [] q2 hq2 with h3 | h3
    · left
      rw [← hq1, ← hq21]
      exact h3
    · simp at h3

/-- C1 counterexample: on a completely blank (uninitialised) store,
`backupData` with `overwrite_today = true` does not run to completion at
all — the overwrite pass reads the header through
`getRange(1, 1, 1, getLastColumn())` with `getLastColumn() = 0` and the
range API throws — so "running it twice leaves one copy of each record"
fails for this store state. -/
theorem backupData_blank_store_throws :
    backupData (⟨[]⟩ : Grid) ["id"] "Backup Date" "2024-01-05"
      [[("id", Cell.str "z")]] true = .error "getRange: invalid range" := by
  rfl

/-- C1 (amended): on a store whose row 1 contains the retention-date
column (at column `p`) and a header cell for every backed-up field, with
a nonempty record list, `backupData` with `overwrite_today = true` run
twice on the same day with the same input yields exactly the state of
running it once: the second run's deletion removes precisely the block
appended by the first run, and in the final state the rows whose
retention-date cell displays today's date are exactly the one appended
row per input record. -/
theorem backupData_overwrite_idempotent (hdr : List Cell)
    (rest : List (List Cell)) (fields : List String)
    (dateField today : String) (data : List Rec) (p : Nat)
    (hp : 1 ≤ p)
    (hcol : getColumnId ⟨hdr :: rest⟩ dateField = .ok ((p : Int)))
    (hcov : ∀ f ∈ fields, hdr.any (fun c => c.eqStr f) = true)
    (hgood : ∀ f ∈ fields, isIsoDate f = false ∧ f ≠ "")
    (hdfiso : isIsoDate dateField = false)
    (hdfne : dateField ≠ "")
    (htoday : isIsoDate today = true)
    (hne : data ≠ []) :
    ∃ (g1 : Grid) (kept block : List (List Cell)),
      backupData ⟨hdr :: rest⟩ fields dateField today data true = .ok g1 ∧
      backupData g1 fields dateField today data true = .ok g1 ∧
      g1.rows = (hdr :: kept) ++ block ∧
      block.length = data.length ∧
      (∀ row ∈ hdr :: kept,
        (row.getD (p - 1) Cell.blank).matchesText today = false) ∧
      (∀ row ∈ block,
        (row.getD (p - 1) Cell.blank).matchesText today = true) := by
  have htodayne : today ≠ "" := by
    intro h
    rw [h] at htoday
    exact Bool.noConfusion ((rfl : isIsoDate "" = false).symm.trans htoday)
  have hdfnet : dateField ≠ today := by
    intro h
    rw [h, htoday] at hdfiso
    exact Bool.noConfusion hdfiso
  obtain ⟨hdr0, hh, hcase⟩ := getColumnId_ok_shape ⟨hdr :: rest⟩ dateField _ hcol
  obtain ⟨hLc0, -⟩ := getHeader_ok_shape ⟨hdr :: rest⟩ hdr0 hh
  have hhdle0 : hdr.length ≤ Grid.lastColumn ⟨hdr :: rest⟩ :=
    rows_le_lastColumn _ hdr (List.mem_cons_self _ _)
  have hgh0 : getHeader ⟨hdr :: rest⟩
      = .ok (padTo hdr (Grid.lastColumn ⟨hdr :: rest⟩)) :=
    getHeader_head hdr rest _ rfl hhdle0 hLc0
  rw [hgh0] at hh
  injection hh with hh
  rcases hcase with ⟨-, hx⟩ | ⟨i, hfindpad, hx⟩
  · exfalso
    omega
  have hi : i = p - 1 := by omega
  subst hi
  rw [← hh] at hfindpad
  have hfind : hdr.findIdx? (fun c => c.eqStr dateField) = some (p - 1) := by
    unfold padTo at hfindpad
    rw [findIdx?_append_fail (fun c => c.eqStr dateField) hdr _ ?junk 0] at hfindpad
    · exact hfindpad
    case junk =>
      intro c hc
      rw [List.eq_of_mem_replicate hc]
      unfold Cell.blank Cell.eqStr
      rw [beq_eq_false_iff_ne]
      exact fun h2 => hdfne h2.symm
  obtain ⟨hplt, hPp⟩ := findIdx?_some_spec _ hdr _ hfind
  have hcell : hdr.getD (p - 1) Cell.blank = Cell.str dateField := eqStr_eq _ _ hPp
  have hhdnz : 1 ≤ hdr.length := by omega
  have hcolAny : ∀ rest' : List (List Cell),
      getColumnId ⟨hdr :: rest'⟩ dateField = .ok ((p : Int)) := by
    intro rest'
    rw [getColumnId_head_findIdx hdr rest' dateField hdfne (p - 1) hfind hhdnz]
    congr 1
    omega
  have hrow1_nomatch : (hdr.getD (p - 1) Cell.blank).matchesText today = false := by
    rw [hcell]
    show (if (today == "") = true then false else dateField == today) = false
    rw [if_neg (by simp [htodayne])]
    rw [beq_eq_false_iff_ne]
    exact hdfnet
  have hAnyDf : hdr.any (fun c => c.eqStr dateField) = true := by
    rw [List.any_eq_true]
    exact ⟨hdr.getD (p - 1) Cell.blank, getD_mem_of_lt hdr _ hplt,
      by rw [hcell]; simp [Cell.eqStr]⟩
  obtain ⟨dd, dtl, rfl⟩ : ∃ dd dtl, data = dd :: dtl := by
    cases data with
    | nil => exact absurd rfl hne
    | cons a b => exact ⟨a, b, rfl⟩
  obtain ⟨tr1, hdel1⟩ :=
    deleteRowsWhere_keep_header hdr rest dateField today p hp hcol hrow1_nomatch
  have hkeptnm : ∀ row ∈ removeRowsFrom rest 2
      ((matchRowsFrom rest 2 p today).map Int.ofNat),
      (row.getD (p - 1) Cell.blank).matchesText today = false :=
    fun row h => removeRows_match_none p today rest 2 row h
  set kept := removeRowsFrom rest 2
    ((matchRowsFrom rest 2 p today).map Int.ofNat) with hkept
  have hnb1 : ¬ (Grid.isBlank ⟨hdr :: kept⟩) = true :=
    nonblank_of_cell hdr kept dateField hdfne (p - 1) hplt hcell
  have happend := appendRows_covered hdr kept
    (((dd :: dtl).map (fun record =>
      fields.foldl (fun nr f2 => recSet nr f2 (recGet record f2)) [])).map
      (fun r => recSet r dateField (Cell.str today)))
    (recSet (fields.foldl (fun nr f2 => recSet nr f2 (recGet dd f2)) [])
      dateField (Cell.str today))
    ((dtl.map (fun record =>
      fields.foldl (fun nr f2 => recSet nr f2 (recGet record f2)) [])).map
      (fun r => recSet r dateField (Cell.str today)))
    (by simp only [List.map_cons])
    hnb1
    (by
      intro f hf
      rcases stamped_keys_sub fields dateField today (dd :: dtl) f hf with h | h
      · exact (hgood f h).1
      · rw [h]
        exact hdfiso)
    (by
      intro f hf
      have hfne : f ≠ "" := by
        rcases stamped_keys_sub fields dateField today (dd :: dtl) f hf with h | h
        · exact (hgood f h).2
        · rw [h]
          exact hdfne
      rw [any_padTo hdr _ f hfne]
      rcases stamped_keys_sub fields dateField today (dd :: dtl) f hf with h | h
      · exact hcov f h
      · rw [h]
        exact hAnyDf)
    hhdnz
  set block := (((dd :: dtl).map (fun record =>
      fields.foldl (fun nr f2 => recSet nr f2 (recGet record f2)) [])).map
      (fun r => recSet r dateField (Cell.str today))).map (fun record =>
        ((padTo hdr (Grid.lastColumn ⟨hdr :: kept⟩)).map
          (fun f => recGet record f.keyStr)).map coerceCell) with hblock
  have hblockmatch : ∀ row ∈ block,
      (row.getD (p - 1) Cell.blank).matchesText today = true := by
    rw [hblock]
    intro row hrow
    obtain ⟨record, hrec, hrecEq⟩ := List.mem_map.mp hrow
    obtain ⟨r', hr', hr'Eq⟩ := List.mem_map.mp hrec
    rw [← hrecEq, ← hr'Eq]
    exact appended_row_today hdr (Grid.lastColumn ⟨hdr :: kept⟩) r' dateField
      today p hp hplt (rows_le_lastColumn _ hdr (List.mem_cons_self _ _))
      hcell htoday htodayne
  obtain ⟨tr2, hdel2⟩ := deleteRowsWhere_append_block hdr kept block dateField
    today p hp (hcolAny (kept ++ block)) hrow1_nomatch hkeptnm hblockmatch
  have hrun1 : backupData ⟨hdr :: rest⟩ fields dateField today (dd :: dtl) true
      = .ok ⟨hdr :: (kept ++ block)⟩ := by
    unfold backupData
    rw [if_pos rfl, hdel1]
    exact happend
  have hrun2 : backupData ⟨hdr :: (kept ++ block)⟩ fields dateField today
      (dd :: dtl) true = .ok ⟨hdr :: (kept ++ block)⟩ := by
    unfold backupData
    rw [if_pos rfl, hdel2]
    exact happend
  refine ⟨⟨hdr :: (kept ++ block)⟩, kept, block, hrun1, hrun2, rfl, ?_, ?_,
    hblockmatch⟩
  · rw [hblock]
    simp only [List.length_map]
  · intro row hrow
    rcases List.mem_cons.mp hrow with h | h
    · rw [h]
      exact hrow1_nomatch
    · exact hkeptnm row h

/-- Witness for the C1 theorem at a concrete store: header
`[id, Backup Date]`, no data rows, backing up one record twice on
2024-01-05. -/
theorem backupData_overwrite_idempotent_witness :
    ∃ (g1 : Grid) (kept block : List (List Cell)),
      backupData ⟨[[Cell.str "id", Cell.str "Backup Date"]]⟩ ["id"]
        "Backup Date" "2024-01-05" [[("id", Cell.str "z")]] true = .ok g1 ∧
      backupData g1 ["id"] "Backup Date" "2024-01-05"
        [[("id", Cell.str "z")]] true = .ok g1 ∧
      g1.rows = ([Cell.str "id", Cell.str "Backup Date"] :: kept) ++ block ∧
      block.length = ([[("id", Cell.str "z")]] : List Rec).length ∧
      (∀ row ∈ [Cell.str "id", Cell.str "Backup Date"] :: kept,
        (row.getD (2 - 1) Cell.blank).matchesText "2024-01-05" = false) ∧
      (∀ row ∈ block,
        (row.getD (2 - 1) Cell.blank).matchesText "2024-01-05" = true) :=
  backupData_overwrite_idempotent [Cell.str "id", Cell.str "Backup Date"] []
    ["id"] "Backup Date" "2024-01-05" [[("id", Cell.str "z")]] 2
    (by decide) (by rfl) (by decide) (by decide) (by decide) (by decide)
    (by decide) (by decide)

/-- C7 counterexample: when the computed field name aliases the grouping
key column (`computed_field_name = "id"`), the write into the metric
column overwrites the key cells themselves, so re-running for the same
date with unchanged history changes the output (count 2 becomes 1). -/
theorem addComputedCountsField_rerun_differs :
    addComputedCountsField
        ⟨[[Cell.str "id", Cell.str "Stage", Cell.str "Backup Date"],
          [Cell.str "x", Cell.str "S", Cell.str "d1"],
          [Cell.str "x", Cell.str "S", Cell.str "d2"]]⟩
        "Backup Date" "id" "Stage" ["S"] "d1"
      = .ok ⟨[[Cell.str "id", Cell.str "Stage", Cell.str "Backup Date"],
          [Cell.num 2, Cell.str "S", Cell.str "d1"],
          [Cell.str "x", Cell.str "S", Cell.str "d2"]]⟩ ∧
    addComputedCountsField
        ⟨[[Cell.str "id", Cell.str "Stage", Cell.str "Backup Date"],
          [Cell.num 2, Cell.str "S", Cell.str "d1"],
          [Cell.str "x", Cell.str "S", Cell.str "d2"]]⟩
        "Backup Date" "id" "Stage" ["S"] "d1"
      = .ok ⟨[[Cell.str "id", Cell.str "Stage", Cell.str "Backup Date"],
          [Cell.num 1, Cell.str "S", Cell.str "d1"],
          [Cell.str "x", Cell.str "S", Cell.str "d2"]]⟩ ∧
    (⟨[[Cell.str "id", Cell.str "Stage", Cell.str "Backup Date"],
        [Cell.num 2, Cell.str "S", Cell.str "d1"],
        [Cell.str "x", Cell.str "S", Cell.str "d2"]]⟩ : Grid)
      ≠ ⟨[[Cell.str "id", Cell.str "Stage", Cell.str "Backup Date"],
          [Cell.num 1, Cell.str "S", Cell.str "d1"],
          [Cell.str "x", Cell.str "S", Cell.str "d2"]]⟩ := by
  refine ⟨by rfl, by rfl, by decide⟩

/-! ### Helpers for `addComputedCountsField` (C7) -/

theorem getD_padTo_any (l : List Cell) (n j : Nat) :
    (padTo l n).getD j Cell.blank = l.getD j Cell.blank := by
  unfold padTo
  by_cases hj : j < l.length
  · rw [List.getD_eq_getElem?_getD, List.getD_eq_getElem?_getD,
      List.getElem?_append_left hj]
  · rw [List.getD_eq_getElem?_getD, List.getD_eq_getElem?_getD,
      List.getElem?_append_right (by omega)]
    rw [List.getElem?_replicate]
    rw [List.getElem?_eq_none (by omega)]
    by_cases h2 : j - l.length < n - l.length
    · rw [if_pos h2]
      rfl
    · rw [if_neg h2]

theorem getD_take_lt (l : List Cell) (n j : Nat) (hj : j < n) :
    (l.take n).getD j Cell.blank = l.getD j Cell.blank := by
  rw [List.getD_eq_getElem?_getD, List.getD_eq_getElem?_getD,
    List.getElem?_take_of_lt hj]

theorem getD_drop_add (l : List Cell) (n j : Nat) :
    (l.drop n).getD j Cell.blank = l.getD (n + j) Cell.blank := by
  rw [List.getD_eq_getElem?_getD, List.getD_eq_getElem?_getD,
    List.getElem?_drop]

theorem padTo_take_length (row : List Cell) (m : Nat) :
    (padTo (row.take (m - 1)) (m - 1)).length = m - 1 := by
  unfold padTo
  simp only [List.length_append, List.length_take, List.length_replicate]
  omega

theorem writeRow_one_getD_ne (row : List Cell) (m : Nat) (v : Cell) (j : Nat)
    (hm : 1 ≤ m) (hj : j ≠ m - 1) :
    (Grid.writeRow row m [v]).getD j Cell.blank = row.getD j Cell.blank := by
  unfold Grid.writeRow
  by_cases hlt : j < m - 1
  · rw [List.getD_eq_getElem?_getD, List.getElem?_append_left (by
      rw [List.length_append, padTo_take_length]
      simp only [List.length_map, List.length_cons, List.length_nil]
      omega)]
    rw [List.getElem?_append_left (by rw [padTo_take_length]; omega)]
    rw [← List.getD_eq_getElem?_getD, getD_padTo_any, getD_take_lt _ _ _ hlt]
  · have hge : m ≤ j := by omega
    rw [List.getD_eq_getElem?_getD, List.getElem?_append_right (by
      rw [List.length_append, padTo_take_length]
      simp only [List.length_map, List.length_cons, List.length_nil]
      omega)]
    rw [List.length_append, padTo_take_length]
    simp only [List.length_map, List.length_cons, List.length_nil]
    rw [← List.getD_eq_getElem?_getD, getD_drop_add]
    congr 1
    omega

theorem writeRow_one_getD_eq (row : List Cell) (m : Nat) (v : Cell)
    (hm : 1 ≤ m) :
    (Grid.writeRow row m [v]).getD (m - 1) Cell.blank = coerceCell v := by
  unfold Grid.writeRow
  rw [List.getD_eq_getElem?_getD, List.getElem?_append_left (by
    rw [List.length_append, padTo_take_length]
    simp only [List.length_map, List.length_cons, List.length_nil]
    omega)]
  rw [List.getElem?_append_right (by rw [padTo_take_length])]
  rw [padTo_take_length]
  simp only [Nat.sub_self, List.map_cons, List.map_nil]
  rfl

theorem writeRow_one_length (row : List Cell) (m : Nat) (v : Cell)
    (hm : 1 ≤ m) :
    (Grid.writeRow row m [v]).length = max row.length m := by
  unfold Grid.writeRow
  simp only [List.length_append, padTo_take_length, List.length_map,
    List.length_cons, List.length_nil, List.length_drop]
  omega

theorem writeRow_of_decomp (P S : List Cell) (m : Nat) (v : Cell)
    (hP : P.length = m - 1) (hm : 1 ≤ m) :
    Grid.writeRow (P ++ [coerceCell v] ++ S) m [v] =
      P ++ [coerceCell v] ++ S := by
  unfold Grid.writeRow
  have hTake : (P ++ [coerceCell v] ++ S).take (m - 1) = P := by
    rw [List.append_assoc]
    exact List.take_left' hP
  rw [hTake, padTo_of_length_le _ _ (by omega)]
  have hDrop : (P ++ [coerceCell v] ++ S).drop (m - 1 + ([v] : List Cell).length) = S := by
    refine List.drop_left' ?_
    simp only [List.length_append, List.length_cons, List.length_nil, hP]
  rw [hDrop]
  rfl

theorem writeRow_one_idem (row : List Cell) (m : Nat) (v : Cell)
    (hm : 1 ≤ m) :
    Grid.writeRow (Grid.writeRow row m [v]) m [v] = Grid.writeRow row m [v] := by
  have h1 : Grid.writeRow row m [v] =
      padTo (row.take (m - 1)) (m - 1) ++ [coerceCell v] ++
        row.drop (m - 1 + 1) := by
    unfold Grid.writeRow
    rfl
  rw [h1]
  exact writeRow_of_decomp _ _ m v (padTo_take_length row m) hm

theorem writeCells_cons (row : List Cell) (t : List (List Cell)) (i0 : Int)
    (m : Nat) (f : Int → Cell) (rs : List Int) :
    writeCells (row :: t) i0 m f rs =
      (if rs.contains i0 = true then Grid.writeRow row m [f i0] else row) ::
        writeCells t (i0 + 1) m f rs := rfl

theorem writeCells_length (m : Nat) (f : Int → Cell) (rs : List Int) :
    ∀ (L : List (List Cell)) (i0 : Int),
      (writeCells L i0 m f rs).length = L.length := by
  intro L
  induction L with
  | nil => intro i0; rfl
  | cons row t ih =>
    intro i0
    rw [writeCells_cons]
    simp only [List.length_cons, ih (i0 + 1)]

theorem writeCells_nil_rs (m : Nat) (f : Int → Cell) :
    ∀ (L : List (List Cell)) (i0 : Int), writeCells L i0 m f [] = L := by
  intro L
  induction L with
  | nil => intro i0; rfl
  | cons row t ih =>
    intro i0
    rw [writeCells_cons, ih (i0 + 1)]
    rfl

theorem writeCells_getD (m : Nat) (f : Int → Cell) (rs : List Int) :
    ∀ (L : List (List Cell)) (i0 : Int) (j : Nat), j < L.length →
      (writeCells L i0 m f rs).getD j [] =
        if rs.contains (i0 + (j : Int)) = true then
          Grid.writeRow (L.getD j []) m [f (i0 + (j : Int))]
        else L.getD j [] := by
  intro L
  induction L with
  | nil =>
    intro i0 j hj
    simp at hj
  | cons row t ih =>
    intro i0 j hj
    rw [writeCells_cons]
    cases j with
    | zero =>
      simp only [List.getD_cons_zero, Nat.cast_zero, add_zero]
    | succ j' =>
      rw [List.getD_cons_succ, List.getD_cons_succ,
        ih (i0 + 1) j' (by simp only [List.length_cons] at hj; omega)]
      rw [show i0 + 1 + (j' : Int) = i0 + ((j' + 1 : Nat) : Int) from by
        push_cast
        ring]

theorem writeCells_append (m : Nat) (f : Int → Cell) (rs : List Int)
    (A C : List (List Cell)) :
    ∀ i0, writeCells (A ++ C) i0 m f rs =
      writeCells A i0 m f rs ++ writeCells C (i0 + A.length) m f rs := by
  induction A with
  | nil =>
    intro i0
    simp [writeCells]
  | cons row t ih =>
    intro i0
    rw [List.cons_append, writeCells_cons, writeCells_cons, ih (i0 + 1)]
    have harith : i0 + 1 + (t.length : Int) = i0 + ((row :: t).length : Int) := by
      simp only [List.length_cons]
      push_cast
      ring
    rw [harith, List.cons_append]

theorem writeCells_disjoint (m : Nat) (f : Int → Cell) (rs : List Int) :
    ∀ (A : List (List Cell)) (i0 : Int),
      (∀ x ∈ rs, x < i0 ∨ i0 + (A.length : Int) ≤ x) →
      writeCells A i0 m f rs = A := by
  intro A
  induction A with
  | nil => intro i0 _; rfl
  | cons row t ih =>
    intro i0 hdis
    rw [writeCells_cons]
    have hni : ¬ rs.contains i0 = true := by
      intro hc
      rcases hdis i0 ((contains_iff_mem rs i0).mp hc) with h | h
      · omega
      · simp only [List.length_cons] at h
        push_cast at h
        omega
    rw [if_neg hni, ih (i0 + 1) (by
      intro y hy
      rcases hdis y hy with h | h
      · left
        omega
      · right
        simp only [List.length_cons] at h
        push_cast at h ⊢
        omega)]

theorem writeCells_f_congr (m : Nat) (f f' : Int → Cell) (rs : List Int) :
    ∀ (L : List (List Cell)) (i0 : Int),
      (∀ x ∈ rs, f x = f' x) →
      writeCells L i0 m f rs = writeCells L i0 m f' rs := by
  intro L
  induction L with
  | nil => intro i0 _; rfl
  | cons row t ih =>
    intro i0 hf
    rw [writeCells_cons, writeCells_cons, ih (i0 + 1) hf]
    by_cases hc : rs.contains i0 = true
    · rw [if_pos hc, if_pos hc, hf i0 ((contains_iff_mem rs i0).mp hc)]
    · rw [if_neg hc, if_neg hc]

theorem writeCells_compose (m : Nat) (f : Int → Cell) (rs1 rs2 : List Int)
    (hdisj : ∀ x ∈ rs2, x ∉ rs1) :
    ∀ (L : List (List Cell)) (i0 : Int),
      writeCells (writeCells L i0 m f rs1) i0 m f rs2 =
        writeCells L i0 m f (rs1 ++ rs2) := by
  intro L
  induction L with
  | nil => intro i0; rfl
  | cons row t ih =>
    intro i0
    rw [writeCells_cons, writeCells_cons, writeCells_cons, ih (i0 + 1)]
    congr 1
    cases hc2 : rs2.contains i0 with
    | true =>
      have hc1 : rs1.contains i0 = false := by
        cases hcc : rs1.contains i0 with
        | false => rfl
        | true =>
          exact absurd ((contains_iff_mem rs1 i0).mp hcc)
            (hdisj i0 ((contains_iff_mem rs2 i0).mp hc2))
      have hc12 : (rs1 ++ rs2).contains i0 = true := by
        rw [contains_iff_mem]
        exact List.mem_append_right _ ((contains_iff_mem rs2 i0).mp hc2)
      rw [if_pos rfl, if_neg (by rw [hc1]; exact Bool.false_ne_true),
        if_pos hc12]
    | false =>
      rw [if_neg Bool.false_ne_true]
      cases hc1 : rs1.contains i0 with
      | true =>
        have hc12 : (rs1 ++ rs2).contains i0 = true := by
          rw [contains_iff_mem]
          exact List.mem_append_left _ ((contains_iff_mem rs1 i0).mp hc1)
        rw [if_pos rfl, if_pos hc12]
      | false =>
        have hc12 : (rs1 ++ rs2).contains i0 = false := by
          cases hcc : (rs1 ++ rs2).contains i0 with
          | false => rfl
          | true =>
            rcases List.mem_append.mp ((contains_iff_mem _ i0).mp hcc) with h | h
            · rw [(contains_iff_mem rs1 i0).mpr h] at hc1
              exact Bool.noConfusion hc1
            · rw [(contains_iff_mem rs2 i0).mpr h] at hc2
              exact Bool.noConfusion hc2
        rw [if_neg Bool.false_ne_true,
          if_neg (by rw [hc12]; exact Bool.false_ne_true)]

theorem writeCells_idem (m : Nat) (f : Int → Cell) (rs : List Int)
    (hm : 1 ≤ m) :
    ∀ (L : List (List Cell)) (i0 : Int),
      writeCells (writeCells L i0 m f rs) i0 m f rs =
        writeCells L i0 m f rs := by
  intro L
  induction L with
  | nil => intro i0; rfl
  | cons row t ih =>
    intro i0
    rw [writeCells_cons, writeCells_cons, ih (i0 + 1)]
    by_cases hc : rs.contains i0 = true
    · rw [if_pos hc, if_pos hc, writeRow_one_idem row m (f i0) hm]
    · rw [if_neg hc, if_neg hc]

theorem writeCells_all_zip (m : Nat) (f : Int → Cell) (rs : List Int) :
    ∀ (D : List (List Cell)) (i0 : Int),
      (∀ j : Nat, j < D.length → (i0 + (j : Int)) ∈ rs) →
      writeCells D i0 m f rs =
        List.zipWith (fun row vals => Grid.writeRow row m vals) D
          ((List.range D.length).map (fun j : Nat => [f (i0 + (j : Int))])) := by
  intro D
  induction D with
  | nil => intro i0 _; rfl
  | cons row t ih =>
    intro i0 hall
    have h0 : rs.contains i0 = true := by
      rw [contains_iff_mem]
      have := hall 0 (by simp)
      simpa using this
    rw [writeCells_cons, if_pos h0]
    rw [List.length_cons, List.range_succ_eq_map, List.map_cons, List.map_map,
      List.zipWith_cons_cons]
    congr 1
    · rw [show i0 + ((0 : Nat) : Int) = i0 from by simp]
    · rw [ih (i0 + 1) (fun j hj => by
        have h2 := hall (j + 1) (by simp only [List.length_cons]; omega)
        rw [show i0 + 1 + (j : Int) = i0 + ((j + 1 : Nat) : Int) from by
          push_cast
          ring]
        exact h2)]
      congr 1
      apply List.map_congr_left
      intro j _
      show [f (i0 + 1 + (j : Int))] = [f (i0 + ((Nat.succ j : Nat) : Int))]
      congr 1
      push_cast
      ring

theorem getValueAt_ok (g : Grid) (r c : Int) (hr : 1 ≤ r) (hc : 1 ≤ c) :
    g.getValueAt r c = .ok (g.cell r.toNat c.toNat) := by
  unfold Grid.getValueAt
  rw [if_neg (by
    simp only [Bool.or_eq_true, decide_eq_true_eq]
    push_neg
    omega)]

theorem lookup_fold_spec (g : Grid) (k : Nat) (counts : List (String × Int))
    (hk : 1 ≤ k) :
    ∀ (L : List Nat) (s : Int) (acc : List (List Cell)), 1 ≤ s →
      (L.foldlM
        (fun (acc : List (List Cell)) (i : Nat) => do
          let key ← g.getValueAt (s + (i : Int)) ((k : Nat) : Int)
          let v : Cell :=
            match counts.find? (fun p => p.1 == key.keyStr) with
            | some p => Cell.num p.2
            | none => Cell.num 0
          pure (acc ++ [[v]]))
        acc : Except String (List (List Cell)))
      = .ok (acc ++ L.map (fun i : Nat =>
          [lookupCell counts (g.cell (s + (i : Int)).toNat k)])) := by
  intro L
  induction L with
  | nil =>
    intro s acc hs
    rw [List.foldlM_nil, List.map_nil, List.append_nil]
    rfl
  | cons i t ih =>
    intro s acc hs
    simp only [List.foldlM_cons]
    rw [getValueAt_ok g (s + (i : Int)) ((k : Nat) : Int) (by omega) (by omega)]
    simp only [Bind.bind, Except.bind]
    have hkN : (((k : Nat) : Int)).toNat = k := by omega
    rw [hkN]
    have h2 := ih s
      (acc ++ [[lookupCell counts (g.cell (s + (i : Int)).toNat k)]]) hs
    rw [List.append_assoc, List.singleton_append] at h2
    exact h2

theorem lookupValues_spec (g : Grid) (s : Int) (l : Nat) (k : Nat)
    (counts : List (String × Int)) (hs : 1 ≤ s) (hk : 1 ≤ k) :
    lookupValues g s l ((k : Nat) : Int) counts =
      .ok ((List.range l).map (fun j : Nat =>
        [lookupCell counts (g.cell (s + (j : Int)).toNat k)])) := by
  unfold lookupValues
  have h := lookup_fold_spec g k counts hk (List.range l) s [] hs
  rw [List.nil_append] at h
  exact h

theorem cell_writeCells_notmem (m : Nat) (f : Int → Cell) (rs : List Int)
    (R : List (List Cell)) (r c : Nat)
    (hmem : ¬ rs.contains (1 + ((r - 1 : Nat) : Int)) = true) :
    Grid.cell ⟨writeCells R 1 m f rs⟩ r c = Grid.cell ⟨R⟩ r c := by
  unfold Grid.cell
  show ((writeCells R 1 m f rs).getD (r - 1) []).getD (c - 1) Cell.blank =
    (R.getD (r - 1) []).getD (c - 1) Cell.blank
  by_cases hr : r - 1 < R.length
  · rw [writeCells_getD m f rs R 1 (r - 1) hr, if_neg hmem]
  · have h1 : (writeCells R 1 m f rs).getD (r - 1) [] = [] := by
      rw [List.getD_eq_getElem?_getD,
        List.getElem?_eq_none (by rw [writeCells_length]; omega)]
      rfl
    have h2 : R.getD (r - 1) [] = ([] : List Cell) := by
      rw [List.getD_eq_getElem?_getD, List.getElem?_eq_none (by omega)]
      rfl
    rw [h1, h2]

theorem cell_writeCells_ne (m : Nat) (f : Int → Cell) (rs : List Int)
    (hm : 1 ≤ m) (R : List (List Cell)) (r c : Nat) (hc : 1 ≤ c)
    (hcm : c ≠ m) :
    Grid.cell ⟨writeCells R 1 m f rs⟩ r c = Grid.cell ⟨R⟩ r c := by
  by_cases hmem : rs.contains (1 + ((r - 1 : Nat) : Int)) = true
  · unfold Grid.cell
    show ((writeCells R 1 m f rs).getD (r - 1) []).getD (c - 1) Cell.blank =
      (R.getD (r - 1) []).getD (c - 1) Cell.blank
    by_cases hr : r - 1 < R.length
    · rw [writeCells_getD m f rs R 1 (r - 1) hr, if_pos hmem]
      exact writeRow_one_getD_ne _ m _ (c - 1) hm (by omega)
    · have h1 : (writeCells R 1 m f rs).getD (r - 1) [] = [] := by
        rw [List.getD_eq_getElem?_getD,
          List.getElem?_eq_none (by rw [writeCells_length]; omega)]
        rfl
      have h2 : R.getD (r - 1) [] = ([] : List Cell) := by
        rw [List.getD_eq_getElem?_getD, List.getElem?_eq_none (by omega)]
        rfl
      rw [h1, h2]
  · exact cell_writeCells_notmem m f rs R r c hmem

theorem cell_writeCells_written (m : Nat) (f : Int → Cell) (rs : List Int)
    (hm : 1 ≤ m) (R : List (List Cell)) (r : Nat)
    (hr : r - 1 < R.length)
    (hmem : rs.contains (1 + ((r - 1 : Nat) : Int)) = true) :
    Grid.cell ⟨writeCells R 1 m f rs⟩ r m =
      coerceCell (f (1 + ((r - 1 : Nat) : Int))) := by
  unfold Grid.cell
  show ((writeCells R 1 m f rs).getD (r - 1) []).getD (m - 1) Cell.blank = _
  rw [writeCells_getD m f rs R 1 (r - 1) hr, if_pos hmem]
  exact writeRow_one_getD_eq _ m _ hm

theorem setValuesRect_column (R : List (List Cell)) (s : Int) (m l : Nat)
    (f : Int → Cell) (hs : 1 ≤ s) (hm : 1 ≤ m) (hl : 1 ≤ l)
    (hub : s.toNat - 1 + l ≤ R.length) :
    Grid.setValuesRect ⟨R⟩ s ((m : Nat) : Int) ((l : Nat) : Int) 1
      ((List.range l).map (fun j : Nat => [f (s + (j : Int))]))
    = .ok ⟨writeCells R 1 m f (expandBatch (s, l))⟩ := by
  unfold Grid.setValuesRect
  have hc1 : (decide (s < 1) || decide (((m : Nat) : Int) < 1) ||
      decide (((l : Nat) : Int) < 1) || decide ((1 : Int) < 1)) = false := by
    simp only [Bool.or_eq_false_iff, decide_eq_false_iff_not, not_lt]
    refine ⟨⟨⟨by omega, by omega⟩, by omega⟩, by omega⟩
  rw [hc1]
  simp only [Bool.false_eq_true, if_false]
  have hc2 : (decide (((List.range l).map (fun j : Nat => [f (s + (j : Int))])).length
      ≠ (((l : Nat) : Int)).toNat) ||
      ((List.range l).map (fun j : Nat => [f (s + (j : Int))])).any
        (fun row => decide (row.length ≠ ((1 : Int)).toNat))) = false := by
    simp only [Bool.or_eq_false_iff, decide_eq_false_iff_not, ne_eq, not_not]
    constructor
    · simp only [List.length_map, List.length_range]
      omega
    · rw [List.any_eq_false]
      intro row hrow
      obtain ⟨j, _, rfl⟩ := List.mem_map.mp hrow
      simp
  rw [hc2]
  simp only [Bool.false_eq_true, if_false]
  have hext : s.toNat - 1 + (((l : Nat) : Int)).toNat - R.length = 0 := by
    omega
  rw [hext]
  simp only [List.replicate_zero, List.append_nil]
  have hlN : (((l : Nat) : Int)).toNat = l := by omega
  have hmN : (((m : Nat) : Int)).toNat = m := by omega
  rw [hlN, hmN]
  have hAlen : (R.take (s.toNat - 1)).length = s.toNat - 1 := by
    rw [List.length_take]
    omega
  have hDlen : ((R.drop (s.toNat - 1)).take l).length = l := by
    rw [List.length_take, List.length_drop]
    omega
  have hdecomp : R = R.take (s.toNat - 1) ++
      ((R.drop (s.toNat - 1)).take l ++ R.drop (s.toNat - 1 + l)) := by
    rw [show R.drop (s.toNat - 1 + l) = (R.drop (s.toNat - 1)).drop l from by
      rw [List.drop_drop]]
    rw [List.take_append_drop, List.take_append_drop]
  have hEbnd : ∀ x ∈ expandBatch (s, l), s ≤ x ∧ x < s + (l : Int) := by
    intro x hx
    obtain ⟨t, ht, rfl⟩ := (mem_expandBatch s l x).mp hx
    omega
  have hidxA : (1 : Int) + ((R.take (s.toNat - 1)).length : Int) = s := by
    rw [hAlen]
    omega
  have hRHS : writeCells R 1 m f (expandBatch (s, l)) =
      R.take (s.toNat - 1) ++
        (List.zipWith (fun row vals => Grid.writeRow row m vals)
          ((R.drop (s.toNat - 1)).take l)
          ((List.range l).map (fun j : Nat => [f (s + (j : Int))])) ++
        R.drop (s.toNat - 1 + l)) := by
    conv_lhs => rw [hdecomp]
    rw [writeCells_append, writeCells_append]
    rw [writeCells_disjoint m f _ (R.take (s.toNat - 1)) 1 (fun x hx => Or.inr (by
      have := hEbnd x hx
      rw [hAlen]
      omega))]
    rw [hidxA]
    rw [writeCells_all_zip m f _ ((R.drop (s.toNat - 1)).take l) s
      (fun j hj => by
        rw [hDlen] at hj
        exact (mem_expandBatch s l _).mpr ⟨j, hj, rfl⟩)]
    rw [hDlen]
    rw [writeCells_disjoint m f _ (R.drop (s.toNat - 1 + l))
      (s + ((l : Nat) : Int)) (fun x hx => Or.inl (by
        have := hEbnd x hx
        omega))]
  rw [hRHS, ← List.append_assoc]

theorem computeBatches_fold (m k : Nat) (counts : List (String × Int))
    (hm : 1 ≤ m) (hk : 1 ≤ k) (hkm : k ≠ m) :
    ∀ (B : List (Int × Nat)) (R : List (List Cell)),
      (∀ q ∈ B, 0 < q.2) →
      List.Pairwise (· < ·) (B.flatMap expandBatch) →
      (∀ x ∈ B.flatMap expandBatch, 1 ≤ x ∧ x ≤ (R.length : Int)) →
      B.foldlM
        (fun (g : Grid) b => do
          let vals ← lookupValues g b.1 b.2 ((k : Nat) : Int) counts
          g.setValuesRect b.1 ((m : Nat) : Int) ((b.2 : Nat) : Int) 1 vals)
        ⟨R⟩
      = .ok ⟨writeCells R 1 m
          (fun i => lookupCell counts (Grid.cell ⟨R⟩ i.toNat k))
          (B.flatMap expandBatch)⟩ := by
  intro B
  induction B with
  | nil =>
    intro R _ _ _
    rw [List.foldlM_nil]
    rw [show (([] : List (Int × Nat)).flatMap expandBatch) = [] from rfl,
      writeCells_nil_rs]
    rfl
  | cons b B' ih =>
    intro R hpos hpw hbnd
    obtain ⟨s, l⟩ := b
    have hfm : (((s, l) :: B').flatMap expandBatch) =
        expandBatch (s, l) ++ B'.flatMap expandBatch := List.flatMap_cons _ _ _
    have hl : 1 ≤ l := hpos (s, l) (List.mem_cons_self _ _)
    have hsrun : s ∈ expandBatch (s, l) :=
      (mem_expandBatch s l s).mpr ⟨0, by omega, by simp⟩
    have hlast : s + ((l - 1 : Nat) : Int) ∈ expandBatch (s, l) :=
      (mem_expandBatch s l _).mpr ⟨l - 1, by omega, rfl⟩
    have hs1 : 1 ≤ s := by
      have := hbnd s (by rw [hfm]; exact List.mem_append_left _ hsrun)
      exact this.1
    have hub : s + ((l - 1 : Nat) : Int) ≤ (R.length : Int) := by
      have := hbnd _ (by rw [hfm]; exact List.mem_append_left _ hlast)
      exact this.2
    have hubN : s.toNat - 1 + l ≤ R.length := by omega
    have hE' : ∀ y ∈ B'.flatMap expandBatch, s + ((l - 1 : Nat) : Int) < y := by
      intro y hy
      rw [hfm] at hpw
      exact (List.pairwise_append.mp hpw).2.2 _ hlast y hy
    have hpos' : ∀ q ∈ B', 0 < q.2 :=
      fun q hq => hpos q (List.mem_cons_of_mem _ hq)
    have hpw' : List.Pairwise (· < ·) (B'.flatMap expandBatch) := by
      rw [hfm] at hpw
      exact (List.pairwise_append.mp hpw).2.1
    have hbnd1 : ∀ x ∈ B'.flatMap expandBatch, 1 ≤ x ∧
        x ≤ ((writeCells R 1 m
          (fun i => lookupCell counts (Grid.cell ⟨R⟩ i.toNat k))
          (expandBatch (s, l))).length : Int) := by
      intro x hx
      rw [writeCells_length]
      exact hbnd x (by rw [hfm]; exact List.mem_append_right _ hx)
    have hset : Grid.setValuesRect ⟨R⟩ s ((m : Nat) : Int) ((l : Nat) : Int) 1
        ((List.range l).map (fun j : Nat =>
          [lookupCell counts (Grid.cell ⟨R⟩ (s + (j : Int)).toNat k)]))
        = .ok ⟨writeCells R 1 m
            (fun i => lookupCell counts (Grid.cell ⟨R⟩ i.toNat k))
            (expandBatch (s, l))⟩ :=
      setValuesRect_column R s m l
        (fun i => lookupCell counts (Grid.cell ⟨R⟩ i.toNat k)) hs1 hm hl hubN
    rw [List.foldlM_cons]
    simp only [Bind.bind, Except.bind,
      lookupValues_spec ⟨R⟩ s l k counts hs1 hk, hset]
    have ih2 := ih (writeCells R 1 m
        (fun i => lookupCell counts (Grid.cell ⟨R⟩ i.toNat k))
        (expandBatch (s, l))) hpos' hpw' hbnd1
    simp only [Bind.bind, Except.bind] at ih2
    rw [ih2]
    have hdisj2 : ∀ x ∈ B'.flatMap expandBatch, x ∉ expandBatch (s, l) := by
      intro x hx hmem
      obtain ⟨t, ht, rfl⟩ := (mem_expandBatch s l _).mp hmem
      have := hE' _ hx
      omega
    have hptwise : ∀ x ∈ B'.flatMap expandBatch,
        (fun i => lookupCell counts (Grid.cell ⟨writeCells R 1 m
          (fun i => lookupCell counts (Grid.cell ⟨R⟩ i.toNat k))
          (expandBatch (s, l))⟩ i.toNat k)) x
        = (fun i => lookupCell counts (Grid.cell ⟨R⟩ i.toNat k)) x := by
      intro x _
      show lookupCell counts _ = lookupCell counts _
      congr 1
      exact cell_writeCells_ne m _ _ hm R x.toNat k hk hkm
    have hfinal : writeCells (writeCells R 1 m
        (fun i => lookupCell counts (Grid.cell ⟨R⟩ i.toNat k))
        (expandBatch (s, l))) 1 m
        (fun i => lookupCell counts (Grid.cell ⟨writeCells R 1 m
          (fun i => lookupCell counts (Grid.cell ⟨R⟩ i.toNat k))
          (expandBatch (s, l))⟩ i.toNat k))
        (B'.flatMap expandBatch)
        = writeCells R 1 m
          (fun i => lookupCell counts (Grid.cell ⟨R⟩ i.toNat k))
          (expandBatch (s, l) ++ B'.flatMap expandBatch) := by
      rw [writeCells_f_congr m _ _ (B'.flatMap expandBatch) _ 1 hptwise]
      exact writeCells_compose m _ _ _ hdisj2 R 1
    rw [hfm]
    exact congrArg (fun L => (Except.ok (⟨L⟩ : Grid) : Except String Grid))
      hfinal

theorem recGetOpt_recSet_self (r : Rec) (key : String) (v : Cell) :
    recGetOpt (recSet r key v) key = some v := by
  unfold recGetOpt recSet
  by_cases h : r.any (fun p => p.1 == key) = true
  · rw [if_pos h, find?_map_set r key v h]
    rfl
  · rw [if_neg h]
    have hnone : r.find? (fun p => p.1 == key) = none := by
      rw [List.find?_eq_none]
      intro q hq hcon
      apply h
      rw [List.any_eq_true]
      exact ⟨q, hq, hcon⟩
    rw [find?_append_none _ r _ hnone, List.find?_cons_of_pos _ (by simp)]
    rfl

theorem find?_map_set_ne (t : Rec) (key key' : String) (v : Cell)
    (hne : key' ≠ key) :
    (t.map (fun p => if p.1 == key then (key, v) else p)).find?
      (fun p => p.1 == key') = t.find? (fun p => p.1 == key') := by
  induction t with
  | nil => rfl
  | cons x q ih =>
    rw [List.map_cons, List.find?_cons, List.find?_cons]
    by_cases hx : (x.1 == key) = true
    · rw [if_pos hx]
      rw [beq_iff_eq] at hx
      have h1 : (((key, v) : String × Cell).1 == key') = false := by
        simp only [beq_eq_false_iff_ne]
        exact fun hc => hne hc.symm
      have h2 : (x.1 == key') = false := by
        rw [hx]
        simp only [beq_eq_false_iff_ne]
        exact fun hc => hne hc.symm
      rw [h1, h2]
      exact ih
    · rw [if_neg hx]
      cases hx2 : (x.1 == key') with
      | true => rfl
      | false => exact ih

theorem find?_append_last_false (P : String × Cell → Bool) (l : Rec)
    (q : String × Cell) (hq : P q = false) :
    (l ++ [q]).find? P = l.find? P := by
  induction l with
  | nil =>
    rw [List.nil_append, List.find?_cons, hq]
  | cons x t ih =>
    rw [List.cons_append, List.find?_cons, List.find?_cons]
    cases hx : P x with
    | true => rfl
    | false => exact ih

theorem recGetOpt_recSet_ne (r : Rec) (key key' : String) (v : Cell)
    (hne : key' ≠ key) :
    recGetOpt (recSet r key v) key' = recGetOpt r key' := by
  unfold recGetOpt recSet
  by_cases h : r.any (fun p => p.1 == key) = true
  · rw [if_pos h, find?_map_set_ne r key key' v hne]
  · rw [if_neg h]
    rw [find?_append_last_false _ r (key, v) (by
      simp only [beq_eq_false_iff_ne]
      exact fun hc => hne hc.symm)]

theorem rowObject_fold_agree (cf : String) (row1 row2 : List Cell) :
    ∀ (pairs : List (Nat × Cell)) (acc1 acc2 : Rec),
      (∀ key, key ≠ cf → recGetOpt acc1 key = recGetOpt acc2 key) →
      (∀ pr ∈ pairs, pr.2.keyStr = cf ∨
        row1.getD pr.1 Cell.blank = row2.getD pr.1 Cell.blank) →
      ∀ key, key ≠ cf →
        recGetOpt (pairs.foldl
          (fun acc p => recSet acc p.2.keyStr (row1.getD p.1 Cell.blank)) acc1)
          key
        = recGetOpt (pairs.foldl
          (fun acc p => recSet acc p.2.keyStr (row2.getD p.1 Cell.blank)) acc2)
          key := by
  intro pairs
  induction pairs with
  | nil =>
    intro acc1 acc2 hacc _ key hkey
    exact hacc key hkey
  | cons pr t ih =>
    intro acc1 acc2 hacc hpairs key hkey
    rw [List.foldl_cons, List.foldl_cons]
    refine ih _ _ ?_ (fun p hp => hpairs p (List.mem_cons_of_mem _ hp)) key hkey
    intro key2 hkey2
    rcases hpairs pr (List.mem_cons_self _ _) with hcf | hval
    · rw [recGetOpt_recSet_ne _ _ _ _ (by rw [hcf]; exact hkey2),
        recGetOpt_recSet_ne _ _ _ _ (by rw [hcf]; exact hkey2)]
      exact hacc key2 hkey2
    · by_cases hk : key2 = pr.2.keyStr
      · subst hk
        rw [recGetOpt_recSet_self, recGetOpt_recSet_self, hval]
      · rw [recGetOpt_recSet_ne _ _ _ _ hk, recGetOpt_recSet_ne _ _ _ _ hk]
        exact hacc key2 hkey2

theorem mem_enumFrom_getD (l : List Cell) :
    ∀ (n : Nat), ∀ pr ∈ l.enumFrom n, n ≤ pr.1 ∧ pr.1 - n < l.length ∧
      pr.2 = l.getD (pr.1 - n) Cell.blank := by
  induction l with
  | nil =>
    intro n pr hpr
    simp [List.enumFrom] at hpr
  | cons x t ih =>
    intro n pr hpr
    rw [show (x :: t).enumFrom n = (n, x) :: t.enumFrom (n + 1) from rfl] at hpr
    rcases List.mem_cons.mp hpr with h | h
    · subst h
      simp
    · obtain ⟨h1, h2, h3⟩ := ih (n + 1) pr h
      refine ⟨by omega, by simp only [List.length_cons]; omega, ?_⟩
      rw [h3]
      rw [show pr.1 - n = (pr.1 - (n + 1)) + 1 from by omega, List.getD_cons_succ]

theorem rowObject_agree (H row1 row2 : List Cell) (cf : String) (mi : Nat)
    (hH : H.getD mi Cell.blank = Cell.str cf)
    (hrows : ∀ j, j ≠ mi → row1.getD j Cell.blank = row2.getD j Cell.blank) :
    ∀ key, key ≠ cf →
      recGetOpt (rowObject H row1) key = recGetOpt (rowObject H row2) key := by
  intro key hkey
  unfold rowObject
  refine rowObject_fold_agree cf row1 row2 H.enum [] [] (fun _ _ => rfl) ?_
    key hkey
  intro pr hpr
  by_cases hj : pr.1 = mi
  · left
    obtain ⟨-, -, h3⟩ := mem_enumFrom_getD H 0 pr hpr
    rw [h3, Nat.sub_zero, hj, hH]
    rfl
  · right
    exact hrows pr.1 hj

theorem matchRowsFrom_congr_cells (p : Nat) (v : String) :
    ∀ (rows1 rows2 : List (List Cell)), rows1.length = rows2.length →
      (∀ j, j < rows1.length →
        (rows1.getD j []).getD (p - 1) Cell.blank =
        (rows2.getD j []).getD (p - 1) Cell.blank) →
      ∀ r0, matchRowsFrom rows1 r0 p v = matchRowsFrom rows2 r0 p v := by
  intro rows1
  induction rows1 with
  | nil =>
    intro rows2 hlen _ r0
    cases rows2 with
    | nil => rfl
    | cons _ _ => simp at hlen
  | cons row1 t1 ih =>
    intro rows2 hlen hcells r0
    cases rows2 with
    | nil => simp at hlen
    | cons row2 t2 =>
      rw [matchRowsFrom_cons, matchRowsFrom_cons]
      have h0 := hcells 0 (by simp)
      simp only [List.getD_cons_zero] at h0
      rw [h0]
      rw [ih t2 (by simp only [List.length_cons] at hlen; omega)
        (fun j hj => by
          have h2 := hcells (j + 1) (by simp only [List.length_cons]; omega)
          simpa [List.getD_cons_succ] using h2) (r0 + 1)]

theorem filter_key_pointwise (pred1 pred2 : Rec → Bool)
    (keyf1 keyf2 : Rec → String) :
    ∀ (l1 l2 : List Rec),
      l1.map (fun r => ((pred1 r, keyf1 r) : Bool × String))
        = l2.map (fun r => (pred2 r, keyf2 r)) →
      (l1.filter pred1).map keyf1 = (l2.filter pred2).map keyf2 := by
  intro l1
  induction l1 with
  | nil =>
    intro l2 h
    cases l2 with
    | nil => rfl
    | cons _ _ => simp at h
  | cons r1 t1 ih =>
    intro l2 h
    cases l2 with
    | nil => simp at h
    | cons r2 t2 =>
      simp only [List.map_cons, List.cons.injEq] at h
      obtain ⟨hhead, htail⟩ := h
      have hpred : pred1 r1 = pred2 r2 := congrArg Prod.fst hhead
      have hkey : keyf1 r1 = keyf2 r2 := congrArg Prod.snd hhead
      rw [List.filter_cons, List.filter_cons]
      cases hp : pred1 r1 with
      | true =>
        rw [hp] at hpred
        rw [if_pos rfl, if_pos hpred.symm, List.map_cons, List.map_cons, hkey,
          ih t2 htail]
      | false =>
        rw [hp] at hpred
        rw [if_neg Bool.false_ne_true,
          if_neg (by rw [← hpred]; exact Bool.false_ne_true)]
        exact ih t2 htail

theorem foldl_countsBump_key (gk : String) :
    ∀ (l : List Rec) (acc : List (String × Int)),
      l.foldl (fun acc r => countsBump acc (jsKeyOpt (recGetOpt r gk))) acc
        = (l.map (fun r => jsKeyOpt (recGetOpt r gk))).foldl countsBump acc := by
  intro l
  induction l with
  | nil => intro acc; rfl
  | cons r t ih =>
    intro acc
    rw [List.foldl_cons, List.map_cons, List.foldl_cons, ih]

theorem getD_map_range (n j : Nat) (f : Nat → Cell) :
    ((List.range n).map f).getD j Cell.blank =
      if j < n then f j else Cell.blank := by
  by_cases hj : j < n
  · rw [if_pos hj, List.getD_eq_getElem?_getD, List.getElem?_map,
      List.getElem?_range hj]
    rfl
  · rw [if_neg hj, List.getD_eq_getElem?_getD,
      List.getElem?_eq_none (by simp only [List.length_map, List.length_range]; omega)]
    rfl

theorem getColumnId_extract (hdr : List Cell) (rest : List (List Cell))
    (f : String) (p : Nat) (hp : 1 ≤ p) (hf : f ≠ "")
    (hcol : getColumnId ⟨hdr :: rest⟩ f = .ok ((p : Int))) :
    hdr.findIdx? (fun c => c.eqStr f) = some (p - 1) ∧
      p - 1 < hdr.length ∧ hdr.getD (p - 1) Cell.blank = Cell.str f := by
  obtain ⟨hdr0, hh, hcase⟩ := getColumnId_ok_shape ⟨hdr :: rest⟩ f _ hcol
  obtain ⟨hLc0, -⟩ := getHeader_ok_shape ⟨hdr :: rest⟩ hdr0 hh
  have hhdle0 : hdr.length ≤ Grid.lastColumn ⟨hdr :: rest⟩ :=
    rows_le_lastColumn _ hdr (List.mem_cons_self _ _)
  have hgh0 : getHeader ⟨hdr :: rest⟩
      = .ok (padTo hdr (Grid.lastColumn ⟨hdr :: rest⟩)) :=
    getHeader_head hdr rest _ rfl hhdle0 hLc0
  rw [hgh0] at hh
  injection hh with hh
  rcases hcase with ⟨-, hx⟩ | ⟨i, hfindpad, hx⟩
  · exfalso
    omega
  have hi : i = p - 1 := by omega
  subst hi
  rw [← hh] at hfindpad
  have hfind : hdr.findIdx? (fun c => c.eqStr f) = some (p - 1) := by
    unfold padTo at hfindpad
    rw [findIdx?_append_fail (fun c => c.eqStr f) hdr _ ?junk 0] at hfindpad
    · exact hfindpad
    case junk =>
      intro c hc
      rw [List.eq_of_mem_replicate hc]
      unfold Cell.blank Cell.eqStr
      rw [beq_eq_false_iff_ne]
      exact fun h2 => hf h2.symm
  obtain ⟨hplt, hPp⟩ := findIdx?_some_spec _ hdr _ hfind
  exact ⟨hfind, hplt, eqStr_eq _ _ hPp⟩

theorem countRowsWhere_invariant (g g1 : Grid) (H : List Cell)
    (fn gk cf : String) (values : List String)
    (hfn : fn ≠ cf) (hgk : gk ≠ cf) (mi : Nat)
    (hH : H.getD mi Cell.blank = Cell.str cf)
    (hheader : getHeader g = .ok H) (hheader1 : getHeader g1 = .ok H)
    (hR : 1 ≤ g.lastRow) (hC : 1 ≤ g.lastColumn)
    (hLR : g1.lastRow = g.lastRow) (hLC : g1.lastColumn = g.lastColumn)
    (hcells : ∀ i j : Nat, j ≠ mi →
      g1.cell (i + 1) (j + 1) = g.cell (i + 1) (j + 1)) :
    countRowsWhere g1 fn values gk = countRowsWhere g fn values gk := by
  have hdrv : g.getDataRangeValues = (List.range g.lastRow).map (fun i =>
      (List.range g.lastColumn).map fun j => g.cell (i + 1) (j + 1)) := by
    unfold Grid.getDataRangeValues
    rw [if_neg (by
      simp only [Bool.or_eq_true, decide_eq_true_eq]
      push_neg
      omega)]
  have hdrv1 : g1.getDataRangeValues = (List.range g.lastRow).map (fun i =>
      (List.range g.lastColumn).map fun j => g1.cell (i + 1) (j + 1)) := by
    unfold Grid.getDataRangeValues
    rw [if_neg (by
      simp only [Bool.or_eq_true, decide_eq_true_eq]
      push_neg
      omega)]
    rw [hLR, hLC]
  have hrowsEq : ((g1.getDataRangeValues.drop 1).map
        (fun row => rowObject H row)).map
      (fun r => (((fun r => match recGetOpt r fn with
          | some c => values.any (fun v => c.eqStr v)
          | none => false) r,
        (fun r => jsKeyOpt (recGetOpt r gk)) r) : Bool × String))
    = ((g.getDataRangeValues.drop 1).map
        (fun row => rowObject H row)).map
      (fun r => ((fun r => match recGetOpt r fn with
          | some c => values.any (fun v => c.eqStr v)
          | none => false) r,
        (fun r => jsKeyOpt (recGetOpt r gk)) r)) := by
    rw [hdrv, hdrv1, ← List.map_drop, ← List.map_drop,
      List.map_map, List.map_map, List.map_map, List.map_map]
    apply List.map_congr_left
    intro i _
    have hro := rowObject_agree H
      ((List.range g.lastColumn).map fun j => g1.cell (i + 1) (j + 1))
      ((List.range g.lastColumn).map fun j => g.cell (i + 1) (j + 1))
      cf mi hH (by
        intro j hj
        rw [getD_map_range, getD_map_range]
        by_cases hjC : j < g.lastColumn
        · rw [if_pos hjC, if_pos hjC]
          exact hcells i j hj
        · rw [if_neg hjC, if_neg hjC])
    have hfneq := hro fn hfn
    have hgkeq := hro gk hgk
    show (((fun r => match recGetOpt r fn with
        | some c => values.any (fun v => c.eqStr v)
        | none => false) (rowObject H _),
      jsKeyOpt (recGetOpt (rowObject H _) gk)) : Bool × String) = _
    refine Prod.ext ?_ ?_
    · show (match recGetOpt (rowObject H
          ((List.range g.lastColumn).map fun j =>
            g1.cell (i + 1) (j + 1))) fn with
        | some c => values.any (fun v => c.eqStr v)
        | none => false)
        = (match recGetOpt (rowObject H
            ((List.range g.lastColumn).map fun j =>
              g.cell (i + 1) (j + 1))) fn with
          | some c => values.any (fun v => c.eqStr v)
          | none => false)
      rw [hfneq]
    · show jsKeyOpt (recGetOpt (rowObject H
          ((List.range g.lastColumn).map fun j =>
            g1.cell (i + 1) (j + 1))) gk)
        = jsKeyOpt (recGetOpt (rowObject H
            ((List.range g.lastColumn).map fun j =>
              g.cell (i + 1) (j + 1))) gk)
      rw [hgkeq]
  unfold countRowsWhere getSheetRows
  rw [hheader, hheader1]
  simp only [Bind.bind, Except.bind, pure, Except.pure]
  congr 1
  rw [foldl_countsBump_key gk, foldl_countsBump_key gk]
  congr 1
  exact filter_key_pointwise _ _ _ _ _ _ hrowsEq

theorem lastColumn_le (rows : List (List Cell)) (n : Nat)
    (h : ∀ row ∈ rows, row.length ≤ n) : Grid.lastColumn ⟨rows⟩ ≤ n := by
  induction rows with
  | nil => exact Nat.zero_le n
  | cons r t ih =>
    rw [lastColumn_cons]
    have h1 := h r (List.mem_cons_self _ _)
    have h2 := ih (fun row hrow => h row (List.mem_cons_of_mem _ hrow))
    omega

theorem writeCells_rows_le (m : Nat) (f : Int → Cell) (rs : List Int)
    (n : Nat) (hm : 1 ≤ m) (hmn : m ≤ n) :
    ∀ (R : List (List Cell)) (i0 : Int), (∀ row ∈ R, row.length ≤ n) →
      ∀ row ∈ writeCells R i0 m f rs, row.length ≤ n := by
  intro R
  induction R with
  | nil =>
    intro i0 _ row h
    simp [writeCells] at h
  | cons r t ih =>
    intro i0 hall row hrow
    rw [writeCells_cons] at hrow
    rcases List.mem_cons.mp hrow with h | h
    · rw [h]
      by_cases hc : rs.contains i0 = true
      · rw [if_pos hc, writeRow_one_length _ m _ hm]
        have := hall r (List.mem_cons_self _ _)
        omega
      · rw [if_neg hc]
        exact hall r (List.mem_cons_self _ _)
    · exact ih (i0 + 1) (fun row2 h2 => hall row2 (List.mem_cons_of_mem _ h2))
        row h

theorem lastColumn_pointwise_le : ∀ (R R' : List (List Cell)),
    R.length = R'.length →
    (∀ j, j < R.length → (R.getD j []).length ≤ (R'.getD j []).length) →
    Grid.lastColumn ⟨R⟩ ≤ Grid.lastColumn ⟨R'⟩ := by
  intro R
  induction R with
  | nil =>
    intro R' _ _
    exact Nat.zero_le _
  | cons r t ih =>
    intro R' hlen hpt
    cases R' with
    | nil => simp at hlen
    | cons r' t' =>
      rw [lastColumn_cons, lastColumn_cons]
      have h0 := hpt 0 (by simp)
      simp only [List.getD_cons_zero] at h0
      have ht := ih t' (by simp only [List.length_cons] at hlen; omega)
        (fun j hj => by
          have h2 := hpt (j + 1) (by simp only [List.length_cons]; omega)
          simpa [List.getD_cons_succ] using h2)
      omega

theorem lastColumn_writeCells (m : Nat) (f : Int → Cell) (rs : List Int)
    (hm : 1 ≤ m) (R : List (List Cell))
    (hmLc : m ≤ Grid.lastColumn ⟨R⟩) :
    Grid.lastColumn ⟨writeCells R 1 m f rs⟩ = Grid.lastColumn ⟨R⟩ := by
  refine le_antisymm ?_ ?_
  · exact lastColumn_le _ _ (writeCells_rows_le m f rs _ hm hmLc R 1
      (fun row h => rows_le_lastColumn ⟨R⟩ row h))
  · refine lastColumn_pointwise_le R _ (writeCells_length m f rs R 1).symm ?_
    intro j hj
    rw [writeCells_getD m f rs R 1 j hj]
    by_cases hc : rs.contains (1 + (j : Int)) = true
    · rw [if_pos hc, writeRow_one_length _ m _ hm]
      omega
    · rw [if_neg hc]

theorem coerce_lookupCell (counts : List (String × Int)) (c : Cell) :
    coerceCell (lookupCell counts c) = lookupCell counts c := by
  unfold lookupCell
  cases counts.find? (fun q => q.1 == c.keyStr) with
  | none => rfl
  | some q => rfl

theorem upsertHeader_noop (hdr : List Cell) (rest : List (List Cell))
    (fs : List String)
    (hnb : ¬ (Grid.isBlank ⟨hdr :: rest⟩) = true)
    (hiso : ∀ f ∈ fs, isIsoDate f = false)
    (hcovP : ∀ f ∈ fs,
      (padTo hdr (Grid.lastColumn ⟨hdr :: rest⟩)).any
        (fun c => c.eqStr f) = true) :
    upsertHeader ⟨hdr :: rest⟩ fs = .ok ⟨hdr :: rest⟩ := by
  rw [upsertHeader_nonblank hdr rest fs hnb hiso,
    missingCells_nil_of_covered _ _ hcovP]
  rfl

/-- Core of the C7 analysis: `addComputedCountsField` on a store whose
header already contains the computed column (at `m`), the key column
`"id"` (at `k`) and the backup-date column (at `p`), with the computed
name distinct from those columns and from the target date, succeeds,
is a fixed point on re-run, preserves the grid dimensions, touches only
column `m` of the backup-date-matching rows, and writes each matching
row's group-key count there. -/
theorem addComputedCountsField_core
    (hdr : List Cell) (rest : List (List Cell))
    (bdf cf fn : String) (values : List String) (bd : String)
    (counts : List (String × Int)) (m k p : Nat)
    (hm : 1 ≤ m) (hk : 1 ≤ k) (hp : 1 ≤ p)
    (hcolCf : getColumnId ⟨hdr :: rest⟩ cf = .ok ((m : Int)))
    (hcolId : getColumnId ⟨hdr :: rest⟩ "id" = .ok ((k : Int)))
    (hcolBd : getColumnId ⟨hdr :: rest⟩ bdf = .ok ((p : Int)))
    (hcounts : countRowsWhere ⟨hdr :: rest⟩ fn values "id" = .ok counts)
    (hcfid : cf ≠ "id") (hcffn : cf ≠ fn) (hcfbdf : cf ≠ bdf)
    (hbdfbd : bdf ≠ bd)
    (hcfne : cf ≠ "") (hcfiso : isIsoDate cf = false)
    (hbdfne : bdf ≠ "") :
    ∃ g1 : Grid,
      addComputedCountsField ⟨hdr :: rest⟩ bdf cf fn values bd = .ok g1 ∧
      addComputedCountsField g1 bdf cf fn values bd = .ok g1 ∧
      g1.lastRow = Grid.lastRow ⟨hdr :: rest⟩ ∧
      g1.lastColumn = Grid.lastColumn ⟨hdr :: rest⟩ ∧
      (∀ i c : Nat, 1 ≤ c →
        ¬ (i ∈ matchRows ⟨hdr :: rest⟩ p bd ∧ c = m) →
        g1.cell i c = Grid.cell ⟨hdr :: rest⟩ i c) ∧
      (∀ i ∈ matchRows ⟨hdr :: rest⟩ p bd,
        g1.cell i m = lookupCell counts (Grid.cell ⟨hdr :: rest⟩ i k)) := by
  obtain ⟨hfindCf, hmlt, hcellCf⟩ := getColumnId_extract hdr rest cf m hm hcfne hcolCf
  obtain ⟨hfindId, hklt, hcellId⟩ :=
    getColumnId_extract hdr rest "id" k hk (by decide) hcolId
  obtain ⟨hfindBd, hplt, hcellBd⟩ := getColumnId_extract hdr rest bdf p hp hbdfne hcolBd
  have hpm : p ≠ m := by
    intro h
    subst h
    have h2 := hcellCf.symm.trans hcellBd
    injection h2 with h3
    exact hcfbdf h3
  have hkm : k ≠ m := by
    intro h
    subst h
    have h2 := hcellCf.symm.trans hcellId
    injection h2 with h3
    exact hcfid h3
  have hnb : ¬ (Grid.isBlank ⟨hdr :: rest⟩) = true :=
    nonblank_of_cell hdr rest cf hcfne (m - 1) hmlt hcellCf
  have hhdle : hdr.length ≤ Grid.lastColumn ⟨hdr :: rest⟩ :=
    rows_le_lastColumn _ hdr (List.mem_cons_self _ _)
  have hhdnz : 1 ≤ hdr.length := by omega
  have hLcpos : 1 ≤ Grid.lastColumn ⟨hdr :: rest⟩ := le_trans hhdnz hhdle
  have hmLc : m ≤ Grid.lastColumn ⟨hdr :: rest⟩ := by omega
  have hgh : getHeader ⟨hdr :: rest⟩ =
      .ok (padTo hdr (Grid.lastColumn ⟨hdr :: rest⟩)) :=
    getHeader_head hdr rest _ rfl hhdle hLcpos
  have hAnyCf : hdr.any (fun c => c.eqStr cf) = true := by
    rw [List.any_eq_true]
    exact ⟨hdr.getD (m - 1) Cell.blank, getD_mem_of_lt hdr (m - 1) hmlt,
      by rw [hcellCf]; simp [Cell.eqStr]⟩
  have hcovGen : ∀ n : Nat, ∀ f ∈ [cf],
      (padTo hdr n).any (fun c => c.eqStr f) = true := by
    intro n f hf
    rw [List.mem_singleton] at hf
    subst hf
    rw [any_padTo hdr n f hcfne]
    exact hAnyCf
  have hisoList : ∀ f ∈ [cf], isIsoDate f = false := by
    intro f hf
    rw [List.mem_singleton] at hf
    subst hf
    exact hcfiso
  have hupsert : upsertHeader ⟨hdr :: rest⟩ [cf] = .ok ⟨hdr :: rest⟩ :=
    upsertHeader_noop hdr rest [cf] hnb hisoList
      (hcovGen (Grid.lastColumn ⟨hdr :: rest⟩))
  have hrow1nm : (Cell.str bdf).matchesText bd = false := by
    show (if (bd == "") = true then false else (bdf == bd)) = false
    by_cases hbd : (bd == "") = true
    · rw [if_pos hbd]
    · rw [if_neg hbd, beq_eq_false_iff_ne]
      exact hbdfbd
  have h1notin : (1 : Nat) ∉ matchRows ⟨hdr :: rest⟩ p bd := by
    intro hmem
    have hiff := mem_matchRowsFrom (hdr :: rest) p bd 1 0 (by simp)
    have hmt : (hdr.getD (p - 1) Cell.blank).matchesText bd = true := hiff.mp hmem
    rw [hcellBd] at hmt
    exact Bool.noConfusion (hrow1nm.symm.trans hmt)
  have hfrw : findRowsWhere ⟨hdr :: rest⟩ bdf bd =
      .ok ((matchRows ⟨hdr :: rest⟩ p bd).map Int.ofNat) :=
    findRowsWhere_spec ⟨hdr :: rest⟩ bdf bd p hp hcolBd
  have hpw : List.Pairwise (fun a b : Int => a < b)
      ((matchRows ⟨hdr :: rest⟩ p bd).map Int.ofNat) := by
    rw [List.pairwise_map]
    exact (matchRowsFrom_pairwise (hdr :: rest) p bd 1).imp
      (fun hab => by simp only [Int.ofNat_eq_natCast]; omega)
  have hbnds : ∀ x ∈ (matchRows ⟨hdr :: rest⟩ p bd).map Int.ofNat,
      1 ≤ x ∧ x ≤ (((hdr :: rest).length : Nat) : Int) := by
    intro x hx
    obtain ⟨r, hr, hrx⟩ := List.mem_map.mp hx
    have hb := matchRowsFrom_bounds (hdr :: rest) p bd 1 r hr
    simp only [Int.ofNat_eq_natCast] at hrx
    subst hrx
    simp only [List.length_cons] at hb ⊢
    omega
  have hfold := computeBatches_fold m k counts hm hk hkm
    (batchConsecutiveIntegers ((matchRows ⟨hdr :: rest⟩ p bd).map Int.ofNat))
    (hdr :: rest)
    (batch_pos ((matchRows ⟨hdr :: rest⟩ p bd).map Int.ofNat))
    (by rw [batch_flatMap_expand]; exact hpw)
    (by rw [batch_flatMap_expand]; exact hbnds)
  rw [batch_flatMap_expand] at hfold
  have hrun1 : addComputedCountsField ⟨hdr :: rest⟩ bdf cf fn values bd
      = .ok ⟨writeCells (hdr :: rest) 1 m
          (fun i : Int => lookupCell counts (Grid.cell ⟨hdr :: rest⟩ i.toNat k))
          ((matchRows ⟨hdr :: rest⟩ p bd).map Int.ofNat)⟩ := by
    unfold addComputedCountsField
    simp only [Bind.bind, Except.bind, hcounts, hupsert, hcolCf, hcolId, hfrw]
    exact hfold
  have hnc1 : ¬ ((matchRows ⟨hdr :: rest⟩ p bd).map Int.ofNat).contains
      (1 : Int) = true := by
    intro hcon
    rw [contains_iff_mem] at hcon
    obtain ⟨y, hy, hyeq⟩ := List.mem_map.mp hcon
    have hy1 : y = 1 := by
      simp only [Int.ofNat_eq_natCast] at hyeq
      omega
    rw [hy1] at hy
    exact h1notin hy
  have hG1grid : (⟨writeCells (hdr :: rest) 1 m
        (fun i : Int => lookupCell counts (Grid.cell ⟨hdr :: rest⟩ i.toNat k))
        ((matchRows ⟨hdr :: rest⟩ p bd).map Int.ofNat)⟩ : Grid) =
      ⟨hdr :: writeCells rest 2 m
        (fun i : Int => lookupCell counts (Grid.cell ⟨hdr :: rest⟩ i.toNat k))
        ((matchRows ⟨hdr :: rest⟩ p bd).map Int.ofNat)⟩ := by
    rw [writeCells_cons, if_neg hnc1]
    rfl
  have hLCw : Grid.lastColumn ⟨writeCells (hdr :: rest) 1 m
        (fun i : Int => lookupCell counts (Grid.cell ⟨hdr :: rest⟩ i.toNat k))
        ((matchRows ⟨hdr :: rest⟩ p bd).map Int.ofNat)⟩ =
      Grid.lastColumn ⟨hdr :: rest⟩ :=
    lastColumn_writeCells m
      (fun i : Int => lookupCell counts (Grid.cell ⟨hdr :: rest⟩ i.toNat k))
      ((matchRows ⟨hdr :: rest⟩ p bd).map Int.ofNat) hm (hdr :: rest) hmLc
  have hLCc : Grid.lastColumn ⟨hdr :: writeCells rest 2 m
        (fun i : Int => lookupCell counts (Grid.cell ⟨hdr :: rest⟩ i.toNat k))
        ((matchRows ⟨hdr :: rest⟩ p bd).map Int.ofNat)⟩ =
      Grid.lastColumn ⟨hdr :: rest⟩ := by
    rw [← hG1grid]
    exact hLCw
  have hgh1 : getHeader ⟨writeCells (hdr :: rest) 1 m
        (fun i : Int => lookupCell counts (Grid.cell ⟨hdr :: rest⟩ i.toNat k))
        ((matchRows ⟨hdr :: rest⟩ p bd).map Int.ofNat)⟩ =
      .ok (padTo hdr (Grid.lastColumn ⟨hdr :: rest⟩)) := by
    rw [hG1grid]
    exact getHeader_head hdr _ _ hLCc hhdle hLcpos
  have hcolCf1 : getColumnId ⟨writeCells (hdr :: rest) 1 m
        (fun i : Int => lookupCell counts (Grid.cell ⟨hdr :: rest⟩ i.toNat k))
        ((matchRows ⟨hdr :: rest⟩ p bd).map Int.ofNat)⟩ cf = .ok ((m : Int)) := by
    rw [hG1grid, getColumnId_head_findIdx hdr _ cf hcfne (m - 1) hfindCf hhdnz]
    congr 1
    omega
  have hcolId1 : getColumnId ⟨writeCells (hdr :: rest) 1 m
        (fun i : Int => lookupCell counts (Grid.cell ⟨hdr :: rest⟩ i.toNat k))
        ((matchRows ⟨hdr :: rest⟩ p bd).map Int.ofNat)⟩ "id" = .ok ((k : Int)) := by
    rw [hG1grid, getColumnId_head_findIdx hdr _ "id" (by decide) (k - 1) hfindId hhdnz]
    congr 1
    omega
  have hcolBd1 : getColumnId ⟨writeCells (hdr :: rest) 1 m
        (fun i : Int => lookupCell counts (Grid.cell ⟨hdr :: rest⟩ i.toNat k))
        ((matchRows ⟨hdr :: rest⟩ p bd).map Int.ofNat)⟩ bdf = .ok ((p : Int)) := by
    rw [hG1grid, getColumnId_head_findIdx hdr _ bdf hbdfne (p - 1) hfindBd hhdnz]
    congr 1
    omega
  have hcinv : countRowsWhere ⟨writeCells (hdr :: rest) 1 m
        (fun i : Int => lookupCell counts (Grid.cell ⟨hdr :: rest⟩ i.toNat k))
        ((matchRows ⟨hdr :: rest⟩ p bd).map Int.ofNat)⟩ fn values "id" =
      countRowsWhere ⟨hdr :: rest⟩ fn values "id" := by
    refine countRowsWhere_invariant ⟨hdr :: rest⟩ _
      (padTo hdr (Grid.lastColumn ⟨hdr :: rest⟩)) fn "id" cf values
      (Ne.symm hcffn) (fun h => hcfid h.symm) (m - 1) ?_ hgh hgh1 ?_ hLcpos ?_ hLCw ?_
    · rw [getD_padTo_any]
      exact hcellCf
    · show 1 ≤ (hdr :: rest).length
      simp
    · exact writeCells_length m
        (fun i : Int => lookupCell counts (Grid.cell ⟨hdr :: rest⟩ i.toNat k))
        ((matchRows ⟨hdr :: rest⟩ p bd).map Int.ofNat) (hdr :: rest) 1
    · intro i j hj
      exact cell_writeCells_ne m
        (fun i : Int => lookupCell counts (Grid.cell ⟨hdr :: rest⟩ i.toNat k))
        ((matchRows ⟨hdr :: rest⟩ p bd).map Int.ofNat) hm (hdr :: rest)
        (i + 1) (j + 1) (by omega) (by omega)
  have hnb1 : ¬ (Grid.isBlank ⟨hdr :: writeCells rest 2 m
        (fun i : Int => lookupCell counts (Grid.cell ⟨hdr :: rest⟩ i.toNat k))
        ((matchRows ⟨hdr :: rest⟩ p bd).map Int.ofNat)⟩) = true :=
    nonblank_of_cell hdr _ cf hcfne (m - 1) hmlt hcellCf
  have hupsert1 : upsertHeader ⟨writeCells (hdr :: rest) 1 m
        (fun i : Int => lookupCell counts (Grid.cell ⟨hdr :: rest⟩ i.toNat k))
        ((matchRows ⟨hdr :: rest⟩ p bd).map Int.ofNat)⟩ [cf] =
      .ok ⟨writeCells (hdr :: rest) 1 m
        (fun i : Int => lookupCell counts (Grid.cell ⟨hdr :: rest⟩ i.toNat k))
        ((matchRows ⟨hdr :: rest⟩ p bd).map Int.ofNat)⟩ := by
    rw [hG1grid]
    exact upsertHeader_noop hdr _ [cf] hnb1 hisoList (hcovGen _)
  have hcellsP : ∀ j, j < (writeCells (hdr :: rest) 1 m
        (fun i : Int => lookupCell counts (Grid.cell ⟨hdr :: rest⟩ i.toNat k))
        ((matchRows ⟨hdr :: rest⟩ p bd).map Int.ofNat)).length →
      ((writeCells (hdr :: rest) 1 m
        (fun i : Int => lookupCell counts (Grid.cell ⟨hdr :: rest⟩ i.toNat k))
        ((matchRows ⟨hdr :: rest⟩ p bd).map Int.ofNat)).getD j []).getD
          (p - 1) Cell.blank =
      (((hdr :: rest).getD j []).getD (p - 1) Cell.blank) := by
    intro j hj
    rw [writeCells_length m
      (fun i : Int => lookupCell counts (Grid.cell ⟨hdr :: rest⟩ i.toNat k))
      ((matchRows ⟨hdr :: rest⟩ p bd).map Int.ofNat) (hdr :: rest) 1] at hj
    rw [writeCells_getD m
      (fun i : Int => lookupCell counts (Grid.cell ⟨hdr :: rest⟩ i.toNat k))
      ((matchRows ⟨hdr :: rest⟩ p bd).map Int.ofNat) (hdr :: rest) 1 j hj]
    by_cases hcj : ((matchRows ⟨hdr :: rest⟩ p bd).map Int.ofNat).contains
        (1 + (j : Int)) = true
    · rw [if_pos hcj]
      exact writeRow_one_getD_ne _ m _ (p - 1) hm (by omega)
    · rw [if_neg hcj]
  have hmeq : matchRows ⟨writeCells (hdr :: rest) 1 m
        (fun i : Int => lookupCell counts (Grid.cell ⟨hdr :: rest⟩ i.toNat k))
        ((matchRows ⟨hdr :: rest⟩ p bd).map Int.ofNat)⟩ p bd =
      matchRows ⟨hdr :: rest⟩ p bd :=
    matchRowsFrom_congr_cells p bd _ _
      (writeCells_length m
        (fun i : Int => lookupCell counts (Grid.cell ⟨hdr :: rest⟩ i.toNat k))
        ((matchRows ⟨hdr :: rest⟩ p bd).map Int.ofNat) (hdr :: rest) 1)
      hcellsP 1
  have hfrw1 : findRowsWhere ⟨writeCells (hdr :: rest) 1 m
        (fun i : Int => lookupCell counts (Grid.cell ⟨hdr :: rest⟩ i.toNat k))
        ((matchRows ⟨hdr :: rest⟩ p bd).map Int.ofNat)⟩ bdf bd =
      .ok ((matchRows ⟨hdr :: rest⟩ p bd).map Int.ofNat) := by
    rw [findRowsWhere_spec _ bdf bd p hp hcolBd1, hmeq]
  have hfold2 := computeBatches_fold m k counts hm hk hkm
    (batchConsecutiveIntegers ((matchRows ⟨hdr :: rest⟩ p bd).map Int.ofNat))
    (writeCells (hdr :: rest) 1 m
      (fun i : Int => lookupCell counts (Grid.cell ⟨hdr :: rest⟩ i.toNat k))
      ((matchRows ⟨hdr :: rest⟩ p bd).map Int.ofNat))
    (batch_pos ((matchRows ⟨hdr :: rest⟩ p bd).map Int.ofNat))
    (by rw [batch_flatMap_expand]; exact hpw)
    (by
      rw [batch_flatMap_expand]
      intro x hx
      rw [writeCells_length m
        (fun i : Int => lookupCell counts (Grid.cell ⟨hdr :: rest⟩ i.toNat k))
        ((matchRows ⟨hdr :: rest⟩ p bd).map Int.ofNat) (hdr :: rest) 1]
      exact hbnds x hx)
  rw [batch_flatMap_expand] at hfold2
  have hcong : ∀ x ∈ (matchRows ⟨hdr :: rest⟩ p bd).map Int.ofNat,
      lookupCell counts (Grid.cell ⟨writeCells (hdr :: rest) 1 m
        (fun i : Int => lookupCell counts (Grid.cell ⟨hdr :: rest⟩ i.toNat k))
        ((matchRows ⟨hdr :: rest⟩ p bd).map Int.ofNat)⟩ x.toNat k) =
      lookupCell counts (Grid.cell ⟨hdr :: rest⟩ x.toNat k) := by
    intro x hx
    rw [cell_writeCells_ne m
      (fun i : Int => lookupCell counts (Grid.cell ⟨hdr :: rest⟩ i.toNat k))
      ((matchRows ⟨hdr :: rest⟩ p bd).map Int.ofNat) hm (hdr :: rest)
      x.toNat k hk hkm]
  have hF1F := (writeCells_f_congr m
      (fun x : Int => lookupCell counts (Grid.cell ⟨writeCells (hdr :: rest) 1 m
        (fun i : Int => lookupCell counts (Grid.cell ⟨hdr :: rest⟩ i.toNat k))
        ((matchRows ⟨hdr :: rest⟩ p bd).map Int.ofNat)⟩ x.toNat k))
      (fun i : Int => lookupCell counts (Grid.cell ⟨hdr :: rest⟩ i.toNat k))
      ((matchRows ⟨hdr :: rest⟩ p bd).map Int.ofNat)
      (writeCells (hdr :: rest) 1 m
        (fun i : Int => lookupCell counts (Grid.cell ⟨hdr :: rest⟩ i.toNat k))
        ((matchRows ⟨hdr :: rest⟩ p bd).map Int.ofNat))
      1 hcong).trans
    (writeCells_idem m
      (fun i : Int => lookupCell counts (Grid.cell ⟨hdr :: rest⟩ i.toNat k))
      ((matchRows ⟨hdr :: rest⟩ p bd).map Int.ofNat) hm (hdr :: rest) 1)
  rw [hF1F] at hfold2
  have hrun2 : addComputedCountsField ⟨writeCells (hdr :: rest) 1 m
        (fun i : Int => lookupCell counts (Grid.cell ⟨hdr :: rest⟩ i.toNat k))
        ((matchRows ⟨hdr :: rest⟩ p bd).map Int.ofNat)⟩ bdf cf fn values bd =
      .ok ⟨writeCells (hdr :: rest) 1 m
        (fun i : Int => lookupCell counts (Grid.cell ⟨hdr :: rest⟩ i.toNat k))
        ((matchRows ⟨hdr :: rest⟩ p bd).map Int.ofNat)⟩ := by
    unfold addComputedCountsField
    simp only [Bind.bind, Except.bind, hcinv.trans hcounts, hupsert1, hcolCf1,
      hcolId1, hfrw1]
    exact hfold2
  have hconv : ∀ i : Nat, (((matchRows ⟨hdr :: rest⟩ p bd).map Int.ofNat).contains
      (1 + ((i - 1 : Nat) : Int)) = true ↔
      (1 + (i - 1)) ∈ matchRows ⟨hdr :: rest⟩ p bd) := by
    intro i
    rw [contains_iff_mem]
    constructor
    · intro h
      obtain ⟨y, hy, hyeq⟩ := List.mem_map.mp h
      have hy2 : y = 1 + (i - 1) := by
        simp only [Int.ofNat_eq_natCast] at hyeq
        omega
      rw [← hy2]
      exact hy
    · intro h
      exact List.mem_map.mpr ⟨1 + (i - 1), h, by
        simp only [Int.ofNat_eq_natCast]
        push_cast
        ring⟩
  have hframe : ∀ i c : Nat, 1 ≤ c →
      ¬ (i ∈ matchRows ⟨hdr :: rest⟩ p bd ∧ c = m) →
      Grid.cell ⟨writeCells (hdr :: rest) 1 m
        (fun i : Int => lookupCell counts (Grid.cell ⟨hdr :: rest⟩ i.toNat k))
        ((matchRows ⟨hdr :: rest⟩ p bd).map Int.ofNat)⟩ i c =
      Grid.cell ⟨hdr :: rest⟩ i c := by
    intro i c hc hno
    by_cases hcm : c = m
    · subst hcm
      have hi : i ∉ matchRows ⟨hdr :: rest⟩ p bd := fun hmem => hno ⟨hmem, rfl⟩
      apply cell_writeCells_notmem
      intro hcon
      have hmem2 := (hconv i).mp hcon
      by_cases hi0 : i = 0
      · subst hi0
        exact h1notin hmem2
      · have hie : 1 + (i - 1) = i := by omega
        rw [hie] at hmem2
        exact hi hmem2
    · exact cell_writeCells_ne m
        (fun x : Int => lookupCell counts (Grid.cell ⟨hdr :: rest⟩ x.toNat k))
        ((matchRows ⟨hdr :: rest⟩ p bd).map Int.ofNat) hm (hdr :: rest)
        i c hc hcm
  have hvalue : ∀ i ∈ matchRows ⟨hdr :: rest⟩ p bd,
      Grid.cell ⟨writeCells (hdr :: rest) 1 m
        (fun i : Int => lookupCell counts (Grid.cell ⟨hdr :: rest⟩ i.toNat k))
        ((matchRows ⟨hdr :: rest⟩ p bd).map Int.ofNat)⟩ i m =
      lookupCell counts (Grid.cell ⟨hdr :: rest⟩ i k) := by
    intro i hi
    have hbi := matchRowsFrom_bounds (hdr :: rest) p bd 1 i hi
    have hlt : i - 1 < (hdr :: rest).length := by
      simp only [List.length_cons] at hbi ⊢
      omega
    have hmem : ((matchRows ⟨hdr :: rest⟩ p bd).map Int.ofNat).contains
        (1 + ((i - 1 : Nat) : Int)) = true := by
      rw [hconv i, show 1 + (i - 1) = i from by omega]
      exact hi
    refine (cell_writeCells_written m
      (fun x : Int => lookupCell counts (Grid.cell ⟨hdr :: rest⟩ x.toNat k))
      ((matchRows ⟨hdr :: rest⟩ p bd).map Int.ofNat) hm (hdr :: rest)
      i hlt hmem).trans ?_
    show coerceCell (lookupCell counts (Grid.cell ⟨hdr :: rest⟩
        ((1 + ((i - 1 : Nat) : Int)).toNat) k)) =
      lookupCell counts (Grid.cell ⟨hdr :: rest⟩ i k)
    rw [show ((1 : Int) + ((i - 1 : Nat) : Int)).toNat = i from by omega]
    exact coerce_lookupCell counts _
  refine ⟨⟨writeCells (hdr :: rest) 1 m
      (fun i : Int => lookupCell counts (Grid.cell ⟨hdr :: rest⟩ i.toNat k))
      ((matchRows ⟨hdr :: rest⟩ p bd).map Int.ofNat)⟩,
    hrun1, hrun2, ?_, hLCw, hframe, hvalue⟩
  exact writeCells_length m
    (fun i : Int => lookupCell counts (Grid.cell ⟨hdr :: rest⟩ i.toNat k))
    ((matchRows ⟨hdr :: rest⟩ p bd).map Int.ofNat) (hdr :: rest) 1

theorem findIdx?_of_any (P : Cell → Bool) :
    ∀ (l : List Cell) (s : Nat), l.any P = true →
      ∃ i, List.findIdx? P l s = some i := by
  intro l
  induction l with
  | nil =>
    intro s h
    simp at h
  | cons x t ih =>
    intro s h
    rw [List.findIdx?_cons]
    by_cases hx : P x = true
    · exact ⟨s, by rw [if_pos hx]⟩
    · rw [if_neg hx]
      rw [List.any_cons] at h
      cases hPx : P x with
      | true => exact absurd hPx hx
      | false =>
        rw [hPx, Bool.false_or] at h
        exact ih (s + 1) h

theorem findIdx?_append_found (P : Cell → Bool) (l2 : List Cell) :
    ∀ (l1 : List Cell) (s i : Nat), List.findIdx? P l1 s = some i →
      List.findIdx? P (l1 ++ l2) s = some i := by
  intro l1
  induction l1 with
  | nil =>
    intro s i h
    exact Option.noConfusion h
  | cons x t ih =>
    intro s i h
    rw [List.cons_append, List.findIdx?_cons]
    rw [List.findIdx?_cons] at h
    by_cases hx : P x = true
    · rw [if_pos hx] at h ⊢
      exact h
    · rw [if_neg hx] at h ⊢
      exact ih (s + 1) i h

theorem findIdx?_append_head_true (P : Cell → Bool) (x : Cell)
    (hx : P x = true) :
    ∀ (A : List Cell), (∀ c ∈ A, P c = false) →
      ∀ s, List.findIdx? P (A ++ [x]) s = some (s + A.length) := by
  intro A
  induction A with
  | nil =>
    intro _ s
    rw [List.nil_append, List.findIdx?_cons, if_pos hx]
    simp
  | cons a t ih =>
    intro hA s
    rw [List.cons_append, List.findIdx?_cons,
      if_neg (by rw [hA a (List.mem_cons_self _ _)]; exact Bool.false_ne_true),
      ih (fun c hc => hA c (List.mem_cons_of_mem _ hc)) (s + 1)]
    congr 1
    simp only [List.length_cons]
    omega

theorem getD_append_lt (A B : List Cell) (j : Nat) (hj : j < A.length) :
    (A ++ B).getD j Cell.blank = A.getD j Cell.blank := by
  rw [List.getD_eq_getElem?_getD, List.getElem?_append_left hj,
    ← List.getD_eq_getElem?_getD]

theorem getD_append_len (A : List Cell) (x : Cell) :
    (A ++ [x]).getD A.length Cell.blank = x := by
  rw [List.getD_eq_getElem?_getD, List.getElem?_append_right (le_refl A.length)]
  simp

theorem getD_ge_len (A : List Cell) (j : Nat) (hj : A.length ≤ j) :
    A.getD j Cell.blank = Cell.blank := by
  rw [List.getD_eq_getElem?_getD, List.getElem?_eq_none hj]
  rfl

theorem rowObject_append_ne (H row1 row2 : List Cell) (x : Cell) (cf : String)
    (hx : x.keyStr = cf)
    (hrows : ∀ j, j < H.length →
      row1.getD j Cell.blank = row2.getD j Cell.blank) :
    ∀ key, key ≠ cf →
      recGetOpt (rowObject (H ++ [x]) row1) key =
        recGetOpt (rowObject H row2) key := by
  intro key hkey
  unfold rowObject
  rw [List.enum_append, List.foldl_append]
  show recGetOpt (recSet (H.enum.foldl
      (fun acc p => recSet acc p.2.keyStr (row1.getD p.1 Cell.blank)) [])
      x.keyStr (row1.getD H.length Cell.blank)) key = _
  rw [recGetOpt_recSet_ne _ x.keyStr key _ (by rw [hx]; exact hkey)]
  exact rowObject_fold_agree cf row1 row2 H.enum [] [] (fun _ _ => rfl)
    (fun pr hpr => Or.inr (hrows pr.1 (by
      obtain ⟨-, h2, -⟩ := mem_enumFrom_getD H 0 pr hpr
      omega))) key hkey

theorem countRowsWhere_extend (g g2 : Grid) (H : List Cell) (x : Cell)
    (fn gk cf : String) (values : List String)
    (hfn : fn ≠ cf) (hgk : gk ≠ cf) (hx : x.keyStr = cf)
    (hheader : getHeader g = .ok H)
    (hheader2 : getHeader g2 = .ok (H ++ [x]))
    (hHlen : H.length = g.lastColumn)
    (hR : 1 ≤ g.lastRow) (hC : 1 ≤ g.lastColumn)
    (hLR : g2.lastRow = g.lastRow)
    (hLC : g2.lastColumn = g.lastColumn + 1)
    (hcells : ∀ i j : Nat, j < g.lastColumn →
      g2.cell (i + 1) (j + 1) = g.cell (i + 1) (j + 1)) :
    countRowsWhere g2 fn values gk = countRowsWhere g fn values gk := by
  have hdrv : g.getDataRangeValues = (List.range g.lastRow).map (fun i =>
      (List.range g.lastColumn).map fun j => g.cell (i + 1) (j + 1)) := by
    unfold Grid.getDataRangeValues
    rw [if_neg (by
      simp only [Bool.or_eq_true, decide_eq_true_eq]
      push_neg
      omega)]
  have hdrv2 : g2.getDataRangeValues = (List.range g.lastRow).map (fun i =>
      (List.range (g.lastColumn + 1)).map fun j => g2.cell (i + 1) (j + 1)) := by
    unfold Grid.getDataRangeValues
    rw [if_neg (by
      simp only [Bool.or_eq_true, decide_eq_true_eq]
      push_neg
      omega)]
    rw [hLR, hLC]
  have hrowsEq : ((g2.getDataRangeValues.drop 1).map
        (fun row => rowObject (H ++ [x]) row)).map
      (fun r => (((fun r => match recGetOpt r fn with
          | some c => values.any (fun v => c.eqStr v)
          | none => false) r,
        (fun r => jsKeyOpt (recGetOpt r gk)) r) : Bool × String))
    = ((g.getDataRangeValues.drop 1).map
        (fun row => rowObject H row)).map
      (fun r => ((fun r => match recGetOpt r fn with
          | some c => values.any (fun v => c.eqStr v)
          | none => false) r,
        (fun r => jsKeyOpt (recGetOpt r gk)) r)) := by
    rw [hdrv, hdrv2, ← List.map_drop, ← List.map_drop,
      List.map_map, List.map_map, List.map_map, List.map_map]
    apply List.map_congr_left
    intro i _
    have hro := rowObject_append_ne H
      ((List.range (g.lastColumn + 1)).map fun j => g2.cell (i + 1) (j + 1))
      ((List.range g.lastColumn).map fun j => g.cell (i + 1) (j + 1))
      x cf hx (by
        intro j hj
        rw [hHlen] at hj
        rw [getD_map_range, getD_map_range]
        rw [if_pos (by omega), if_pos hj]
        exact hcells i j hj)
    have hfneq := hro fn hfn
    have hgkeq := hro gk hgk
    show (((fun r => match recGetOpt r fn with
        | some c => values.any (fun v => c.eqStr v)
        | none => false) (rowObject (H ++ [x]) _),
      jsKeyOpt (recGetOpt (rowObject (H ++ [x]) _) gk)) : Bool × String) = _
    refine Prod.ext ?_ ?_
    · show (match recGetOpt (rowObject (H ++ [x])
          ((List.range (g.lastColumn + 1)).map fun j =>
            g2.cell (i + 1) (j + 1))) fn with
        | some c => values.any (fun v => c.eqStr v)
        | none => false)
        = (match recGetOpt (rowObject H
            ((List.range g.lastColumn).map fun j =>
              g.cell (i + 1) (j + 1))) fn with
          | some c => values.any (fun v => c.eqStr v)
          | none => false)
      rw [hfneq]
    · show jsKeyOpt (recGetOpt (rowObject (H ++ [x])
          ((List.range (g.lastColumn + 1)).map fun j =>
            g2.cell (i + 1) (j + 1))) gk)
        = jsKeyOpt (recGetOpt (rowObject H
            ((List.range g.lastColumn).map fun j =>
              g.cell (i + 1) (j + 1))) gk)
      rw [hgkeq]
  unfold countRowsWhere getSheetRows
  rw [hheader, hheader2]
  simp only [Bind.bind, Except.bind, pure, Except.pure]
  congr 1
  rw [foldl_countsBump_key gk, foldl_countsBump_key gk]
  congr 1
  exact filter_key_pointwise _ _ _ _ _ _ hrowsEq

/-- C7 (amended): `addComputedCountsField(computed_field_name, field_name,
values, backup_date)` is a frame-respecting idempotent column write
provided the computed field's name is distinct from the literal group
key `"id"`, from `field_name` and from the backup-date field (when it
aliases one of them, the counterexample
`addComputedCountsField_rerun_differs` shows a re-run changes the
result).  On a store whose header contains the `"id"` column (at `k`)
and the backup-date column (at `p`, with heading distinct from the
target date), the call succeeds whether or not the computed column
already exists: it is written at column `m`, which is the computed
field's first header occurrence when present and one past the last
column when newly appended; re-running on the result reproduces it
exactly, the row count is unchanged, the column count grows only by a
newly appended column, the header cell of column `m` holds the computed
field's name, every cell outside column `m` is untouched, data rows
outside the target backup date keep their column-`m` cell, and each
matching row's column-`m` cell receives its group key's count (`0` for
a key absent from `counts`). -/
theorem addComputedCountsField_frame_value_idempotent
    (hdr : List Cell) (rest : List (List Cell))
    (bdf cf fn : String) (values : List String) (bd : String)
    (counts : List (String × Int)) (k p : Nat)
    (hk : 1 ≤ k) (hp : 1 ≤ p)
    (hcolId : getColumnId ⟨hdr :: rest⟩ "id" = .ok ((k : Int)))
    (hcolBd : getColumnId ⟨hdr :: rest⟩ bdf = .ok ((p : Int)))
    (hcounts : countRowsWhere ⟨hdr :: rest⟩ fn values "id" = .ok counts)
    (hcfid : cf ≠ "id") (hcffn : cf ≠ fn) (hcfbdf : cf ≠ bdf)
    (hbdfbd : bdf ≠ bd)
    (hcfne : cf ≠ "") (hcfiso : isIsoDate cf = false)
    (hbdfne : bdf ≠ "") :
    ∃ (m : Nat) (g1 : Grid),
      1 ≤ m ∧
      (hdr.findIdx? (fun c => c.eqStr cf) = some (m - 1) ∨
        (hdr.any (fun c => c.eqStr cf) = false ∧
          m = Grid.lastColumn ⟨hdr :: rest⟩ + 1)) ∧
      addComputedCountsField ⟨hdr :: rest⟩ bdf cf fn values bd = .ok g1 ∧
      addComputedCountsField g1 bdf cf fn values bd = .ok g1 ∧
      g1.lastRow = Grid.lastRow ⟨hdr :: rest⟩ ∧
      g1.lastColumn = max (Grid.lastColumn ⟨hdr :: rest⟩) m ∧
      g1.cell 1 m = Cell.str cf ∧
      (∀ i c : Nat, 1 ≤ c → c ≠ m →
        g1.cell i c = Grid.cell ⟨hdr :: rest⟩ i c) ∧
      (∀ i : Nat, 2 ≤ i → i ∉ matchRows ⟨hdr :: rest⟩ p bd →
        g1.cell i m = Grid.cell ⟨hdr :: rest⟩ i m) ∧
      (∀ i ∈ matchRows ⟨hdr :: rest⟩ p bd,
        g1.cell i m = lookupCell counts (Grid.cell ⟨hdr :: rest⟩ i k)) := by
  obtain ⟨hfindId, hklt, hcellId⟩ :=
    getColumnId_extract hdr rest "id" k hk (by decide) hcolId
  obtain ⟨hfindBd, hplt, hcellBd⟩ :=
    getColumnId_extract hdr rest bdf p hp hbdfne hcolBd
  have hhdnz : 1 ≤ hdr.length := by omega
  have hhdle : hdr.length ≤ Grid.lastColumn ⟨hdr :: rest⟩ :=
    rows_le_lastColumn _ hdr (List.mem_cons_self _ _)
  have hLcpos : 1 ≤ Grid.lastColumn ⟨hdr :: rest⟩ := le_trans hhdnz hhdle
  have hnb : ¬ (Grid.isBlank ⟨hdr :: rest⟩) = true :=
    nonblank_of_cell hdr rest bdf hbdfne (p - 1) hplt hcellBd
  have hgh : getHeader ⟨hdr :: rest⟩ =
      .ok (padTo hdr (Grid.lastColumn ⟨hdr :: rest⟩)) :=
    getHeader_head hdr rest _ rfl hhdle hLcpos
  have hisoList : ∀ f ∈ [cf], isIsoDate f = false := by
    intro f hf
    rw [List.mem_singleton] at hf
    subst hf
    exact hcfiso
  have hrow1nm : (Cell.str bdf).matchesText bd = false := by
    show (if (bd == "") = true then false else (bdf == bd)) = false
    by_cases hbd : (bd == "") = true
    · rw [if_pos hbd]
    · rw [if_neg hbd, beq_eq_false_iff_ne]
      exact hbdfbd
  have h1notin : (1 : Nat) ∉ matchRows ⟨hdr :: rest⟩ p bd := by
    intro hmem
    have hiff := mem_matchRowsFrom (hdr :: rest) p bd 1 0 (by simp)
    have hmt : (hdr.getD (p - 1) Cell.blank).matchesText bd = true :=
      hiff.mp hmem
    rw [hcellBd] at hmt
    exact Bool.noConfusion (hrow1nm.symm.trans hmt)
  by_cases hany : hdr.any (fun c => c.eqStr cf) = true
  · obtain ⟨mi, hfind⟩ := findIdx?_of_any (fun c => c.eqStr cf) hdr 0 hany
    obtain ⟨hmilt, hPmi⟩ := findIdx?_some_spec (fun c => c.eqStr cf) hdr mi hfind
    have hcellA : hdr.getD mi Cell.blank = Cell.str cf := eqStr_eq _ _ hPmi
    have hcolCfA : getColumnId ⟨hdr :: rest⟩ cf = .ok (((mi + 1 : Nat)) : Int) := by
      rw [getColumnId_head_findIdx hdr rest cf hcfne mi hfind hhdnz]
      exact congrArg Except.ok (by omega)
    obtain ⟨g1, hr1, hr2, hLRa, hLCa, hfr, hva⟩ := addComputedCountsField_core
      hdr rest bdf cf fn values bd counts (mi + 1) k p
      (by omega) hk hp hcolCfA hcolId hcolBd hcounts
      hcfid hcffn hcfbdf hbdfbd hcfne hcfiso hbdfne
    refine ⟨mi + 1, g1, by omega, Or.inl hfind, hr1, hr2, hLRa, ?_, ?_, ?_, ?_, hva⟩
    · rw [hLCa]
      omega
    · have h1 := hfr 1 (mi + 1) (by omega) (fun hcon => h1notin hcon.1)
      rw [h1]
      show hdr.getD (mi + 1 - 1) Cell.blank = Cell.str cf
      exact hcellA
    · intro i c hc hcm
      exact hfr i c hc (fun hcon => hcm hcon.2)
    · intro i hi2 hnotin
      exact hfr i (mi + 1) (by omega) (fun hcon => hnotin hcon.1)
  · simp only [Bool.not_eq_true] at hany
    have hpadany : (padTo hdr (Grid.lastColumn ⟨hdr :: rest⟩)).any
        (fun c => c.eqStr cf) = false := by
      rw [any_padTo hdr _ cf hcfne]
      exact hany
    have hmiss : missingCells (padTo hdr (Grid.lastColumn ⟨hdr :: rest⟩)) [cf] =
        [Cell.str cf] := by
      show (if (padTo hdr (Grid.lastColumn ⟨hdr :: rest⟩)).any
            (fun c => c.eqStr cf) = true
          then missingCells (padTo hdr (Grid.lastColumn ⟨hdr :: rest⟩)) []
          else Cell.str cf :: missingCells
            (padTo hdr (Grid.lastColumn ⟨hdr :: rest⟩) ++ [Cell.str cf]) []) =
        [Cell.str cf]
      rw [hpadany, if_neg Bool.false_ne_true]
      rfl
    have hup : upsertHeader ⟨hdr :: rest⟩ [cf] =
        .ok ⟨(padTo hdr (Grid.lastColumn ⟨hdr :: rest⟩) ++ [Cell.str cf]) :: rest⟩ := by
      rw [upsertHeader_nonblank hdr rest [cf] hnb hisoList, hmiss]
      rfl
    have hlen' : (padTo hdr (Grid.lastColumn ⟨hdr :: rest⟩) ++ [Cell.str cf]).length =
        Grid.lastColumn ⟨hdr :: rest⟩ + 1 := by
      rw [List.length_append, padTo_length hdr _ hhdle]
      rfl
    have hLc' : Grid.lastColumn
        ⟨(padTo hdr (Grid.lastColumn ⟨hdr :: rest⟩) ++ [Cell.str cf]) :: rest⟩ =
        Grid.lastColumn ⟨hdr :: rest⟩ + 1 :=
      lastColumn_of_head _ rest _ hlen'
        (fun row h => le_trans
          (rows_le_lastColumn ⟨hdr :: rest⟩ row (List.mem_cons_of_mem _ h))
          (Nat.le_succ _))
    have hfail : ∀ c ∈ padTo hdr (Grid.lastColumn ⟨hdr :: rest⟩),
        Cell.eqStr c cf = false := by
      intro c hc
      cases hcc : c.eqStr cf with
      | false => rfl
      | true =>
        exfalso
        have hT : (padTo hdr (Grid.lastColumn ⟨hdr :: rest⟩)).any
            (fun c => c.eqStr cf) = true := List.any_eq_true.mpr ⟨c, hc, hcc⟩
        rw [hpadany] at hT
        exact Bool.noConfusion hT
    have hfindCf' : List.findIdx? (fun c => c.eqStr cf)
        (padTo hdr (Grid.lastColumn ⟨hdr :: rest⟩) ++ [Cell.str cf]) 0 =
        some (Grid.lastColumn ⟨hdr :: rest⟩) := by
      have h0 := findIdx?_append_head_true (fun c => c.eqStr cf) (Cell.str cf)
        (by simp [Cell.eqStr]) (padTo hdr (Grid.lastColumn ⟨hdr :: rest⟩)) hfail 0
      rw [padTo_length hdr _ hhdle] at h0
      rw [Nat.zero_add] at h0
      exact h0
    have hfindId' : List.findIdx? (fun c => c.eqStr "id")
        (padTo hdr (Grid.lastColumn ⟨hdr :: rest⟩) ++ [Cell.str cf]) 0 =
        some (k - 1) := by
      refine findIdx?_append_found _ [Cell.str cf] _ 0 (k - 1) ?_
      show List.findIdx? (fun c => c.eqStr "id")
        (hdr ++ List.replicate
          (Grid.lastColumn ⟨hdr :: rest⟩ - hdr.length) Cell.blank) 0 =
        some (k - 1)
      exact findIdx?_append_found _ _ hdr 0 (k - 1) hfindId
    have hfindBd' : List.findIdx? (fun c => c.eqStr bdf)
        (padTo hdr (Grid.lastColumn ⟨hdr :: rest⟩) ++ [Cell.str cf]) 0 =
        some (p - 1) := by
      refine findIdx?_append_found _ [Cell.str cf] _ 0 (p - 1) ?_
      show List.findIdx? (fun c => c.eqStr bdf)
        (hdr ++ List.replicate
          (Grid.lastColumn ⟨hdr :: rest⟩ - hdr.length) Cell.blank) 0 =
        some (p - 1)
      exact findIdx?_append_found _ _ hdr 0 (p - 1) hfindBd
    have hcellCf' : (padTo hdr (Grid.lastColumn ⟨hdr :: rest⟩) ++
        [Cell.str cf]).getD (Grid.lastColumn ⟨hdr :: rest⟩) Cell.blank =
        Cell.str cf := by
      have h0 := getD_append_len (padTo hdr (Grid.lastColumn ⟨hdr :: rest⟩))
        (Cell.str cf)
      rw [padTo_length hdr _ hhdle] at h0
      exact h0
    have hcolCf' : getColumnId
        ⟨(padTo hdr (Grid.lastColumn ⟨hdr :: rest⟩) ++ [Cell.str cf]) :: rest⟩ cf =
        .ok (((Grid.lastColumn ⟨hdr :: rest⟩ + 1 : Nat)) : Int) := by
      rw [getColumnId_head_findIdx _ rest cf hcfne _ hfindCf'
        (by rw [hlen']; omega)]
      exact congrArg Except.ok (by omega)
    have hcolId' : getColumnId
        ⟨(padTo hdr (Grid.lastColumn ⟨hdr :: rest⟩) ++ [Cell.str cf]) :: rest⟩ "id" =
        .ok ((k : Int)) := by
      rw [getColumnId_head_findIdx _ rest "id" (by decide) (k - 1) hfindId'
        (by rw [hlen']; omega)]
      exact congrArg Except.ok (by omega)
    have hcolBd' : getColumnId
        ⟨(padTo hdr (Grid.lastColumn ⟨hdr :: rest⟩) ++ [Cell.str cf]) :: rest⟩ bdf =
        .ok ((p : Int)) := by
      rw [getColumnId_head_findIdx _ rest bdf hbdfne (p - 1) hfindBd'
        (by rw [hlen']; omega)]
      exact congrArg Except.ok (by omega)
    have hgh2 : getHeader
        ⟨(padTo hdr (Grid.lastColumn ⟨hdr :: rest⟩) ++ [Cell.str cf]) :: rest⟩ =
        .ok (padTo hdr (Grid.lastColumn ⟨hdr :: rest⟩) ++ [Cell.str cf]) := by
      have h0 := getHeader_head
        (padTo hdr (Grid.lastColumn ⟨hdr :: rest⟩) ++ [Cell.str cf]) rest
        (Grid.lastColumn ⟨hdr :: rest⟩ + 1) hLc' (le_of_eq hlen') (by omega)
      rw [padTo_of_length_le _ _ (le_of_eq hlen'.symm)] at h0
      exact h0
    have hcellg' : ∀ i c : Nat, c ≠ Grid.lastColumn ⟨hdr :: rest⟩ + 1 →
        Grid.cell ⟨(padTo hdr (Grid.lastColumn ⟨hdr :: rest⟩) ++
          [Cell.str cf]) :: rest⟩ i c = Grid.cell ⟨hdr :: rest⟩ i c := by
      intro i c hcm
      show (((padTo hdr (Grid.lastColumn ⟨hdr :: rest⟩) ++
          [Cell.str cf]) :: rest).getD (i - 1) []).getD (c - 1) Cell.blank =
        ((hdr :: rest).getD (i - 1) []).getD (c - 1) Cell.blank
      cases hic : i - 1 with
      | zero =>
        rw [List.getD_cons_zero, List.getD_cons_zero]
        by_cases hlt : c - 1 < Grid.lastColumn ⟨hdr :: rest⟩
        · rw [getD_append_lt _ _ _ (by rw [padTo_length hdr _ hhdle]; exact hlt),
            getD_padTo_any]
        · rw [getD_ge_len _ _ (by rw [hlen']; omega), getD_ge_len _ _ (by omega)]
      | succ n =>
        rw [List.getD_cons_succ, List.getD_cons_succ]
    have hcellrow : ∀ i : Nat, 2 ≤ i → ∀ c : Nat,
        Grid.cell ⟨(padTo hdr (Grid.lastColumn ⟨hdr :: rest⟩) ++
          [Cell.str cf]) :: rest⟩ i c = Grid.cell ⟨hdr :: rest⟩ i c := by
      intro i hi c
      show (((padTo hdr (Grid.lastColumn ⟨hdr :: rest⟩) ++
          [Cell.str cf]) :: rest).getD (i - 1) []).getD (c - 1) Cell.blank =
        ((hdr :: rest).getD (i - 1) []).getD (c - 1) Cell.blank
      rw [show i - 1 = (i - 2) + 1 from by omega, List.getD_cons_succ,
        List.getD_cons_succ]
    have hmeq' : matchRows ⟨(padTo hdr (Grid.lastColumn ⟨hdr :: rest⟩) ++
        [Cell.str cf]) :: rest⟩ p bd = matchRows ⟨hdr :: rest⟩ p bd := by
      show matchRowsFrom ((padTo hdr (Grid.lastColumn ⟨hdr :: rest⟩) ++
          [Cell.str cf]) :: rest) 1 p bd = matchRowsFrom (hdr :: rest) 1 p bd
      refine matchRowsFrom_congr_cells p bd _ _ (by simp) ?_ 1
      intro j hj
      cases j with
      | zero =>
        rw [List.getD_cons_zero, List.getD_cons_zero]
        rw [getD_append_lt _ _ _ (by rw [padTo_length hdr _ hhdle]; omega),
          getD_padTo_any]
      | succ n =>
        rw [List.getD_cons_succ, List.getD_cons_succ]
    have hcounts' : countRowsWhere
        ⟨(padTo hdr (Grid.lastColumn ⟨hdr :: rest⟩) ++ [Cell.str cf]) :: rest⟩
        fn values "id" = .ok counts := by
      refine (countRowsWhere_extend ⟨hdr :: rest⟩ _
        (padTo hdr (Grid.lastColumn ⟨hdr :: rest⟩)) (Cell.str cf) fn "id" cf
        values (Ne.symm hcffn) (fun h => hcfid h.symm) rfl hgh hgh2
        (padTo_length hdr _ hhdle) ?_ hLcpos ?_ hLc' ?_).trans hcounts
      · show 1 ≤ (hdr :: rest).length
        simp
      · show ((padTo hdr (Grid.lastColumn ⟨hdr :: rest⟩) ++
            [Cell.str cf]) :: rest).length = (hdr :: rest).length
        simp
      · intro i j hj
        exact hcellg' (i + 1) (j + 1) (by omega)
    have hup2 : upsertHeader
        ⟨(padTo hdr (Grid.lastColumn ⟨hdr :: rest⟩) ++ [Cell.str cf]) :: rest⟩
        [cf] = .ok ⟨(padTo hdr (Grid.lastColumn ⟨hdr :: rest⟩) ++
          [Cell.str cf]) :: rest⟩ := by
      refine upsertHeader_noop _ rest [cf] ?_ hisoList ?_
      · exact nonblank_of_cell _ rest cf hcfne (Grid.lastColumn ⟨hdr :: rest⟩)
          (by rw [hlen']; omega) hcellCf'
      · intro f hf
        rw [List.mem_singleton] at hf
        rw [hf, any_padTo _ _ cf hcfne, List.any_append, hpadany]
        simp [Cell.eqStr]
    have hsame : addComputedCountsField ⟨hdr :: rest⟩ bdf cf fn values bd =
        addComputedCountsField
          ⟨(padTo hdr (Grid.lastColumn ⟨hdr :: rest⟩) ++ [Cell.str cf]) :: rest⟩
          bdf cf fn values bd := by
      unfold addComputedCountsField
      simp only [Bind.bind, Except.bind, hcounts, hcounts', hup, hup2]
    obtain ⟨g1, hr1, hr2, hLRa, hLCa, hfr, hva⟩ := addComputedCountsField_core
      (padTo hdr (Grid.lastColumn ⟨hdr :: rest⟩) ++ [Cell.str cf]) rest
      bdf cf fn values bd counts (Grid.lastColumn ⟨hdr :: rest⟩ + 1) k p
      (by omega) hk hp hcolCf' hcolId' hcolBd' hcounts'
      hcfid hcffn hcfbdf hbdfbd hcfne hcfiso hbdfne
    refine ⟨Grid.lastColumn ⟨hdr :: rest⟩ + 1, g1, by omega,
      Or.inr ⟨hany, rfl⟩, hsame.trans hr1, hr2, ?_, ?_, ?_, ?_, ?_, ?_⟩
    · rw [hLRa]
      show ((padTo hdr (Grid.lastColumn ⟨hdr :: rest⟩) ++
          [Cell.str cf]) :: rest).length = (hdr :: rest).length
      simp
    · rw [hLCa, hLc']
      omega
    · have h1 := hfr 1 (Grid.lastColumn ⟨hdr :: rest⟩ + 1) (by omega)
        (fun hcon => h1notin (hmeq' ▸ hcon.1))
      rw [h1]
      show (padTo hdr (Grid.lastColumn ⟨hdr :: rest⟩) ++ [Cell.str cf]).getD
          (Grid.lastColumn ⟨hdr :: rest⟩ + 1 - 1) Cell.blank = Cell.str cf
      exact hcellCf'
    · intro i c hc hcm
      rw [hfr i c hc (fun hcon => hcm hcon.2)]
      exact hcellg' i c hcm
    · intro i hi2 hnotin
      have h1 := hfr i (Grid.lastColumn ⟨hdr :: rest⟩ + 1) (by omega)
        (fun hcon => hnotin (hmeq' ▸ hcon.1))
      rw [h1]
      exact hcellrow i hi2 _
    · intro i hi
      have hv := hva i (by rw [hmeq']; exact hi)
      rw [hcellg' i k (by omega)] at hv
      exact hv

/-- Witness for C7 (amended): on a concrete 4-row store with header
`id, Stage, Backup Date` (no computed column yet), computing the
`Metric` counts of `Stage ∈ [S]` for backup date `d1` succeeds, the
newly appended column's header cell holds `Metric`, and re-running the
computation on the result is a fixed point. -/
theorem addComputedCountsField_frame_value_idempotent_witness :
    ∃ (m : Nat) (g1 : Grid),
      addComputedCountsField
        ⟨[[Cell.str "id", Cell.str "Stage", Cell.str "Backup Date"],
          [Cell.str "x", Cell.str "S", Cell.str "d1"],
          [Cell.str "y", Cell.str "T", Cell.str "d2"],
          [Cell.str "x", Cell.str "S", Cell.str "d1"]]⟩
        "Backup Date" "Metric" "Stage" ["S"] "d1" = .ok g1 ∧
      addComputedCountsField g1 "Backup Date" "Metric" "Stage" ["S"] "d1" = .ok g1 ∧
      g1.cell 1 m = Cell.str "Metric" := by
  obtain ⟨m, g1, -, -, h1, h2, -, -, h3, -, -, -⟩ :=
    addComputedCountsField_frame_value_idempotent
      [Cell.str "id", Cell.str "Stage", Cell.str "Backup Date"]
      [[Cell.str "x", Cell.str "S", Cell.str "d1"],
        [Cell.str "y", Cell.str "T", Cell.str "d2"],
        [Cell.str "x", Cell.str "S", Cell.str "d1"]]
      "Backup Date" "Metric" "Stage" ["S"] "d1" [("x", 2)] 1 3
      (by decide) (by decide)
      (by rfl) (by rfl) (by rfl)
      (by decide) (by decide) (by decide) (by decide) (by decide) (by decide)
      (by decide)
  exact ⟨m, g1, h1, h2, h3⟩

end AirtableSheets
